import Mathlib

/-!
Verification development for the map-source pipeline.

Shallow embedding of

* `GameImpl::writeLongAttribute` / `GameImpl::readLongAttribute`
  (`src/common/src/Model/GameImpl.cpp`), and
* the reader `MapReader` (`src/common/src/io/MapReader.h`): its records and data members
  are those of the header; the bodies of its member functions are not among the sources
  and are modelled from the specification, each such definition saying so.

Strings (`std::string`) are lists of characters, `size_t` values are natural
numbers (no operation below can exceed the width of `size_t`: every index is
bounded by the length of a string or of a vector that already exists).
-/

set_option autoImplicit false

namespace TrenchBroom

/-! ## Part 1. Definitions -/

namespace Model

/-- A `std::string`: a sequence of characters. -/
abbrev Str := List Char

/-- An entity property: a key and a value (`Model::EntityProperty`). -/
structure EntityProperty where
  key : Str
  value : Str
deriving DecidableEq, Repr

/-- An entity is the ordered list of its properties (`Model::Entity`). -/
abbrev Entity := List EntityProperty

/-- An entity node holds its entity (`node.entity()`, `node.setEntity(..)`). -/
structure EntityNodeBase where
  entity : Entity
deriving DecidableEq, Repr

/-- Stream output `nameStr << i` of a `size_t`: the decimal digits of the number. -/
def decimal (n : Nat) : Str := Nat.toDigits 10 n

/-- The key built by `nameStr << baseName << index`. -/
def numberedName (baseName : Str) (index : Nat) : Str := baseName ++ decimal index

/-- Library call `std::string::substr(pos, len)`: the characters from `pos`, at most `len`
of them; it throws `std::out_of_range` (here `none`) when `pos` is beyond the end. -/
def substr (s : Str) (pos len : Nat) : Option Str :=
  if pos ≤ s.length then some ((s.drop pos).take len) else none

/-- Modelled from the spec: `isNumberedProperty` of `EntityProperties` is not among the
sources. A numbered property of `key` is `key1`, `key2`, ...: the base name followed by
decimal digits only. -/
def isNumberedProperty (baseName key : Str) : Bool :=
  baseName.isPrefixOf key && (key.drop baseName.length).all Char.isDigit

/-- Modelled from the spec: `Entity::hasProperty` is not among the sources. The entity
is an ordered list of (key, value) pairs; a property is present when some pair has the key. -/
def Entity.hasProperty (e : Entity) (key : Str) : Bool :=
  e.any (fun p => decide (p.key = key))

/-- Modelled from the spec: `Entity::property` is not among the sources. The value of the
first pair with the key, or a null pointer (`none`). -/
def Entity.property (e : Entity) (key : Str) : Option Str :=
  (e.find? (fun p => decide (p.key = key))).map EntityProperty.value

/-- Replace the value of the first pair with the given key. -/
def Entity.setFirst : Entity → Str → Str → Entity
  | [], _, _ => []
  | p :: ps, key, value =>
    if p.key = key then { key := key, value := value } :: ps
    else p :: Entity.setFirst ps key value

/-- Modelled from the spec: `Entity::addOrUpdateProperty` is not among the sources. An
existing pair with the key gets the new value in place; otherwise the pair is appended. -/
def Entity.addOrUpdateProperty (e : Entity) (key value : Str) : Entity :=
  if e.hasProperty key then e.setFirst key value else e ++ [{ key := key, value := value }]

/-- Modelled from the spec: `Entity::removeNumberedProperty` is not among the sources.
All numbered properties of the base name are erased, the others keep their order. -/
def Entity.removeNumberedProperty (e : Entity) (baseName : Str) : Entity :=
  e.filter (fun p => !isNumberedProperty baseName p.key)

/-- The `for` loop of `GameImpl::writeLongAttribute`: `count` iterations remain, the loop
variable is `i`. -/
def writeLongAttributeLoop (baseName value : Str) (maxLength : Nat) :
    Nat → Nat → Entity → Option Entity
  | 0, _, entity => some entity
  | count + 1, i, entity =>
    match substr value (i * maxLength) maxLength with
    | none => none
    | some chunk =>
      writeLongAttributeLoop baseName value maxLength count (i + 1)
        (entity.addOrUpdateProperty (numberedName baseName (i + 1)) chunk)

/-- `GameImpl::writeLongAttribute(node, baseName, value, maxLength)`; the result is the
node after `node.setEntity`. Division by `maxLength = 0` is undefined behaviour and an
exception of `substr` leaves without `setEntity`: both are `none`. -/
def writeLongAttribute (node : EntityNodeBase) (baseName value : Str) (maxLength : Nat) :
    Option EntityNodeBase :=
  if maxLength = 0 then none
  else
    (writeLongAttributeLoop baseName value maxLength (value.length / maxLength + 1) 0
      (node.entity.removeNumberedProperty baseName)).map EntityNodeBase.mk

/-- The `while` loop of `GameImpl::readLongAttribute` with the loop variable `index` and
the contents `acc` of `valueStr`; `none` when `fuel` iterations did not reach the exit. -/
def readLongAttributeLoop (entity : Entity) (baseName : Str) : Nat → Nat → Str → Option Str
  | 0, _, _ => none
  | fuel + 1, index, acc =>
    if entity.hasProperty (numberedName baseName index) then
      readLongAttributeLoop entity baseName fuel (index + 1)
        (match entity.property (numberedName baseName index) with
          | some value => acc ++ value
          | none => acc)
    else some acc

/-- `GameImpl::readLongAttribute(node, baseName)`. The loop passes through pairwise
different keys of the entity, so one more iteration than the entity has properties
always reaches the exit (`readLongAttribute_isSome`). -/
def readLongAttribute (node : EntityNodeBase) (baseName : Str) : Option Str :=
  readLongAttributeLoop node.entity baseName (node.entity.length + 1) 1 []

/-- The piece `value.substr(i * maxLength, maxLength)` of the `i`-th iteration. -/
def chunk (value : Str) (maxLength i : Nat) : Str := (value.drop (i * maxLength)).take maxLength

/-- The properties that iterations `i, i + 1, ..., i + count - 1` of the loop of
`writeLongAttribute` append to an entity without numbered properties of the base name. -/
def chunkProperties (baseName value : Str) (maxLength i count : Nat) : Entity :=
  (List.range' i count).map
    (fun j => { key := numberedName baseName (j + 1), value := chunk value maxLength j })

end Model

namespace MapReader

open Model

/-! ### Records of `MapReader.h` -/

/-- Modelled from the spec: `FileLocation.h` is not among the sources; a file location is
a position in the text, here line and column. -/
structure FileLocation where
  line : Nat
  column : Nat
deriving DecidableEq, Repr

/-- `MapReader::EntityInfo`. -/
structure EntityInfo where
  properties : List EntityProperty
  startLocation : FileLocation
  endLocation : Option FileLocation
deriving DecidableEq, Repr

/-- `MapReader::BrushInfo`; the type of a brush face (`mdl::BrushFace`) is a parameter. -/
structure BrushInfo (Face : Type) where
  faces : List Face
  startLocation : FileLocation
  endLocation : Option FileLocation
  parentIndex : Option Nat
deriving DecidableEq, Repr

/-- `MapReader::PatchInfo`; the type of a control point (`mdl::BezierPatch::Point`) is a
parameter. -/
structure PatchInfo (Point : Type) where
  rowCount : Nat
  columnCount : Nat
  controlPoints : List Point
  materialName : Str
  startLocation : FileLocation
  endLocation : Option FileLocation
  parentIndex : Option Nat
deriving DecidableEq, Repr

/-- `MapReader::ObjectInfo = std::variant<EntityInfo, BrushInfo, PatchInfo>`. -/
inductive ObjectInfo (Face Point : Type) where
  | entity (info : EntityInfo)
  | brush (info : BrushInfo Face)
  | patch (info : PatchInfo Point)
deriving DecidableEq, Repr

variable {Face Point Plane : Type}

/-- The start location of a record. -/
def ObjectInfo.startLocation : ObjectInfo Face Point → FileLocation
  | .entity info => info.startLocation
  | .brush info => info.startLocation
  | .patch info => info.startLocation

/-- The end location of a record. -/
def ObjectInfo.endLocation : ObjectInfo Face Point → Option FileLocation
  | .entity info => info.endLocation
  | .brush info => info.endLocation
  | .patch info => info.endLocation

/-- The parent index of a brush or patch record; an entity record has none. -/
def ObjectInfo.parentIndex : ObjectInfo Face Point → Option Nat
  | .entity _ => none
  | .brush info => info.parentIndex
  | .patch info => info.parentIndex

/-- Whether the record is an `EntityInfo`. -/
def ObjectInfo.isEntity : ObjectInfo Face Point → Bool
  | .entity _ => true
  | _ => false

/-- The alternative held by the variant: 0, 1 or 2 (`std::variant::index`). -/
def ObjectInfo.index : ObjectInfo Face Point → Nat
  | .entity _ => 0
  | .brush _ => 1
  | .patch _ => 2

/-! ### Diagnostics -/

/-- Modelled from the spec: the taxonomy of section 7 (`ParserStatus` is not among the
sources). -/
inductive ErrorKind where
  | lexError
  | structuralError
  | constructionError
  | resolutionWarning
  | fatalParseError
deriving DecidableEq, Repr

/-- Modelled from the spec: a diagnostic of the sink `report(severity, message,
file-location)`; the message text is left out. -/
structure Diagnostic where
  kind : ErrorKind
  location : FileLocation
deriving DecidableEq, Repr

/-! ### Raw object collector -/

/-- The data of `MapReader` that the parser callbacks fill (`m_objectInfos`,
`m_currentEntityInfo`) together with the diagnostics reported so far. -/
structure Collector (Face Point : Type) where
  m_objectInfos : List (ObjectInfo Face Point)
  m_currentEntityInfo : List Nat
  status : List Diagnostic
deriving DecidableEq, Repr

/-- The reader before the first callback. -/
def Collector.initial : Collector Face Point :=
  { m_objectInfos := [], m_currentEntityInfo := [], status := [] }

/-- Modelled from the spec: the body of `MapReader::getCurrentEntityInfo` is not among the
sources; the top of the stack of current entity indices, absent when the stack is empty. -/
def Collector.getCurrentEntityInfo (c : Collector Face Point) : Option Nat :=
  c.m_currentEntityInfo.getLast?

/-- The callbacks of the `MapParser` interface that `MapReader` implements; a face line
(`onStandardBrushFace`, `onValveBrushFace`) is given by the face it describes. -/
inductive Callback (Face Point : Type) where
  | onBeginEntity (location : FileLocation) (properties : List EntityProperty)
  | onEndEntity (endLocation : FileLocation)
  | onBeginBrush (location : FileLocation)
  | onEndBrush (endLocation : FileLocation)
  | onBrushFaceLine (location : FileLocation) (face : Face)
  | onPatch (startLocation endLocation : FileLocation) (rowCount columnCount : Nat)
      (controlPoints : List Point) (materialName : Str)
deriving DecidableEq, Repr

/-- Report a diagnostic. -/
def Collector.report (c : Collector Face Point) (kind : ErrorKind) (location : FileLocation) :
    Collector Face Point :=
  { c with status := c.status ++ [{ kind := kind, location := location }] }

/-- Modelled from the spec: the body of `MapReader::onBeginEntity` is not among the
sources. The record is created when the entity block opens, appended to the flat
sequence, and its index becomes the top of the stack. -/
def Collector.onBeginEntity (c : Collector Face Point) (location : FileLocation)
    (properties : List EntityProperty) : Collector Face Point :=
  { c with
    m_objectInfos := c.m_objectInfos ++
      [.entity { properties := properties, startLocation := location, endLocation := none }]
    m_currentEntityInfo := c.m_currentEntityInfo ++ [c.m_objectInfos.length] }

/-- Modelled from the spec: the body of `MapReader::onEndEntity` is not among the sources.
The entity on top of the stack is finalized with its end location and popped; a closing
brace without an open entity block is a structural error and is skipped. -/
def Collector.onEndEntity (c : Collector Face Point) (endLocation : FileLocation) :
    Collector Face Point :=
  match c.getCurrentEntityInfo with
  | none => c.report .structuralError endLocation
  | some index =>
    match c.m_objectInfos[index]? with
    | some (.entity info) =>
      { c with
        m_objectInfos :=
          c.m_objectInfos.set index (.entity { info with endLocation := some endLocation })
        m_currentEntityInfo := c.m_currentEntityInfo.dropLast }
    | _ => c.report .structuralError endLocation

/-- Modelled from the spec: the body of `MapReader::onBeginBrush` is not among the
sources. A brush record with no faces yet is appended. -/
def Collector.onBeginBrush (c : Collector Face Point) (location : FileLocation) :
    Collector Face Point :=
  { c with
    m_objectInfos := c.m_objectInfos ++
      [.brush { faces := [], startLocation := location, endLocation := none,
                parentIndex := none }] }

/-- The brush block that is open: the last record, when it is a brush that has not been
closed. -/
def Collector.openBrush (c : Collector Face Point) : Option (BrushInfo Face) :=
  match c.m_objectInfos.getLast? with
  | some (.brush info) => if info.endLocation.isNone then some info else none
  | _ => none

/-- Modelled from the spec: the body of `MapReader::onEndBrush` is not among the sources.
The open brush is finalized with its end location and captures the top of the stack as
its parent candidate at the moment its block closes; a closing brace without an open brush
block is a structural error and is skipped. -/
def Collector.onEndBrush (c : Collector Face Point) (endLocation : FileLocation) :
    Collector Face Point :=
  match c.openBrush with
  | some info =>
    { c with
      m_objectInfos := c.m_objectInfos.set (c.m_objectInfos.length - 1)
        (.brush { info with endLocation := some endLocation,
                            parentIndex := c.getCurrentEntityInfo }) }
  | none => c.report .structuralError endLocation

/-- Modelled from the spec: the bodies of `MapReader::onStandardBrushFace` and
`onValveBrushFace` are not among the sources. The face joins the face list of the open
brush; a face line outside a brush block is a structural error and is skipped. -/
def Collector.onBrushFaceLine (c : Collector Face Point) (location : FileLocation)
    (face : Face) : Collector Face Point :=
  match c.openBrush with
  | some info =>
    { c with
      m_objectInfos := c.m_objectInfos.set (c.m_objectInfos.length - 1)
        (.brush { info with faces := info.faces ++ [face] }) }
  | none => c.report .structuralError location

/-- Modelled from the spec: the body of `MapReader::onPatch` is not among the sources. A
patch record is created and finalized at once and captures the top of the stack as its
parent candidate. -/
def Collector.onPatch (c : Collector Face Point) (startLocation endLocation : FileLocation)
    (rowCount columnCount : Nat) (controlPoints : List Point) (materialName : Str) :
    Collector Face Point :=
  { c with
    m_objectInfos := c.m_objectInfos ++
      [.patch { rowCount := rowCount, columnCount := columnCount,
                controlPoints := controlPoints, materialName := materialName,
                startLocation := startLocation, endLocation := some endLocation,
                parentIndex := c.getCurrentEntityInfo }] }

/-- One parser callback. -/
def Collector.step (c : Collector Face Point) : Callback Face Point → Collector Face Point
  | .onBeginEntity location properties => c.onBeginEntity location properties
  | .onEndEntity endLocation => c.onEndEntity endLocation
  | .onBeginBrush location => c.onBeginBrush location
  | .onEndBrush endLocation => c.onEndBrush endLocation
  | .onBrushFaceLine location face => c.onBrushFaceLine location face
  | .onPatch startLocation endLocation rowCount columnCount controlPoints materialName =>
    c.onPatch startLocation endLocation rowCount columnCount controlPoints materialName

/-- A sequence of parser callbacks, from a given state of the reader. -/
def Collector.run (c : Collector Face Point) (callbacks : List (Callback Face Point)) :
    Collector Face Point :=
  callbacks.foldl Collector.step c

/-- The record whose block the callback closes in the given state, if any: the entity on
top of the stack for `onEndEntity`, the open brush for `onEndBrush`, the new record for
`onPatch` (a patch arrives with its end location). -/
def Collector.closes (c : Collector Face Point) : Callback Face Point → Option Nat
  | .onEndEntity _ =>
    match c.getCurrentEntityInfo with
    | some index =>
      match c.m_objectInfos[index]? with
      | some (.entity _) => some index
      | _ => none
    | none => none
  | .onEndBrush _ =>
    match c.openBrush with
    | some _ => some (c.m_objectInfos.length - 1)
    | none => none
  | .onPatch _ _ _ _ _ _ => some c.m_objectInfos.length
  | _ => none

/-- The indices of the records whose closing brace was seen in a sequence of callbacks. -/
def Collector.closed : Collector Face Point → List (Callback Face Point) → List Nat
  | _, [] => []
  | c, callback :: callbacks =>
    match c.closes callback with
    | some index => index :: Collector.closed (c.step callback) callbacks
    | none => Collector.closed (c.step callback) callbacks

/-- The invariant of the collector: the stack holds pairwise different indices of entity
records that are still open, a parent index points to an entity record created earlier,
a patch record is closed, and the collector reports structural errors only. -/
structure Collector.Invariant (c : Collector Face Point) : Prop where
  stack_open : ∀ p ∈ c.m_currentEntityInfo,
    ∃ e : EntityInfo, c.m_objectInfos[p]? = some (.entity e) ∧ e.endLocation = none
  stack_nodup : c.m_currentEntityInfo.Nodup
  parent_earlier : ∀ (i : Nat) (info : ObjectInfo Face Point) (p : Nat),
    c.m_objectInfos[i]? = some info → info.parentIndex = some p →
    p < i ∧ ∃ e : EntityInfo, c.m_objectInfos[p]? = some (.entity e)
  patch_closed : ∀ (i : Nat) (p : PatchInfo Point),
    c.m_objectInfos[i]? = some (.patch p) → p.endLocation.isSome = true
  status_structural : ∀ d ∈ c.status, d.kind = ErrorKind.structuralError

/-! ### Node builder -/

/-- A layer or group named by a property of an entity. -/
inductive ContainerRef where
  | layer (id : Nat)
  | group (id : Nat)
deriving DecidableEq, Repr

/-- What the properties of an entity mark it as: the worldspawn, a layer with its id, a
group with its id, or a plain entity; a group and a plain entity may name the layer or
group that contains them. -/
inductive EntityType where
  | worldspawn
  | layer (id : Nat)
  | group (id : Nat) (container : Option ContainerRef)
  | plain (container : Option ContainerRef)
deriving DecidableEq, Repr

/-- The collaborators of the builder, which the spec treats as interfaces: the reserved
property keys that mark an entity (`entityType`) and the geometry kernel
(`planeFromPoints` on the three points of a face, absent when they define no plane, and
`intersectPlanes`, true when the planes bound a solid). -/
structure BuildContext (Face Plane : Type) where
  entityType : List EntityProperty → EntityType
  planeFromFace : Face → Option Plane
  intersectPlanes : List Plane → Bool

/-- A built node: the tagged union World, Layer, Group, Entity, Brush, Patch. -/
inductive Node (Face Point : Type) where
  | world (properties : List EntityProperty)
  | layer (id : Nat) (properties : List EntityProperty)
  | group (id : Nat) (properties : List EntityProperty)
  | entity (properties : List EntityProperty)
  | brush (faces : List Face)
  | patch (rowCount columnCount : Nat) (controlPoints : List Point) (materialName : Str)
deriving DecidableEq, Repr

/-- Whether the node is the world node. -/
def Node.isWorld : Node Face Point → Bool
  | .world _ => true
  | _ => false

/-- Whether the node is a brush or a patch. -/
def Node.isGeometry : Node Face Point → Bool
  | .brush _ => true
  | .patch _ _ _ _ => true
  | _ => false

/-- Where a built node wants to be attached: a layer or group named by its properties,
or the record at the parent index captured by the collector. -/
inductive ParentInfo where
  | container (ref : ContainerRef)
  | record (index : Nat)
deriving DecidableEq, Repr

/-- A built node with the information needed to restore its parent. -/
structure NodeInfo (Face Point : Type) where
  node : Node Face Point
  parentInfo : Option ParentInfo
deriving DecidableEq, Repr

/-- Modelled from the spec: the builder for entity records is not among the sources. The
property list is copied verbatim, and the kind of the node follows from what the
properties mark the entity as: a worldspawn entity yields a world node, wherever its
record stands in the sequence. The build of a record does not depend on its index. -/
def createNodeFromEntityInfo (ctx : BuildContext Face Plane) (_index : Nat)
    (info : EntityInfo) : NodeInfo Face Point :=
  match ctx.entityType info.properties with
  | .worldspawn => { node := .world info.properties, parentInfo := none }
  | .layer id => { node := .layer id info.properties, parentInfo := none }
  | .group id container =>
    { node := .group id info.properties, parentInfo := container.map ParentInfo.container }
  | .plain container =>
    { node := .entity info.properties, parentInfo := container.map ParentInfo.container }

/-- The valid, pairwise different planes of the faces of a brush. -/
def validPlanes [DecidableEq Plane] (ctx : BuildContext Face Plane) (faces : List Face) :
    List Plane :=
  (faces.filterMap ctx.planeFromFace).dedup

/-- Modelled from the spec: the builder for brush records is not among the sources. A
brush with fewer than 4 valid, non-duplicate planes, or whose planes bound no solid, is a
construction failure reported for that brush. -/
def createBrushNode [DecidableEq Plane] (ctx : BuildContext Face Plane)
    (info : BrushInfo Face) : Except Diagnostic (NodeInfo Face Point) :=
  if (validPlanes ctx info.faces).length < 4 then
    .error { kind := .constructionError, location := info.startLocation }
  else if ctx.intersectPlanes (validPlanes ctx info.faces) then
    .ok { node := .brush info.faces, parentInfo := info.parentIndex.map ParentInfo.record }
  else .error { kind := .constructionError, location := info.startLocation }

/-- Modelled from the spec: the builder for patch records is not among the sources. The
product of the row and column counts must match the number of control points exactly,
and counts below the minimum of three are a construction failure. -/
def createPatchNode (info : PatchInfo Point) : Except Diagnostic (NodeInfo Face Point) :=
  if info.rowCount * info.columnCount = info.controlPoints.length ∧
      3 ≤ info.rowCount ∧ 3 ≤ info.columnCount then
    .ok { node := .patch info.rowCount info.columnCount info.controlPoints info.materialName,
          parentInfo := info.parentIndex.map ParentInfo.record }
  else .error { kind := .constructionError, location := info.startLocation }

/-- The build of a record according to its kind. -/
def createNodeOfKind [DecidableEq Plane] (ctx : BuildContext Face Plane) (index : Nat) :
    ObjectInfo Face Point → Except Diagnostic (NodeInfo Face Point)
  | .entity entityInfo => .ok (createNodeFromEntityInfo ctx index entityInfo)
  | .brush brushInfo => createBrushNode ctx brushInfo
  | .patch patchInfo => createPatchNode patchInfo

/-- The diagnostic for a block that was never closed: a structural error that references
the opening location. -/
def unclosedError (info : ObjectInfo Face Point) : List Diagnostic :=
  if info.endLocation.isNone then
    [{ kind := .structuralError, location := info.startLocation }]
  else []

/-- Modelled from the spec: the build of one record is not among the sources. The record
is built according to its kind; a block that was never closed is reported as a structural
error and yields no node, and a construction failure is reported and yields no node. The
result is the content of the slot and the diagnostics of this record. -/
def createNodeFromObjectInfo [DecidableEq Plane] (ctx : BuildContext Face Plane)
    (index : Nat) (info : ObjectInfo Face Point) :
    Option (NodeInfo Face Point) × List Diagnostic :=
  match createNodeOfKind ctx index info with
  | .ok nodeInfo => (if info.endLocation.isNone then none else some nodeInfo, unclosedError info)
  | .error diagnostic => (none, unclosedError info ++ [diagnostic])

/-- The content of the slot of the record at `index` once its task has completed. -/
def buildSlot [DecidableEq Plane] (ctx : BuildContext Face Plane)
    (objectInfos : List (ObjectInfo Face Point)) (index : Nat) : Option (NodeInfo Face Point) :=
  match objectInfos[index]? with
  | some info => (createNodeFromObjectInfo ctx index info).1
  | none => none

/-- The diagnostics that the task of the record at `index` reports. -/
def buildErrors [DecidableEq Plane] (ctx : BuildContext Face Plane)
    (objectInfos : List (ObjectInfo Face Point)) (index : Nat) : List Diagnostic :=
  match objectInfos[index]? with
  | some info => (createNodeFromObjectInfo ctx index info).2
  | none => []

/-! ### Parallel execution of the build -/

/-- Modelled from the spec: the task manager (`kdl::task_manager`) is not among the
sources. A bounded pool of `workers` takes the tasks in submission order; any task that
is running may complete next. `pending` are the tasks not yet completed, of which the
first `workers` are running, and `choices` are the decisions of the scheduler; `fuel`
bounds the number of completions. The result is the order of completion. -/
def completionOrder (workers : Nat) : Nat → List Nat → List Nat → List Nat
  | 0, _, _ => []
  | fuel + 1, choices, pending =>
    match pending[choices.headD 0 % min (max workers 1) pending.length]? with
    | none => []
    | some task =>
      task :: completionOrder workers fuel choices.tail
        (pending.eraseIdx (choices.headD 0 % min (max workers 1) pending.length))

/-- The slot array of results and the diagnostics sink shared by the workers. -/
structure BuildState (Face Point : Type) where
  slots : List (Option (NodeInfo Face Point))
  status : List Diagnostic
deriving DecidableEq, Repr

/-- Modelled from the spec: completion of the task for the record at `index`. The task
writes its node, if it built one, into the slot of the record and appends its diagnostics
to the shared sink. -/
def completeTask [DecidableEq Plane] (ctx : BuildContext Face Plane)
    (objectInfos : List (ObjectInfo Face Point)) (state : BuildState Face Point)
    (index : Nat) : BuildState Face Point :=
  match objectInfos[index]? with
  | none => state
  | some info =>
    match createNodeFromObjectInfo ctx index info with
    | (some nodeInfo, diagnostics) =>
      { slots := state.slots.set index (some nodeInfo), status := state.status ++ diagnostics }
    | (none, diagnostics) => { state with status := state.status ++ diagnostics }

/-- Modelled from the spec: `createNodesFromObjectInfos` is not among the sources. The
slot array is sized in advance with one empty slot per record, one task per record is
submitted, and the tasks complete in the order the scheduler decides. -/
def createNodesFromObjectInfos [DecidableEq Plane] (ctx : BuildContext Face Plane)
    (workers : Nat) (choices : List Nat) (objectInfos : List (ObjectInfo Face Point))
    (status : List Diagnostic) : BuildState Face Point :=
  (completionOrder workers objectInfos.length choices (List.range objectInfos.length)).foldl
    (completeTask ctx objectInfos)
    { slots := List.replicate objectInfos.length none, status := status }

/-! ### Hierarchy resolver -/

/-- The calls of the subclassing interface of `MapReader`; a node is passed with the
index of the record it was built from, a parent is the index of the record of the parent
node (`none` is the null pointer). -/
inductive Event (Face Point : Type) where
  | onWorldNode (index : Nat) (worldNode : Node Face Point)
  | onLayerNode (index : Nat) (layerNode : Node Face Point)
  | onNode (parentNode : Option Nat) (index : Nat) (node : Node Face Point)
  | onBrushFace (face : Face)
deriving DecidableEq, Repr

/-- Whether the call is `onWorldNode`. -/
def Event.isWorld : Event Face Point → Bool
  | .onWorldNode _ _ => true
  | _ => false

/-- The record of the node that the call hands over. -/
def Event.record : Event Face Point → Option Nat
  | .onWorldNode index _ => some index
  | .onLayerNode index _ => some index
  | .onNode _ index _ => some index
  | .onBrushFace _ => none

/-- The node that the call hands over. -/
def Event.node : Event Face Point → Option (Node Face Point)
  | .onWorldNode _ node => some node
  | .onLayerNode _ node => some node
  | .onNode _ _ node => some node
  | .onBrushFace _ => none

/-- The record and the node that a call hands over; a bare face has none. -/
def Event.handed : Event Face Point → Option (Nat × Node Face Point)
  | .onWorldNode index node => some (index, node)
  | .onLayerNode index node => some (index, node)
  | .onNode _ index node => some (index, node)
  | .onBrushFace _ => none

/-- The state of the sequential pass of the resolver: the layer and group tables (id and
record index), the calls made and the diagnostics. -/
structure ResolverState (Face Point : Type) where
  layers : List (Nat × Nat)
  groups : List (Nat × Nat)
  events : List (Event Face Point)
  status : List Diagnostic
deriving DecidableEq, Repr

/-- Look up an id in a layer or group table. -/
def lookupId (table : List (Nat × Nat)) (id : Nat) : Option Nat :=
  (table.find? (fun entry => entry.1 = id)).map Prod.snd

/-- Modelled from the spec: the parent lookup of the resolver is not among the sources.
A reference to a layer or group that is already resolved, or a parent index whose record
was built, gives the parent; a forward, unresolvable or absent reference gives none. -/
def resolveParent (slots : List (Option (NodeInfo Face Point)))
    (state : ResolverState Face Point) : Option ParentInfo → Option Nat
  | none => none
  | some (.container (.layer id)) => lookupId state.layers id
  | some (.container (.group id)) => lookupId state.groups id
  | some (.record index) =>
    match slots[index]? with
    | some (some _) => some index
    | _ => none

/-- Add a call and, when the parent could not be resolved, a resolution note. -/
def ResolverState.attach (state : ResolverState Face Point) (location : FileLocation)
    (parent : Option Nat) (index : Nat) (node : Node Face Point) : ResolverState Face Point :=
  { state with
    events := state.events ++ [.onNode parent index node]
    status :=
      if parent.isNone then
        state.status ++ [{ kind := .resolutionWarning, location := location }]
      else state.status }

/-- Modelled from the spec: one step of the sequential pass of the resolver, for the
record at `index` with its slot. An empty slot is passed over. The world node goes to the
world factory, a layer is registered and goes to `onLayerNode`, a group is registered and
attached like any other node: under its resolved parent, or with a null parent and a
resolution note. -/
def resolveStep (objectInfos : List (ObjectInfo Face Point))
    (slots : List (Option (NodeInfo Face Point))) (state : ResolverState Face Point)
    (index : Nat) : ResolverState Face Point :=
  match slots[index]?, objectInfos[index]? with
  | some (some nodeInfo), some info =>
    match nodeInfo.node with
    | .world properties =>
      { state with events := state.events ++ [.onWorldNode index (.world properties)] }
    | .layer id properties =>
      { state with
        layers := state.layers ++ [(id, index)]
        events := state.events ++ [.onLayerNode index (.layer id properties)] }
    | .group id properties =>
      { (state.attach info.startLocation (resolveParent slots state nodeInfo.parentInfo)
          index (.group id properties)) with
        groups := state.groups ++ [(id, index)] }
    | node =>
      state.attach info.startLocation (resolveParent slots state nodeInfo.parentInfo)
        index node
  | _, _ => state

/-- The call that the step of the resolver for the record at `index` makes, if any. -/
def resolveEvent (objectInfos : List (ObjectInfo Face Point))
    (slots : List (Option (NodeInfo Face Point))) (state : ResolverState Face Point)
    (index : Nat) : Option (Event Face Point) :=
  match slots[index]?, objectInfos[index]? with
  | some (some nodeInfo), some _ =>
    match nodeInfo.node with
    | .world properties => some (.onWorldNode index (.world properties))
    | .layer id properties => some (.onLayerNode index (.layer id properties))
    | node => some (.onNode (resolveParent slots state nodeInfo.parentInfo) index node)
  | _, _ => none

/-- What a run of the reader leaves: the slot array, the calls of the subclassing
interface in order, and the diagnostics. -/
structure RunResult (Face Point : Type) where
  nodes : List (Option (NodeInfo Face Point))
  events : List (Event Face Point)
  status : List Diagnostic
deriving DecidableEq, Repr

/-- Modelled from the spec: the hierarchy resolver is not among the sources. A single
sequential pass over the records in their original order. -/
def resolve (objectInfos : List (ObjectInfo Face Point))
    (slots : List (Option (NodeInfo Face Point))) : ResolverState Face Point :=
  (List.range objectInfos.length).foldl (resolveStep objectInfos slots)
    { layers := [], groups := [], events := [], status := [] }

/-- Modelled from the spec: `MapReader::createNodes` is not among the sources. The
records are built in parallel into the slot array, then the resolver passes over the
slots and calls the subclassing interface; its notes join the diagnostics. -/
def createNodes [DecidableEq Plane] (ctx : BuildContext Face Plane) (workers : Nat)
    (choices : List Nat) (c : Collector Face Point) : RunResult Face Point :=
  let built := createNodesFromObjectInfos ctx workers choices c.m_objectInfos c.status
  let resolved := resolve c.m_objectInfos built.slots
  { nodes := built.slots, events := resolved.events, status := built.status ++ resolved.status }

/-- The slot array when the records are built one after the other in their order. -/
def sequentialSlots [DecidableEq Plane] (ctx : BuildContext Face Plane)
    (objectInfos : List (ObjectInfo Face Point)) : List (Option (NodeInfo Face Point)) :=
  (List.range objectInfos.length).map (buildSlot ctx objectInfos)

/-- The records that were built with their nodes, in the original order of the records. -/
def documentOrder [DecidableEq Plane] (ctx : BuildContext Face Plane)
    (objectInfos : List (ObjectInfo Face Point)) : List (Nat × Node Face Point) :=
  (List.range objectInfos.length).filterMap
    (fun index => (buildSlot ctx objectInfos index).map (fun nodeInfo => (index, nodeInfo.node)))

/-- Modelled from the spec: `MapReader::readEntities` is not among the sources. The
callbacks of the parse of entity blocks are collected, then the nodes are created. -/
def readEntities [DecidableEq Plane] (ctx : BuildContext Face Plane) (workers : Nat)
    (choices : List Nat) (callbacks : List (Callback Face Point)) : RunResult Face Point :=
  createNodes ctx workers choices (Collector.initial.run callbacks)

/-- Modelled from the spec: `MapReader::readBrushes` is not among the sources. The
callbacks of the parse of bare brush blocks are collected, then the nodes are created. -/
def readBrushes [DecidableEq Plane] (ctx : BuildContext Face Plane) (workers : Nat)
    (choices : List Nat) (callbacks : List (Callback Face Point)) : RunResult Face Point :=
  createNodes ctx workers choices (Collector.initial.run callbacks)

/-- Modelled from the spec: `MapReader::readBrushFaces` is not among the sources. Bare
face lines are handed to `onBrushFace` one by one; no node is created, and any other
callback is a structural error and is skipped. -/
def readBrushFaces (callbacks : List (Callback Face Point)) : RunResult Face Point :=
  callbacks.foldl
    (fun result callback =>
      match callback with
      | .onBrushFaceLine _ face =>
        { result with events := result.events ++ [.onBrushFace face] }
      | .onBeginEntity location _ =>
        { result with status := result.status ++ [⟨.structuralError, location⟩] }
      | .onEndEntity location =>
        { result with status := result.status ++ [⟨.structuralError, location⟩] }
      | .onBeginBrush location =>
        { result with status := result.status ++ [⟨.structuralError, location⟩] }
      | .onEndBrush location =>
        { result with status := result.status ++ [⟨.structuralError, location⟩] }
      | .onPatch location _ _ _ _ _ =>
        { result with status := result.status ++ [⟨.structuralError, location⟩] })
    { nodes := [], events := [], status := [] }

/-- The three ways to run the reader (`readEntities`, `readBrushes`, `readBrushFaces`). -/
inductive Mode where
  | entities
  | brushes
  | brushFaces
deriving DecidableEq, Repr

/-- A run of the reader in the given mode on the callbacks that the parser makes. -/
def read [DecidableEq Plane] (ctx : BuildContext Face Plane) (mode : Mode) (workers : Nat)
    (choices : List Nat) (callbacks : List (Callback Face Point)) : RunResult Face Point :=
  match mode with
  | .entities => readEntities ctx workers choices callbacks
  | .brushes => readBrushes ctx workers choices callbacks
  | .brushFaces => readBrushFaces callbacks

/-! ### The tree of the caller -/

/-- What a node of the finished tree is: the root, the default layer under it, the
synthetic default entity (the implicit worldspawn), or a built node. -/
inductive TreeKind (Face Point : Type) where
  | root (properties : List EntityProperty)
  | defaultLayer
  | defaultEntity
  | built (node : Node Face Point)
deriving DecidableEq, Repr

/-- A node of the tree in an arena: its kind and the arena index of its one parent. -/
structure TreeNode (Face Point : Type) where
  kind : TreeKind Face Point
  parent : Option Nat
deriving DecidableEq, Repr

/-- The tree under construction: the arena, and for every record handed over the arena
index of the node that stands for it as a parent. -/
structure Tree (Face Point : Type) where
  nodes : List (TreeNode Face Point)
  placed : List (Nat × Nat)
deriving DecidableEq, Repr

/-- Arena index of the root. -/
def Tree.rootIndex : Nat := 0

/-- Arena index of the default layer. -/
def Tree.defaultLayerIndex : Nat := 1

/-- Arena index of the synthetic default entity. -/
def Tree.defaultEntityIndex : Nat := 2

/-- Modelled from the spec: the caller of the reader (`WorldReader`) is not among the
sources. The tree starts as root, default layer under the root and synthetic default
entity under the default layer. -/
def Tree.initial : Tree Face Point :=
  { nodes := [{ kind := .root [], parent := none },
              { kind := .defaultLayer, parent := some Tree.rootIndex },
              { kind := .defaultEntity, parent := some Tree.defaultLayerIndex }]
    placed := [] }

/-- Append a built node under the given arena index and remember where its record is. -/
def Tree.add (t : Tree Face Point) (parent index : Nat) (node : Node Face Point) :
    Tree Face Point :=
  { nodes := t.nodes ++ [{ kind := .built node, parent := some parent }]
    placed := t.placed ++ [(index, t.nodes.length)] }

/-- Modelled from the spec: the subclassing interface as implemented by the caller is not
among the sources. The world node gives the root its properties, and the default layer is
returned as the parent of what belongs to the world; a layer goes under the root; a node
goes under its parent; with a null parent a brush or patch goes under the synthetic
default entity and any other node under the default layer. -/
def Tree.onEvent (t : Tree Face Point) : Event Face Point → Tree Face Point
  | .onWorldNode index (.world properties) =>
    { nodes := t.nodes.set Tree.rootIndex { kind := .root properties, parent := none }
      placed := t.placed ++ [(index, Tree.defaultLayerIndex)] }
  | .onWorldNode _ _ => t
  | .onLayerNode index layerNode => t.add Tree.rootIndex index layerNode
  | .onNode (some parent) index node =>
    t.add ((lookupId t.placed parent).getD Tree.defaultLayerIndex) index node
  | .onNode none index node =>
    if node.isGeometry then t.add Tree.defaultEntityIndex index node
    else t.add Tree.defaultLayerIndex index node
  | .onBrushFace _ => t

/-- The tree that the caller builds from the calls of a run. -/
def buildTree (events : List (Event Face Point)) : Tree Face Point :=
  events.foldl Tree.onEvent Tree.initial

/-- Modelled from the spec: `parse(text, ...)` gives the tree and the diagnostics; the
text is represented by the callbacks that the dialect parser makes for it. -/
def parse [DecidableEq Plane] (ctx : BuildContext Face Plane) (workers : Nat)
    (choices : List Nat) (callbacks : List (Callback Face Point)) :
    Tree Face Point × List Diagnostic :=
  ((buildTree (readEntities ctx workers choices callbacks).events),
    (readEntities ctx workers choices callbacks).status)

/-- The chain of parents of an arena node, from its parent up to the root; `fuel` bounds
the number of steps. -/
def Tree.ancestors (t : Tree Face Point) : Nat → Nat → List (TreeKind Face Point)
  | 0, _ => []
  | fuel + 1, index =>
    match t.nodes[index]? with
    | some node =>
      match node.parent with
      | some parent =>
        match t.nodes[parent]? with
        | some parentNode => parentNode.kind :: Tree.ancestors t fuel parent
        | none => []
      | none => []
    | none => []

/-- What the tree keeps when the caller handles one more call: the default layer and the
default entity, a root without parent, every node outside the root, and the table of
placed records, which grows by entries for the record of the call only. -/
structure Tree.Extends (t t' : Tree Face Point) (records : List Nat) : Prop where
  nodes : ∀ (k : Nat) (x : TreeNode Face Point), 1 ≤ k → t.nodes[k]? = some x →
    t'.nodes[k]? = some x
  root : (∃ properties, t.nodes[0]? = some { kind := .root properties, parent := none }) →
    ∃ properties, t'.nodes[0]? = some { kind := .root properties, parent := none }
  placed : ∃ extra, t'.placed = t.placed ++ extra ∧ ∀ entry ∈ extra, entry.1 ∈ records

/-! ### A small instance for concrete runs -/

/-- A context for concrete runs: faces and planes are numbers, face `0` defines no plane,
any four different planes bound a solid; an entity is the worldspawn when its first
property has the value `w`, a layer with id 7 when it has the value `l`, and a plain
entity otherwise. -/
def exampleContext : BuildContext Nat Nat where
  entityType := fun properties =>
    match properties with
    | { key := _, value := ['w'] } :: _ => .worldspawn
    | { key := _, value := ['l'] } :: _ => .layer 7
    | _ => .plain none
  planeFromFace := fun face => if face = 0 then none else some face
  intersectPlanes := fun _ => true

/-- A file location on the given line. -/
def atLine (line : Nat) : FileLocation := { line := line, column := 1 }

/-- The callbacks for a map: a worldspawn entity with a brush of four planes, a brush
with a duplicate plane and a patch of three by three points; then an entity with a patch
that declares three by three points and supplies eight, and an entity block that is not
closed, with a patch of three by three points in it. -/
def exampleMap : List (Callback Nat Nat) :=
  [.onBeginEntity (atLine 1) [{ key := ['c'], value := ['w'] }],
   .onBeginBrush (atLine 2),
   .onBrushFaceLine (atLine 3) 1, .onBrushFaceLine (atLine 4) 2,
   .onBrushFaceLine (atLine 5) 3, .onBrushFaceLine (atLine 6) 4,
   .onEndBrush (atLine 7),
   .onBeginBrush (atLine 8),
   .onBrushFaceLine (atLine 9) 1, .onBrushFaceLine (atLine 10) 2,
   .onBrushFaceLine (atLine 11) 3, .onBrushFaceLine (atLine 12) 3,
   .onEndBrush (atLine 13),
   .onPatch (atLine 14) (atLine 15) 3 3 [1, 2, 3, 4, 5, 6, 7, 8, 9] ['m'],
   .onEndEntity (atLine 16),
   .onBeginEntity (atLine 17) [{ key := ['c'], value := ['e'] }],
   .onPatch (atLine 18) (atLine 19) 3 3 [1, 2, 3, 4, 5, 6, 7, 8] ['m'],
   .onEndEntity (atLine 20),
   .onBeginEntity (atLine 21) [{ key := ['c'], value := ['e'] }],
   .onPatch (atLine 22) (atLine 23) 3 3 [1, 2, 3, 4, 5, 6, 7, 8, 9] ['m']]

/-- The record 1 of the example map: the brush with four different planes. -/
def exampleBrush : BrushInfo Nat :=
  { faces := [1, 2, 3, 4], startLocation := atLine 2, endLocation := some (atLine 7),
    parentIndex := some 0 }

/-- The record 2 of the example map: the brush with a duplicate plane. -/
def exampleDegenerateBrush : BrushInfo Nat :=
  { faces := [1, 2, 3, 3], startLocation := atLine 8, endLocation := some (atLine 13),
    parentIndex := some 0 }

/-- The record 3 of the example map: the patch with nine control points. -/
def examplePatch : PatchInfo Nat :=
  { rowCount := 3, columnCount := 3, controlPoints := [1, 2, 3, 4, 5, 6, 7, 8, 9],
    materialName := ['m'], startLocation := atLine 14, endLocation := some (atLine 15),
    parentIndex := some 0 }

/-- The record 5 of the example map: the patch with eight control points. -/
def exampleShortPatch : PatchInfo Nat :=
  { rowCount := 3, columnCount := 3, controlPoints := [1, 2, 3, 4, 5, 6, 7, 8],
    materialName := ['m'], startLocation := atLine 18, endLocation := some (atLine 19),
    parentIndex := some 4 }

/-- The record 7 of the example map: the patch inside the entity block that is not
closed. -/
def exampleOrphanPatch : PatchInfo Nat :=
  { rowCount := 3, columnCount := 3, controlPoints := [1, 2, 3, 4, 5, 6, 7, 8, 9],
    materialName := ['m'], startLocation := atLine 22, endLocation := some (atLine 23),
    parentIndex := some 6 }

/-- The callbacks for a document that consists of one brush block with the given face
lines and no enclosing entity. -/
def singleBrushDocument (location endLocation : FileLocation)
    (faceLines : List (FileLocation × Face)) : List (Callback Face Point) :=
  [.onBeginBrush location] ++
    faceLines.map (fun line => Callback.onBrushFaceLine line.1 line.2) ++
    [.onEndBrush endLocation]

/-- The callbacks for a document that consists of one brush block with three face lines
and no enclosing entity. -/
def exampleOrphanBrushDocument : List (Callback Nat Nat) :=
  singleBrushDocument (atLine 1) (atLine 5) [(atLine 2, 1), (atLine 3, 2), (atLine 4, 3)]

/-- The callbacks for a document that consists of one patch block with no enclosing
entity, which declares three by three control points and supplies eight. -/
def exampleOrphanPatchDocument : List (Callback Nat Nat) :=
  [.onPatch (atLine 1) (atLine 2) 3 3 [1, 2, 3, 4, 5, 6, 7, 8] ['m']]

end MapReader

namespace Model

/-! ### Writing and exporting a map (`GameImpl::doWriteMap`, `GameImpl::doExportMap`) -/

/-- The serializer that a `NodeWriter` is constructed with: `NodeWriter{world, stream}`
writes the map file format of the world into the stream, and
`NodeWriter{world, ObjSerializer{objStream, mtlStream, mtlFilename, objOptions}}` writes
an OBJ file and its material file. -/
inductive Serializer (MapFormat ObjOptions : Type) where
  | mapFile (format : MapFormat)
  | obj (mtlFilename : Str) (options : ObjOptions)
deriving DecidableEq, Repr

/-- Modelled from the spec: `IO::NodeWriter` is not among the sources. The serializer
`serialize(tree root, targetDialect, exporting: bool)`: the writer holds the world, its
serializer and the export flag, which is off until `setExporting` turns it on. -/
structure NodeWriter (World MapFormat ObjOptions : Type) where
  world : World
  serializer : Serializer MapFormat ObjOptions
  m_exporting : Bool

/-- Construction of a `NodeWriter`. -/
def NodeWriter.create {World MapFormat ObjOptions : Type} (world : World)
    (serializer : Serializer MapFormat ObjOptions) : NodeWriter World MapFormat ObjOptions :=
  { world := world, serializer := serializer, m_exporting := false }

/-- `NodeWriter::setExporting`. -/
def NodeWriter.setExporting {World MapFormat ObjOptions : Type}
    (writer : NodeWriter World MapFormat ObjOptions) (exporting : Bool) :
    NodeWriter World MapFormat ObjOptions :=
  { writer with m_exporting := exporting }

/-- One run of `NodeWriter::writeMap`: the serializer and the export flag it ran with. -/
structure WriterRun (MapFormat ObjOptions : Type) where
  serializer : Serializer MapFormat ObjOptions
  exporting : Bool
deriving DecidableEq, Repr

/-- What the game implementation is configured with and the collaborators that are not
among the sources: the name of the game (`m_config.name`), the format of a world
(`world.mapFormat()`), `formatName`, whether `IO::Disk::withOutputStream` can open a path
for writing, the text that `NodeWriter::writeMap` emits for a world, a serializer and an
export flag (for an OBJ export the text of the OBJ file and of the material file), and
the path helpers `kdl::path_replace_extension(path, ".mtl")` and
`path.filename().string()`. -/
structure GameImpl (World MapFormat ObjOptions Path : Type) where
  gameName : Str
  mapFormat : World → MapFormat
  formatName : MapFormat → Str
  canOpen : Path → Bool
  emit : World → Serializer MapFormat ObjOptions → Bool → Str × Str
  mtlPath : Path → Path
  filename : Path → Str

/-- The outcome of a write: the files that were opened with the text written to each, and
the runs of `NodeWriter::writeMap`. -/
structure WriteLog (MapFormat ObjOptions Path : Type) where
  files : List (Path × Str)
  runs : List (WriterRun MapFormat ObjOptions)

/-- An export option: `std::variant<ObjExportOptions, MapExportOptions>`, each with its
`exportPath`. -/
inductive ExportOptions (ObjOptions Path : Type) where
  | objExport (exportPath : Path) (objOptions : ObjOptions)
  | mapExport (exportPath : Path)

variable {World MapFormat ObjOptions Path : Type}

/-- `NodeWriter::writeMap` on a writer for a stream: the emitted text is appended to the
stream, with the record of the run. -/
def NodeWriter.writeMap (game : GameImpl World MapFormat ObjOptions Path)
    (writer : NodeWriter World MapFormat ObjOptions) (stream : Str) :
    Str × WriterRun MapFormat ObjOptions :=
  (stream ++ (game.emit writer.world writer.serializer writer.m_exporting).1,
    { serializer := writer.serializer, exporting := writer.m_exporting })

/-- The header that `doWriteMap` writes before it creates the writer:
`stream << "// Game: " << gameName() << "\n" << "// Format: " << mapFormatName << "\n"`. -/
def mapHeader (game : GameImpl World MapFormat ObjOptions Path) (world : World) : Str :=
  "// Game: ".toList ++ game.gameName ++ "\n".toList ++
    ("// Format: ".toList ++ game.formatName (game.mapFormat world) ++ "\n".toList)

/-- `GameImpl::doWriteMap(world, path, exporting)`: inside `withOutputStream` the header
is written, then the writer is created, `setExporting(exporting)` is called and
`writeMap()` runs. An error is the result when the stream cannot be opened. -/
def GameImpl.doWriteMapExporting (game : GameImpl World MapFormat ObjOptions Path)
    (world : World) (path : Path) (exporting : Bool) :
    Except Str (WriteLog MapFormat ObjOptions Path) :=
  if game.canOpen path then
    let stream := mapHeader game world
    let writer := (NodeWriter.create world (.mapFile (game.mapFormat world))).setExporting
      exporting
    let written := writer.writeMap game stream
    .ok { files := [(path, written.1)], runs := [written.2] }
  else .error "cannot open the file".toList

/-- `GameImpl::doWriteMap(world, path)`: `return doWriteMap(world, path, false)`. -/
def GameImpl.doWriteMap (game : GameImpl World MapFormat ObjOptions Path) (world : World)
    (path : Path) : Except Str (WriteLog MapFormat ObjOptions Path) :=
  game.doWriteMapExporting world path false

/-- `GameImpl::doExportMap(world, options)`: the visit of the variant. For an OBJ export
the OBJ stream and the material stream are opened, the writer is created with the OBJ
serializer, `setExporting(true)` is called and `writeMap()` runs; for a map export
`doWriteMap(world, mapOptions.exportPath, true)` is called. -/
def GameImpl.doExportMap (game : GameImpl World MapFormat ObjOptions Path) (world : World) :
    ExportOptions ObjOptions Path → Except Str (WriteLog MapFormat ObjOptions Path)
  | .objExport exportPath objOptions =>
    if game.canOpen exportPath then
      if game.canOpen (game.mtlPath exportPath) then
        let writer := (NodeWriter.create world
          (.obj (game.filename (game.mtlPath exportPath)) objOptions)).setExporting true
        let texts := game.emit writer.world writer.serializer writer.m_exporting
        .ok { files := [(exportPath, texts.1), (game.mtlPath exportPath, texts.2)]
              runs := [{ serializer := writer.serializer, exporting := writer.m_exporting }] }
      else .error "cannot open the file".toList
    else .error "cannot open the file".toList
  | .mapExport exportPath => game.doWriteMapExporting world exportPath true

/-- A game for concrete runs: worlds and formats are numbers, paths are strings, every
path but the empty one can be opened, and the writer emits `e` when exporting and `s`
when saving. -/
def exampleGame : GameImpl Nat Nat Nat Str where
  gameName := "Nightfire".toList
  mapFormat := fun world => world
  formatName := fun format => if format = 0 then "Standard".toList else "Valve".toList
  canOpen := fun path => decide (path ≠ [])
  emit := fun _ _ exporting => if exporting then (['e'], ['m']) else (['s'], [])
  mtlPath := fun path => path ++ ".mtl".toList
  filename := fun path => path

end Model

/-! ### Binary readers -/

/-- A byte of a file. -/
abbrev Byte := Fin 256

/-- The ways in which a run ends without a value: a `ReaderException` thrown by a reader,
an `AssetException`, a failed `ensure`, and an operation whose behaviour the language
leaves undefined. -/
inductive Halt where
  | readerException (what : List Char)
  | assetException (what : List Char)
  | ensureFailed (what : List Char)
  | undefinedBehaviour
deriving DecidableEq, Repr

/-- The text of an exception, `e.what()`. -/
def Halt.what : Halt → List Char
  | .readerException what => what
  | .assetException what => what
  | .ensureFailed what => what
  | .undefinedBehaviour => []

/-- Modelled from the spec: `IO/Reader.h` is not among the sources. A reader is a view of
the bytes of a file with a position; every read copies bytes from the position and
advances it, integers are stored with the least significant byte first, and a seek or a
read that would pass the end of the bytes throws a `ReaderException`. -/
structure Reader where
  data : List Byte
  position : Nat
deriving DecidableEq, Repr

namespace Reader

/-- `Reader::size`. -/
def size (reader : Reader) : Nat := reader.data.length

/-- The exception of a reader that is asked for bytes it does not have. -/
def outOfBounds : Halt := .readerException "out of bounds".toList

/-- `Reader::seekFromBegin`. -/
def seekFromBegin (reader : Reader) (offset : Nat) : Except Halt Reader :=
  if offset ≤ reader.size then .ok { reader with position := offset } else .error outOfBounds

/-- `Reader::seekForward`. -/
def seekForward (reader : Reader) (offset : Nat) : Except Halt Reader :=
  if reader.position + offset ≤ reader.size then
    .ok { reader with position := reader.position + offset }
  else .error outOfBounds

/-- The bytes of a file from an offset on, `count` of them. -/
def bytesAt (data : List Byte) (offset count : Nat) : List Byte :=
  (data.drop offset).take count

/-- `Reader::read(char*, size)`: the next `count` bytes. -/
def read (reader : Reader) (count : Nat) : Except Halt (List Byte × Reader) :=
  if reader.position + count ≤ reader.size then
    .ok (bytesAt reader.data reader.position count,
      { reader with position := reader.position + count })
  else .error outOfBounds

/-- The unsigned number that bytes stand for, least significant byte first. -/
def unsignedOf : List Byte → Nat
  | [] => 0
  | byte :: bytes => byte.val + 256 * unsignedOf bytes

/-- The signed 32 bit number that four bytes stand for (two's complement). -/
def signedOf (bytes : List Byte) : Int :=
  if unsignedOf bytes < 2 ^ 31 then (unsignedOf bytes : Int)
  else (unsignedOf bytes : Int) - 2 ^ 32

/-- The `uint32_t` stored at an offset of a file. -/
def uint32At (data : List Byte) (offset : Nat) : Nat := unsignedOf (bytesAt data offset 4)

/-- The `int32_t` stored at an offset of a file. -/
def int32At (data : List Byte) (offset : Nat) : Int := signedOf (bytesAt data offset 4)

/-- `Reader::readInt<int32_t>`. -/
def readInt32 (reader : Reader) : Except Halt (Int × Reader) := do
  let (bytes, reader) ← reader.read 4
  .ok (signedOf bytes, reader)

/-- `Reader::readSize<uint32_t>`: an unsigned 32 bit number as a `size_t`. -/
def readSize32 (reader : Reader) : Except Halt (Nat × Reader) := do
  let (bytes, reader) ← reader.read 4
  .ok (unsignedOf bytes, reader)

/-- `Reader::readChar<char>`: one byte as a `char`. -/
def readChar (reader : Reader) : Except Halt (Int × Reader) := do
  let (bytes, reader) ← reader.read 1
  .ok (if unsignedOf bytes < 128 then (unsignedOf bytes : Int)
    else (unsignedOf bytes : Int) - 256, reader)

/-- `Reader::readString(size)`: the next `size` bytes as a string, up to the first zero
byte. -/
def readString (reader : Reader) (size : Nat) : Except Halt (List Char × Reader) := do
  let (bytes, reader) ← reader.read size
  .ok (((bytes.takeWhile (fun byte => byte.val ≠ 0)).map (fun byte => Char.ofNat byte.val)),
    reader)

/-- `Reader::subReaderFromCurrent(length)`: a reader of the next `length` bytes; the
position of the reader itself does not move. -/
def subReaderFromCurrent (reader : Reader) (length : Nat) : Except Halt Reader :=
  if reader.position + length ≤ reader.size then
    .ok { data := bytesAt reader.data reader.position length, position := 0 }
  else .error outOfBounds

/-- The conversion `static_cast<size_t>` of an `int32_t`, with a `size_t` of 64 bits. -/
def castSizeT (value : Int) : Nat := (value % 2 ^ 64).toNat

/-- The conversion of an `int32_t` to `uint32_t`, which a comparison of the two applies to
the signed side. -/
def castUInt32 (value : Int) : Nat := (value % 2 ^ 32).toNat

end Reader

/-! ### Nightfire models (`NightfireOpenModelParser`, `NightfireOpenModelLoader`) -/

namespace MdlLayout

/-- `Ident = (('T' << 24) + ('S' << 16) + ('D' << 8) + 'I')`. -/
def Ident : Int :=
  (('T'.toNat <<< 24) + ('S'.toNat <<< 16) + ('D'.toNat <<< 8) + 'I'.toNat : Nat)

/-- `Version10 = 10`. -/
def Version10 : Int := 10

/-- `MdlHeaderSize = 244`. -/
def MdlHeaderSize : Nat := 244

/-- `NfIdent = (('P' << 24) + ('O' << 16) + ('F' << 8) + 'N')`. -/
def NfIdent : Int :=
  (('P'.toNat <<< 24) + ('O'.toNat <<< 16) + ('F'.toNat <<< 8) + 'N'.toNat : Nat)

/-- `NumTexturesOffset`: the name, the integer properties and the vector properties, with
`sizeof(int32_t) = sizeof(float) = 4`. -/
def NumTexturesOffset : Nat := 64 + (14 * 4) + (5 * 3 * 4)

/-- The packed structure `NfMdlHeader`. -/
structure NfMdlHeader where
  id : Nat
  version : Nat
  gaitBonesIndex : Int
  gaitBonesCount : Int
  textureDimsIndex : Int
deriving DecidableEq, Repr

/-- The packed structure `NfMdlTextureDim`. -/
structure NfMdlTextureDim where
  width : Int
  height : Int
deriving DecidableEq, Repr

/-- `reader.read<NfMdlHeader, NfMdlHeader>()`: the 20 bytes of the packed structure, field
by field. -/
def readNfMdlHeader (reader : Reader) : Except Halt (NfMdlHeader × Reader) := do
  let (bytes, reader) ← reader.read 20
  .ok ({ id := Reader.uint32At bytes 0
         version := Reader.uint32At bytes 4
         gaitBonesIndex := Reader.int32At bytes 8
         gaitBonesCount := Reader.int32At bytes 12
         textureDimsIndex := Reader.int32At bytes 16 }, reader)

/-- `reader.read<NfMdlTextureDim, NfMdlTextureDim>()`: the 8 bytes of the packed
structure. -/
def readNfMdlTextureDim (reader : Reader) : Except Halt (NfMdlTextureDim × Reader) := do
  let (bytes, reader) ← reader.read 8
  .ok ({ width := Reader.int32At bytes 0, height := Reader.int32At bytes 4 }, reader)

end MdlLayout

/-- The collaborators of the model parsers that are not among the sources: the lower-cased
extension of a path (`kdl::str_to_lower(path.extension().string())`), whether the
lower-cased path has an extension (`kdl::path_has_extension(kdl::path_to_lower(path),
ext)`), `AssimpParser::canParse(path)` (`AssimpLoader::canParse(path)`), and the file
system's `openFile`, which gives the bytes of the file or fails. -/
structure ModelFiles (Path : Type) where
  lowerExtension : Path → List Char
  hasLowerExtension : Path → List Char → Bool
  assimpCanParse : Path → Bool
  openFile : Path → Option (List Byte)

/-- The signature check that both `canParse` functions run once the path is accepted. The
reader is the function's own copy. -/
def canParseHeaders (reader : Reader) : Except Halt Bool := do
  let reader ← reader.seekFromBegin 0
  let (ident, reader) ← reader.readInt32
  let (version, reader) ← reader.readInt32
  if ident ≠ MdlLayout.Ident ∨ version ≠ MdlLayout.Version10 then
    .ok false
  else do
    let reader ← reader.seekFromBegin MdlLayout.MdlHeaderSize
    let (nfHeader, _) ← MdlLayout.readNfMdlHeader reader
    .ok (decide (nfHeader.id = Reader.castUInt32 MdlLayout.NfIdent))

namespace NightfireOpenModelParser

variable {Path : Type}

/-- `NightfireOpenModelParser::canParse(path, reader)`. -/
def canParse (files : ModelFiles Path) (path : Path) (reader : Reader) : Except Halt Bool :=
  if files.lowerExtension path ≠ ".mdl".toList then .ok false
  else if !files.assimpCanParse path then .ok false
  else canParseHeaders reader

/-- The loop of `generateTextureDims`: `count` records are read and appended. -/
def readTextureDims : Nat → Reader → List (Int × Int) → Except Halt (List (Int × Int))
  | 0, _, outDims => .ok outDims
  | count + 1, reader, outDims => do
    let (dim, reader) ← MdlLayout.readNfMdlTextureDim reader
    readTextureDims count reader (outDims ++ [(dim.width, dim.height)])

/-- `NightfireOpenModelParser::generateTextureDims()`, for the parser of `path`. The
loop counter is an `int32_t` that runs from 0 while it is below `numTextures`. -/
def generateTextureDims (files : ModelFiles Path) (path : Path) :
    Except Halt (List (Int × Int)) :=
  match files.openFile path with
  | none => .ok []
  | some data => do
    let reader : Reader := { data := data, position := 0 }
    if !(← canParse files path reader) then
      .ok []
    else do
      let reader ← reader.seekFromBegin MdlLayout.NumTexturesOffset
      let (numTextures, reader) ← reader.readInt32
      let reader ← reader.seekFromBegin MdlLayout.MdlHeaderSize
      let (nfHeader, reader) ← MdlLayout.readNfMdlHeader reader
      if nfHeader.id ≠ Reader.castUInt32 MdlLayout.NfIdent then
        .ok []
      else do
        let reader ← reader.seekFromBegin (Reader.castSizeT nfHeader.textureDimsIndex)
        readTextureDims numTextures.toNat reader []

/-- The `index`-th record of 8 bytes of the table of texture dimensions that starts at
`offset` of a file: its width and its height. -/
def textureDimAt (data : List Byte) (offset index : Nat) : Int × Int :=
  (Reader.int32At data (offset + 8 * index), Reader.int32At data (offset + 8 * index + 4))

end NightfireOpenModelParser

namespace NightfireOpenModelLoader

variable {Path : Type}

/-- `NightfireOpenModelLoader::canParse(path, reader)`. -/
def canParse (files : ModelFiles Path) (path : Path) (reader : Reader) : Except Halt Bool :=
  if !files.hasLowerExtension path ".mdl".toList then .ok false
  else if !files.assimpCanParse path then .ok false
  else canParseHeaders reader

end NightfireOpenModelLoader

/-- A file of 280 bytes with the two signatures, two textures and the table of texture
dimensions at offset 264: `(64, 32)` and `(16, 8)`. -/
def exampleMdl : List Byte :=
  [0x49, 0x44, 0x53, 0x54, 10, 0, 0, 0] ++ List.replicate 172 0 ++ [2, 0, 0, 0] ++
    List.replicate 60 0 ++ [0x4E, 0x46, 0x4F, 0x50, 7, 0, 0, 0] ++ List.replicate 8 0 ++
    [8, 1, 0, 0] ++ [64, 0, 0, 0, 32, 0, 0, 0, 16, 0, 0, 0, 8, 0, 0, 0]

/-- The collaborators for concrete runs: paths are strings whose extension is the text
from the last dot, every path that is not empty is accepted by Assimp, and the one file
is `exampleMdl` at `a.mdl`. -/
def exampleFiles : ModelFiles (List Char) where
  lowerExtension := fun path => path.drop (path.length - 4)
  hasLowerExtension := fun path ext => path.drop (path.length - ext.length) == ext
  assimpCanParse := fun path => !path.isEmpty
  openFile := fun path => if path = "a.mdl".toList then some exampleMdl else none

/-! ### WAL textures (`ReadWalTexture.cpp`) -/

namespace WalLayout

/-- `TextureNameLength = 32`. -/
def TextureNameLength : Nat := 32

end WalLayout

namespace ReadWalTexture

/-- Modelled from the spec: `Color` is not among the sources. The code constructs the
default color and copies colors; a color is a list of components here. -/
structure Color where
  components : List Nat
deriving DecidableEq, Repr

/-- The color `Color{}`. -/
def Color.default : Color := { components := [] }

/-- The pixels of one mip level. -/
abbrev TextureBuffer := List Byte

/-- `Assets::PaletteTransparency`. -/
inductive PaletteTransparency where
  | Opaque
  | Index255Transparent
deriving DecidableEq, Repr

/-- `Assets::TextureType`. -/
inductive TextureType where
  | Opaque
  | Masked
deriving DecidableEq, Repr

/-- `Assets::Q2Data`. -/
structure Q2Data where
  flags : Int
  contents : Int
  value : Int
deriving DecidableEq, Repr

/-- The constant `GL_RGBA`. -/
def GL_RGBA : Nat := 0x1908

/-- Modelled from the spec: `Assets/Texture.h` is not among the sources. A texture holds
what its constructor is given. -/
structure Texture where
  name : List Char
  width : Nat
  height : Nat
  averageColor : Color
  buffers : List TextureBuffer
  format : Nat
  type : TextureType
  gameData : Q2Data
deriving DecidableEq, Repr

/-- `ReadTextureError{textureName, msg}`. -/
structure ReadTextureError where
  textureName : List Char
  msg : List Char
deriving DecidableEq, Repr

/-- What one call of `Palette::indexedToRgba(reader, size, buffer, transparency,
averageColor)` leaves behind: its result, the buffer it filled, the average color it
stored and the reader. -/
structure Conversion where
  hasTransparency : Bool
  buffer : TextureBuffer
  averageColor : Color
  reader : Reader

/-- Modelled from the spec: `Assets/Palette.h` is not among the sources. A palette is its
conversion of `size` indexed pixels, read from the reader, to RGBA pixels; the conversion
reports whether it met a transparent pixel. -/
structure Palette where
  indexedToRgba : Reader → Nat → PaletteTransparency → Except Halt Conversion

/-- The collaborators of the WAL reader that are not among the sources:
`checkTextureDimensions(width, height)`, `Assets::loadPalette(reader)`, which gives a
palette or an error with a message, and `Assets::setMipBufferSize(buffers, mipLevels,
width, height, format)`. -/
structure WalAssets where
  checkTextureDimensions : Nat → Nat → Bool
  loadPalette : Reader → Except (List Char) Palette
  setMipBufferSize : List TextureBuffer → Nat → Nat → Nat → Nat → List TextureBuffer

/-- The expression `size_t(1) << i`, with a `size_t` of 64 bits: a shift by the width of
the type or more has no defined behaviour. -/
def shiftOne (i : Nat) : Except Halt Nat :=
  if i < 64 then .ok (2 ^ i) else .error .undefinedBehaviour

/-- The loop of `readMipOffsets` with `remaining = maxMipLevels - i` rounds to go:
`offsets[i]` is read, `mipLevels` is incremented, and the loop is left when the width or
the height of level `i` is 1. The array `offsets` has a fixed length, and a store past its
end has no defined behaviour. Both operands of `||` shift by the same `i`. -/
def readMipOffsetsLoop (width height : Nat) :
    Nat → Nat → List Nat → Nat → Reader → Except Halt (List Nat × Nat × Reader)
  | 0, _, offsets, mipLevels, reader => .ok (offsets, mipLevels, reader)
  | remaining + 1, i, offsets, mipLevels, reader => do
    let (offset, reader) ← reader.readSize32
    if i < offsets.length then do
      let divisor ← shiftOne i
      if width / divisor = 1 ∨ height / divisor = 1 then
        .ok (offsets.set i offset, mipLevels + 1, reader)
      else
        readMipOffsetsLoop width height remaining (i + 1) (offsets.set i offset)
          (mipLevels + 1) reader
    else .error .undefinedBehaviour

/-- The function `readMipOffsets(maxMipLevels, offsets, width, height, reader)`: the
result is `mipLevels`, with the array and the reader as the call leaves them.
`sizeof(uint32_t)` is 4, and the product `(maxMipLevels - mipLevels) * sizeof(uint32_t)`
is a `size_t` of 64 bits; `mipLevels` never exceeds `maxMipLevels`, so the difference does
not wrap. -/
def readMipOffsets (maxMipLevels : Nat) (offsets : List Nat) (width height : Nat)
    (reader : Reader) : Except Halt (Nat × List Nat × Reader) := do
  let (offsets, mipLevels, reader) ←
    readMipOffsetsLoop width height maxMipLevels 0 offsets 0 reader
  let reader ← reader.seekForward ((maxMipLevels - mipLevels) * 4 % 2 ^ 64)
  .ok (mipLevels, offsets, reader)

/-- A call of `indexedToRgba` that `readMips` made: the level, the offset that the reader
was moved to, and the number of pixels. -/
structure MipRead where
  level : Nat
  offset : Nat
  size : Nat
deriving DecidableEq, Repr

/-- The variables of `readMips`: the reader, the buffers, `tempColor`, `averageColor` and
`hasTransparency`, with the calls of `indexedToRgba` made so far. -/
structure MipsState where
  reader : Reader
  buffers : List TextureBuffer
  tempColor : Color
  averageColor : Color
  hasTransparency : Bool
  conversions : List MipRead

/-- One round of the loop of `readMips`, for level `i`. The right operand of `||` is
evaluated only when `hasTransparency` is false, and `indexedToRgba` is called inside the
right operand. -/
def readMipsStep (palette : Palette) (offsets : List Nat) (width height : Nat)
    (transparency : PaletteTransparency) (i : Nat) (state : MipsState) :
    Except Halt MipsState := do
  let offset := offsets.getD i 0
  let reader ← state.reader.seekFromBegin offset
  let divisor ← shiftOne i
  let curWidth := width / divisor
  let curHeight := height / divisor
  let size := (curWidth * curHeight) % 2 ^ 64
  let state ←
    if state.hasTransparency then
      (.ok { state with reader := reader } : Except Halt MipsState)
    else do
      let conversion ← palette.indexedToRgba reader size transparency
      .ok { reader := conversion.reader
            buffers := state.buffers.set i conversion.buffer
            tempColor := conversion.averageColor
            averageColor := state.averageColor
            hasTransparency := conversion.hasTransparency && decide (i = 0)
            conversions := state.conversions ++ [{ level := i, offset := offset, size := size }] }
  .ok (if i = 0 then { state with averageColor := state.tempColor } else state)

/-- The loop of `readMips` with `remaining = mipLevels - i` rounds to go. -/
def readMipsLoop (palette : Palette) (offsets : List Nat) (width height : Nat)
    (transparency : PaletteTransparency) : Nat → Nat → MipsState → Except Halt MipsState
  | 0, _, state => .ok state
  | remaining + 1, i, state => do
    let state ← readMipsStep palette offsets width height transparency i state
    readMipsLoop palette offsets width height transparency remaining (i + 1) state

/-- The function `readMips(palette, mipLevels, offsets, width, height, reader, buffers,
averageColor, transparency)`: the result `hasTransparency` is a field of the final
state. -/
def readMips (palette : Palette) (mipLevels : Nat) (offsets : List Nat) (width height : Nat)
    (reader : Reader) (buffers : List TextureBuffer) (averageColor : Color)
    (transparency : PaletteTransparency) : Except Halt MipsState :=
  readMipsLoop palette offsets width height transparency mipLevels 0
    { reader := reader, buffers := buffers, tempColor := Color.default,
      averageColor := averageColor, hasTransparency := false, conversions := [] }

/-- A handler `catch (const ReaderException& e) { return ReadTextureError{std::move(name),
e.what()}; }` around a body: other outcomes pass. -/
def catchReaderException (name : List Char)
    (body : Except Halt (Except ReadTextureError Texture)) :
    Except Halt (Except ReadTextureError Texture) :=
  match body with
  | .error (.readerException what) => .ok (.error { textureName := name, msg := what })
  | outcome => outcome

/-- A handler `catch (const Exception& e) { return ReadTextureError{std::move(name),
e.what()}; }` for an outcome: `ReaderException` and `AssetException` derive from
`Exception`; a failed `ensure` and undefined behaviour are not exceptions. -/
def catchException (name : List Char) (halt : Halt) :
    Except Halt (Except ReadTextureError Texture) :=
  match halt with
  | .readerException what => .ok (.error { textureName := name, msg := what })
  | .assetException what => .ok (.error { textureName := name, msg := what })
  | other => .error other

/-- The `try` block of `readQ2Wal`. -/
def readQ2WalBody (assets : WalAssets) (name : List Char) (reader : Reader)
    (palette : Option Palette) : Except Halt (Except ReadTextureError Texture) := do
  let MaxMipLevels := 4
  let averageColor := Color.default
  let buffers : List TextureBuffer := List.replicate MaxMipLevels []
  let offsets : List Nat := List.replicate MaxMipLevels 0
  let reader ← reader.seekForward WalLayout.TextureNameLength
  let (width, reader) ← reader.readSize32
  let (height, reader) ← reader.readSize32
  if !assets.checkTextureDimensions width height then
    .ok (.error { textureName := name, msg := "Invalid texture dimensions".toList })
  else do
    let (mipLevels, offsets, reader) ←
      readMipOffsets MaxMipLevels offsets width height reader
    let (_, reader) ← reader.readString WalLayout.TextureNameLength
    let (flags, reader) ← reader.readInt32
    let (contents, reader) ← reader.readInt32
    let (value, reader) ← reader.readInt32
    let gameData : Q2Data := { flags := flags, contents := contents, value := value }
    match palette with
    | none => .error (.assetException "Missing palette".toList)
    | some palette => do
      let buffers := assets.setMipBufferSize buffers mipLevels width height GL_RGBA
      let mips ← readMips palette mipLevels offsets width height reader buffers averageColor
        .Opaque
      .ok (.ok { name := name, width := width, height := height
                 averageColor := mips.averageColor, buffers := mips.buffers
                 format := GL_RGBA, type := .Opaque, gameData := gameData })

/-- The function `readQ2Wal(name, reader, palette)`. -/
def readQ2Wal (assets : WalAssets) (name : List Char) (reader : Reader)
    (palette : Option Palette) : Except Halt (Except ReadTextureError Texture) :=
  catchReaderException name (readQ2WalBody assets name reader palette)

/-- The `try` block of `readDkWal` from the statement after `ensure(version == 3, ...)`
on, for the reader as `readChar` left it. -/
def readDkWalChecked (assets : WalAssets) (name : List Char) (reader : Reader) :
    Except Halt (Except ReadTextureError Texture) := do
  let MaxMipLevels := 9
  let averageColor := Color.default
  let buffers : List TextureBuffer := List.replicate MaxMipLevels []
  let offsets : List Nat := List.replicate MaxMipLevels 0
  let reader ← reader.seekForward WalLayout.TextureNameLength
  let reader ← reader.seekForward 3
  let (width, reader) ← reader.readSize32
  let (height, reader) ← reader.readSize32
  if !assets.checkTextureDimensions width height then
    .ok (.error { textureName := name, msg := "Invalid texture dimensions".toList })
  else do
    let (mipLevels, offsets, reader) ←
      readMipOffsets MaxMipLevels offsets width height reader
    let buffers := assets.setMipBufferSize buffers mipLevels width height GL_RGBA
    let (_, reader) ← reader.readString WalLayout.TextureNameLength
    let (flags, reader) ← reader.readInt32
    let (contents, reader) ← reader.readInt32
    let paletteReader ← reader.subReaderFromCurrent (3 * 256)
    let reader ← reader.seekForward (3 * 256)
    let (value, reader) ← reader.readInt32
    let gameData : Q2Data := { flags := flags, contents := contents, value := value }
    match assets.loadPalette paletteReader with
    | .ok palette => do
      let mips ← readMips palette mipLevels offsets width height reader buffers
        averageColor .Index255Transparent
      .ok (.ok { name := name, width := width, height := height
                 averageColor := mips.averageColor, buffers := mips.buffers
                 format := GL_RGBA
                 type := if mips.hasTransparency then .Masked else .Opaque
                 gameData := gameData })
    | .error msg => .ok (.error { textureName := name, msg := msg })

/-- The `try` block of `readDkWal`: the version is read, `ensure(version == 3, "wal
texture has version 3")` is checked, and the texture is decoded. -/
def readDkWalBody (assets : WalAssets) (name : List Char) (reader : Reader) :
    Except Halt (Except ReadTextureError Texture) := do
  let (version, reader) ← reader.readChar
  if version ≠ 3 then
    .error (.ensureFailed "wal texture has version 3".toList)
  else
    readDkWalChecked assets name reader

/-- The function `readDkWal(name, reader)`. -/
def readDkWal (assets : WalAssets) (name : List Char) (reader : Reader) :
    Except Halt (Except ReadTextureError Texture) :=
  catchReaderException name (readDkWalBody assets name reader)

/-- The state of a `std::string` whose contents have been moved into another string: the
standard leaves it valid but unspecified, and the implementations of the standard library
leave it empty. -/
def movedFrom : List Char := []

/-- The function `readWalTexture(name, reader, palette)`. Each call `readDkWal(std::move(
name), reader)` and `readQ2Wal(std::move(name), reader, palette)` moves `name` into the
parameter of the callee, which is a `std::string` by value; an exception that leaves the
callee reaches the handler after that. -/
def readWalTexture (assets : WalAssets) (name : List Char) (reader : Reader)
    (palette : Option Palette) : Except Halt (Except ReadTextureError Texture) :=
  match (do
    let (version, reader) ← reader.readChar
    let reader ← reader.seekFromBegin 0
    .ok (version, reader) : Except Halt (Int × Reader)) with
  | .error halt => catchException name halt
  | .ok (version, reader) =>
    match (if version = 3 then readDkWal assets name reader
      else readQ2Wal assets name reader palette) with
    | .error halt => catchException movedFrom halt
    | .ok result => .ok result

/-- A palette for concrete runs: the pixels are the indices themselves, and in the mode
`Index255Transparent` a pixel of index 255 is transparent. -/
def examplePalette : Palette where
  indexedToRgba := fun reader size transparency =>
    match reader.read size with
    | .error halt => .error halt
    | .ok (bytes, reader) =>
      .ok { hasTransparency :=
              decide (transparency = .Index255Transparent) && bytes.any (fun b => b.val == 255)
            buffer := bytes
            averageColor := { components := bytes.map (fun b => b.val) }
            reader := reader }

/-- The collaborators for concrete runs: dimensions are valid from 1 to 8192, a
palette of 768 bytes loads as the example palette, and the buffers are sized to one
empty buffer per level. -/
def exampleAssets : WalAssets where
  checkTextureDimensions := fun width height =>
    decide (0 < width ∧ width ≤ 8192 ∧ 0 < height ∧ height ≤ 8192)
  loadPalette := fun reader =>
    if reader.size = 768 then .ok examplePalette else .error "Invalid palette".toList
  setMipBufferSize := fun _ mipLevels _ _ _ => List.replicate mipLevels []

/-- A Quake 2 WAL file of 105 bytes: an empty name, width 2 and height 2, the offsets 100
and 104 of two mip levels, an empty animation name, flags 1, contents 2 and value 3, and
the five pixels of the two levels. -/
def exampleQ2Wal : List Byte :=
  List.replicate 32 0 ++ [2, 0, 0, 0, 2, 0, 0, 0] ++
    [100, 0, 0, 0, 104, 0, 0, 0, 0, 0, 0, 0, 0, 0, 0, 0] ++ List.replicate 32 0 ++
    [1, 0, 0, 0, 2, 0, 0, 0, 3, 0, 0, 0] ++ [255, 1, 2, 3, 4]

/-- The text `wall`, a texture name for concrete runs. -/
def exampleName : List Char := ['w', 'a', 'l', 'l']

/-- A Daikatana WAL file of 897 bytes: the version 3, an empty name, width 2 and height 2,
the offsets 892 and 896 of two mip levels, an empty animation name, flags 1 and
contents 2, a palette of 768 bytes, the value 3, and the five pixels of the two levels. -/
def exampleDkWal : List Byte :=
  [3] ++ List.replicate 32 0 ++ [0, 0, 0] ++ [2, 0, 0, 0, 2, 0, 0, 0] ++
    [124, 3, 0, 0, 128, 3, 0, 0] ++ List.replicate 28 0 ++ List.replicate 32 0 ++
    [1, 0, 0, 0, 2, 0, 0, 0] ++ List.replicate 768 7 ++ [3, 0, 0, 0] ++ [255, 1, 2, 3, 4]

end ReadWalTexture

/-! ## Part 2. Theorems -/

namespace Model

/-! ### Decimal rendering -/

theorem toDigitsCore_eq_digits (fuel : Nat) : ∀ (n : Nat) (ds : List Char), n < fuel → 0 < n →
    Nat.toDigitsCore 10 fuel n ds = ((Nat.digits 10 n).reverse.map Nat.digitChar) ++ ds := by
  induction fuel with
  | zero => intro n ds h; omega
  | succ fuel ih =>
    intro n ds hlt hpos
    rw [Nat.digits_def' (by norm_num) hpos]
    simp only [Nat.toDigitsCore]
    by_cases h0 : n / 10 = 0
    · simp [h0]
    · have h1 : 0 < n / 10 := Nat.pos_of_ne_zero h0
      have h2 : n / 10 < fuel := by omega
      simp only [h0, if_false]
      rw [ih (n / 10) _ h2 h1]
      simp

theorem decimal_eq_digits {n : Nat} (h : 0 < n) :
    decimal n = (Nat.digits 10 n).reverse.map Nat.digitChar := by
  unfold decimal Nat.toDigits
  rw [toDigitsCore_eq_digits (n + 1) n [] (by omega) h]
  simp

theorem digitChar_isDigit {d : Nat} (h : d < 10) : (Nat.digitChar d).isDigit = true := by
  interval_cases d <;> decide

theorem digitChar_inj {a b : Nat} (ha : a < 10) (hb : b < 10)
    (h : Nat.digitChar a = Nat.digitChar b) : a = b := by
  interval_cases a <;> interval_cases b <;> first | rfl | (exfalso; revert h; decide)

theorem map_digitChar_inj : ∀ (l₁ l₂ : List Nat), (∀ d ∈ l₁, d < 10) → (∀ d ∈ l₂, d < 10) →
    l₁.map Nat.digitChar = l₂.map Nat.digitChar → l₁ = l₂
  | [], [], _, _, _ => rfl
  | [], _ :: _, _, _, h => by simp at h
  | _ :: _, [], _, _, h => by simp at h
  | a :: l₁, b :: l₂, h₁, h₂, h => by
    simp only [List.map_cons, List.cons.injEq] at h
    have hab := digitChar_inj (h₁ a (by simp)) (h₂ b (by simp)) h.1
    have := map_digitChar_inj l₁ l₂ (fun d hd => h₁ d (by simp [hd]))
      (fun d hd => h₂ d (by simp [hd])) h.2
    rw [hab, this]

theorem decimal_inj {n m : Nat} (hn : 0 < n) (hm : 0 < m) (h : decimal n = decimal m) :
    n = m := by
  rw [decimal_eq_digits hn, decimal_eq_digits hm] at h
  have h' := map_digitChar_inj _ _
    (fun d hd => Nat.digits_lt_base (by norm_num) (List.mem_reverse.mp hd))
    (fun d hd => Nat.digits_lt_base (by norm_num) (List.mem_reverse.mp hd)) h
  exact Nat.digits.injective 10 (List.reverse_injective h')

theorem decimal_all_isDigit {n : Nat} (hn : 0 < n) : (decimal n).all Char.isDigit = true := by
  rw [decimal_eq_digits hn, List.all_eq_true]
  intro c hc
  obtain ⟨d, hd, rfl⟩ := List.mem_map.mp hc
  exact digitChar_isDigit (Nat.digits_lt_base (by norm_num) (List.mem_reverse.mp hd))

theorem numberedName_inj {baseName : Str} {n m : Nat} (hn : 0 < n) (hm : 0 < m)
    (h : numberedName baseName n = numberedName baseName m) : n = m :=
  decimal_inj hn hm (List.append_cancel_left h)

theorem isNumberedProperty_numberedName (baseName : Str) {n : Nat} (hn : 0 < n) :
    isNumberedProperty baseName (numberedName baseName n) = true := by
  unfold isNumberedProperty numberedName
  rw [Bool.and_eq_true]
  refine ⟨?_, ?_⟩
  · rw [List.isPrefixOf_iff_prefix]
    exact List.prefix_append _ _
  · rw [List.drop_left]
    exact decimal_all_isDigit hn


/-! ### Entity properties -/

theorem hasProperty_append (e₁ e₂ : Entity) (key : Str) :
    Entity.hasProperty (e₁ ++ e₂) key = (e₁.hasProperty key || e₂.hasProperty key) := by
  simp [Entity.hasProperty, List.any_append]

theorem hasProperty_eq_false_iff (e : Entity) (key : Str) :
    e.hasProperty key = false ↔ ∀ p ∈ e, p.key ≠ key := by
  simp [Entity.hasProperty]

theorem property_append_of_not_has (e₁ e₂ : Entity) (key : Str)
    (h : e₁.hasProperty key = false) :
    Entity.property (e₁ ++ e₂) key = e₂.property key := by
  have h1 : e₁.find? (fun p => decide (p.key = key)) = none := by
    rw [List.find?_eq_none]
    intro p hp
    simpa using (hasProperty_eq_false_iff e₁ key).mp h p hp
  simp [Entity.property, List.find?_append, h1]

theorem addOrUpdateProperty_of_not_has (e : Entity) (key value : Str)
    (h : e.hasProperty key = false) :
    e.addOrUpdateProperty key value = e ++ [{ key := key, value := value }] := by
  simp [Entity.addOrUpdateProperty, h]

theorem hasProperty_removeNumberedProperty (e : Entity) (baseName : Str) {n : Nat}
    (hn : 0 < n) :
    (e.removeNumberedProperty baseName).hasProperty (numberedName baseName n) = false := by
  rw [hasProperty_eq_false_iff]
  intro p hp hkey
  have hp' := (List.mem_filter.mp hp).2
  rw [hkey, isNumberedProperty_numberedName baseName hn] at hp'
  simp at hp'

theorem chunkProperties_succ (baseName value : Str) (maxLength i count : Nat) :
    chunkProperties baseName value maxLength i (count + 1) =
      { key := numberedName baseName (i + 1), value := chunk value maxLength i } ::
        chunkProperties baseName value maxLength (i + 1) count := by
  simp [chunkProperties, List.range'_succ]

theorem hasProperty_chunkProperties (baseName value : Str) (maxLength : Nat) :
    ∀ (count i j : Nat),
      (chunkProperties baseName value maxLength i count).hasProperty
          (numberedName baseName (j + 1)) = decide (i ≤ j ∧ j < i + count) := by
  intro count
  induction count with
  | zero =>
    intro i j
    have : ¬ (i ≤ j ∧ j < i + 0) := by omega
    simp [chunkProperties, Entity.hasProperty, this]
  | succ count ih =>
    intro i j
    rw [chunkProperties_succ]
    have hcons : Entity.hasProperty
        ({ key := numberedName baseName (i + 1), value := chunk value maxLength i } ::
          chunkProperties baseName value maxLength (i + 1) count) (numberedName baseName (j + 1))
        = (decide (numberedName baseName (i + 1) = numberedName baseName (j + 1)) ||
            (chunkProperties baseName value maxLength (i + 1) count).hasProperty
              (numberedName baseName (j + 1))) := by
      simp [Entity.hasProperty]
    rw [hcons, ih (i + 1) j]
    by_cases hij : i = j
    · subst hij
      simp
    · have hne : numberedName baseName (i + 1) ≠ numberedName baseName (j + 1) := by
        intro h
        have := numberedName_inj (Nat.succ_pos i) (Nat.succ_pos j) h
        omega
      have hiff : (i + 1 ≤ j ∧ j < i + 1 + count) ↔ (i ≤ j ∧ j < i + (count + 1)) := by omega
      simp [hne, hiff]

theorem property_chunkProperties (baseName value : Str) (maxLength : Nat) :
    ∀ (count i j : Nat), i ≤ j → j < i + count →
      (chunkProperties baseName value maxLength i count).property
          (numberedName baseName (j + 1)) = some (chunk value maxLength j) := by
  intro count
  induction count with
  | zero => intro i j h1 h2; omega
  | succ count ih =>
    intro i j h1 h2
    rw [chunkProperties_succ]
    by_cases hij : i = j
    · subst hij
      simp [Entity.property]
    · have hne : numberedName baseName (i + 1) ≠ numberedName baseName (j + 1) := by
        intro h
        have := numberedName_inj (Nat.succ_pos i) (Nat.succ_pos j) h
        omega
      have := ih (i + 1) j (by omega) (by omega)
      simpa [Entity.property, List.find?_cons, hne] using this

/-! ### The loop of `writeLongAttribute` -/

theorem writeLongAttributeLoop_eq (baseName value : Str) (maxLength : Nat) :
    ∀ (count i : Nat) (entity : Entity),
      (∀ j, i ≤ j → entity.hasProperty (numberedName baseName (j + 1)) = false) →
      (∀ j, j < i + count → j * maxLength ≤ value.length) →
      writeLongAttributeLoop baseName value maxLength count i entity =
        some (entity ++ chunkProperties baseName value maxLength i count) := by
  intro count
  induction count with
  | zero =>
    intro i entity _ _
    simp [writeLongAttributeLoop, chunkProperties]
  | succ count ih =>
    intro i entity hfree hpos
    have hsub : substr value (i * maxLength) maxLength = some (chunk value maxLength i) := by
      simp [substr, chunk, hpos i (by omega)]
    rw [writeLongAttributeLoop, hsub]
    simp only
    rw [addOrUpdateProperty_of_not_has _ _ _ (hfree i (le_refl i))]
    rw [ih (i + 1)]
    · rw [chunkProperties_succ]
      simp
    · intro j hj
      rw [hasProperty_append, hfree j (by omega)]
      have hne : numberedName baseName (i + 1) ≠ numberedName baseName (j + 1) := by
        intro h
        have := numberedName_inj (Nat.succ_pos i) (Nat.succ_pos j) h
        omega
      simp [Entity.hasProperty, hne]
    · intro j hj
      exact hpos j (by omega)

theorem writeLongAttribute_eq (node : EntityNodeBase) (baseName value : Str) (maxLength : Nat)
    (h : 1 ≤ maxLength) :
    writeLongAttribute node baseName value maxLength =
      some ⟨node.entity.removeNumberedProperty baseName ++
        chunkProperties baseName value maxLength 0 (value.length / maxLength + 1)⟩ := by
  have h0 : maxLength ≠ 0 := by omega
  unfold writeLongAttribute
  rw [if_neg h0, writeLongAttributeLoop_eq]
  · rfl
  · intro j _
    exact hasProperty_removeNumberedProperty _ _ (Nat.succ_pos j)
  · intro j hj
    have hj' : j ≤ value.length / maxLength := by omega
    calc j * maxLength ≤ value.length / maxLength * maxLength := Nat.mul_le_mul_right _ hj'
      _ ≤ value.length := Nat.div_mul_le_self _ _

/-! ### Concatenation of the pieces -/

theorem flatten_chunks (value : Str) (maxLength : Nat) :
    ∀ (count i : Nat),
      ((List.range' i count).map (chunk value maxLength)).flatten =
        (value.drop (i * maxLength)).take (count * maxLength) := by
  intro count
  induction count with
  | zero => intro i; simp
  | succ count ih =>
    intro i
    rw [List.range'_succ, List.map_cons, List.flatten_cons, ih (i + 1)]
    have h1 : (count + 1) * maxLength = maxLength + count * maxLength := by ring
    have h2 : (i + 1) * maxLength = maxLength + i * maxLength := by ring
    rw [h1, List.take_add, h2]
    simp only [chunk, List.drop_drop]
    rw [Nat.add_comm (i * maxLength) maxLength]

theorem flatten_all_chunks (value : Str) (maxLength : Nat) (h : 1 ≤ maxLength) :
    ((List.range' 0 (value.length / maxLength + 1)).map (chunk value maxLength)).flatten
      = value := by
  rw [flatten_chunks]
  simp only [zero_mul, List.drop_zero]
  apply List.take_of_length_le
  have := @Nat.lt_div_mul_add value.length maxLength (by omega)
  calc value.length ≤ value.length / maxLength * maxLength + maxLength := by omega
    _ = (value.length / maxLength + 1) * maxLength := by ring

theorem chunk_length_le (value : Str) (maxLength i : Nat) :
    (chunk value maxLength i).length ≤ maxLength := by
  simp [chunk, List.length_take]

/-! ### The loop of `readLongAttribute` -/

theorem readLongAttributeLoop_eq (entity : Entity) (baseName : Str) (f : Nat → Str) (n : Nat)
    (hhas : ∀ j, entity.hasProperty (numberedName baseName (j + 1)) = decide (j < n))
    (hprop : ∀ j, j < n → entity.property (numberedName baseName (j + 1)) = some (f j)) :
    ∀ (fuel k : Nat) (acc : Str), k ≤ n → n - k < fuel →
      readLongAttributeLoop entity baseName fuel (k + 1) acc =
        some (acc ++ ((List.range' k (n - k)).map f).flatten) := by
  intro fuel
  induction fuel with
  | zero => intro k acc _ h; omega
  | succ fuel ih =>
    intro k acc hk hfuel
    rw [readLongAttributeLoop, hhas k]
    by_cases hkn : k < n
    · rw [if_pos (by simpa using hkn), hprop k hkn]
      simp only
      rw [ih (k + 1) _ (by omega) (by omega)]
      have : n - k = (n - (k + 1)) + 1 := by omega
      rw [this, List.range'_succ]
      simp
    · have : n - k = 0 := by omega
      rw [if_neg (by simpa using hkn), this]
      simp


theorem readLongAttributeLoop_none (entity : Entity) (baseName : Str) :
    ∀ (fuel index : Nat) (acc : Str),
      readLongAttributeLoop entity baseName fuel index acc = none →
      ∀ j, j < fuel → entity.hasProperty (numberedName baseName (index + j)) = true := by
  intro fuel
  induction fuel with
  | zero => intro index acc _ j hj; omega
  | succ fuel ih =>
    intro index acc h j hj
    rw [readLongAttributeLoop] at h
    by_cases hhas : entity.hasProperty (numberedName baseName index) = true
    · rw [if_pos hhas] at h
      cases j with
      | zero => simpa using hhas
      | succ j =>
        have := ih (index + 1) _ h j (by omega)
        rw [show index + (j + 1) = index + 1 + j by omega]
        exact this
    · rw [if_neg hhas] at h
      cases h

theorem readLongAttribute_isSome (node : EntityNodeBase) (baseName : Str) :
    (readLongAttribute node baseName).isSome = true := by
  cases hres : readLongAttribute node baseName with
  | some v => rfl
  | none =>
    exfalso
    have hall := readLongAttributeLoop_none node.entity baseName _ _ _ hres
    let names := (List.range (node.entity.length + 1)).map
      (fun j => numberedName baseName (1 + j))
    have hnodup : names.Nodup := by
      apply List.Nodup.map_on _ (List.nodup_range _)
      intro a _ b _ hab
      have := numberedName_inj (by omega) (by omega) hab
      omega
    have hsub : names ⊆ node.entity.map EntityProperty.key := by
      intro k hk
      obtain ⟨j, hj, rfl⟩ := List.mem_map.mp hk
      have hj' := hall j (List.mem_range.mp hj)
      simp only [Entity.hasProperty, List.any_eq_true, decide_eq_true_eq] at hj'
      obtain ⟨p, hp, hkey⟩ := hj'
      exact List.mem_map.mpr ⟨p, hp, hkey⟩
    have hlen := (List.subperm_of_subset hnodup hsub).length_le
    simp [names] at hlen

/-! ### Round trip and size of the pieces -/

/-- What `readLongAttribute` finds in an entity that consists of properties without
numbered names of the base name, followed by the pieces of a value. -/
theorem readLongAttribute_chunkProperties (entity : Entity) (baseName value : Str)
    (maxLength : Nat) (h : 1 ≤ maxLength)
    (hfree : ∀ j, entity.hasProperty (numberedName baseName (j + 1)) = false) :
    readLongAttribute
      ⟨entity ++ chunkProperties baseName value maxLength 0 (value.length / maxLength + 1)⟩
      baseName = some value := by
  unfold readLongAttribute
  have hhas : ∀ j, Entity.hasProperty
      (entity ++ chunkProperties baseName value maxLength 0 (value.length / maxLength + 1))
      (numberedName baseName (j + 1)) = decide (j < value.length / maxLength + 1) := by
    intro j
    rw [hasProperty_append, hfree j, hasProperty_chunkProperties]
    simp
  have hprop : ∀ j, j < value.length / maxLength + 1 → Entity.property
      (entity ++ chunkProperties baseName value maxLength 0 (value.length / maxLength + 1))
      (numberedName baseName (j + 1)) = some (chunk value maxLength j) := by
    intro j hj
    rw [property_append_of_not_has _ _ _ (hfree j)]
    exact property_chunkProperties baseName value maxLength _ 0 j (Nat.zero_le j) (by omega)
  have hlen : (chunkProperties baseName value maxLength 0
      (value.length / maxLength + 1)).length = value.length / maxLength + 1 := by
    simp [chunkProperties]
  rw [readLongAttributeLoop_eq _ baseName (chunk value maxLength)
    (value.length / maxLength + 1) hhas hprop _ 0 [] (Nat.zero_le _)
    (by simp only [List.length_append, hlen]; omega)]
  simp only [Nat.sub_zero, List.nil_append]
  rw [flatten_all_chunks value maxLength h]

/-- C1. Long-attribute round trip: for every entity node, base name and value, and every
`maxLength >= 1`, `writeLongAttribute` returns and `readLongAttribute` on the node it
leaves returns exactly the value, whatever numbered properties the node had before. -/
theorem writeLongAttribute_readLongAttribute (node : EntityNodeBase) (baseName value : Str)
    (maxLength : Nat) (h : 1 ≤ maxLength) :
    ∃ written, writeLongAttribute node baseName value maxLength = some written ∧
      readLongAttribute written baseName = some value := by
  refine ⟨_, writeLongAttribute_eq node baseName value maxLength h, ?_⟩
  exact readLongAttribute_chunkProperties _ baseName value maxLength h
    (fun j => hasProperty_removeNumberedProperty _ _ (Nat.succ_pos j))

/-- Witness of C1: the node already holds the three numbered properties of a longer value. -/
theorem writeLongAttribute_readLongAttribute_witness :
    1 ≤ 2 ∧ ∃ written,
      writeLongAttribute
        ⟨[⟨['w', 'a', 'd', '1'], ['a', 'b']⟩, ⟨['w', 'a', 'd', '2'], ['c', 'd']⟩,
          ⟨['o', 'r', 'i', 'g', 'i', 'n'], ['0']⟩, ⟨['w', 'a', 'd', '3'], ['e']⟩]⟩
        ['w', 'a', 'd'] ['x', 'y', 'z'] 2 = some written ∧
      readLongAttribute written ['w', 'a', 'd'] = some ['x', 'y', 'z'] :=
  ⟨by decide, writeLongAttribute_readLongAttribute _ _ _ 2 (by decide)⟩

/-- C10. Chunk size bound: for every value and every `maxLength >= 1` the node left by
`writeLongAttribute` holds, under the names `baseName1`, ..., `baseNameN` and under no
later number, values of length at most `maxLength` each, every numbered property of the
base name in the node has a value of at most that length, and the values of `baseName1`,
..., `baseNameN` concatenated in increasing order are exactly the value. -/
theorem writeLongAttribute_chunks (node : EntityNodeBase) (baseName value : Str)
    (maxLength : Nat) (h : 1 ≤ maxLength) :
    ∃ (written : EntityNodeBase) (chunks : List Str),
      writeLongAttribute node baseName value maxLength = some written ∧
      (∀ i (hi : i < chunks.length),
        written.entity.property (numberedName baseName (i + 1)) = some (chunks.get ⟨i, hi⟩) ∧
        (chunks.get ⟨i, hi⟩).length ≤ maxLength) ∧
      written.entity.hasProperty (numberedName baseName (chunks.length + 1)) = false ∧
      (∀ p ∈ written.entity, isNumberedProperty baseName p.key = true →
        p.value.length ≤ maxLength) ∧
      chunks.flatten = value := by
  refine ⟨_, (List.range' 0 (value.length / maxLength + 1)).map (chunk value maxLength),
    writeLongAttribute_eq node baseName value maxLength h, ?_, ?_, ?_, ?_⟩
  · intro i hi
    have hi' : i < value.length / maxLength + 1 := by simpa using hi
    refine ⟨?_, ?_⟩
    · show Entity.property (_ ++ _) _ = _
      rw [property_append_of_not_has _ _ _
        (hasProperty_removeNumberedProperty _ _ (Nat.succ_pos i))]
      rw [property_chunkProperties baseName value maxLength _ 0 i (Nat.zero_le i) (by omega)]
      simp [List.getElem_range']
    · simp [List.getElem_range', chunk_length_le]
  · show Entity.hasProperty (_ ++ _) _ = _
    rw [hasProperty_append, hasProperty_removeNumberedProperty _ _ (Nat.succ_pos _),
      hasProperty_chunkProperties]
    simp
  · intro p hp hnum
    have hp' : p ∈ node.entity.removeNumberedProperty baseName ++
        chunkProperties baseName value maxLength 0 (value.length / maxLength + 1) := hp
    rcases List.mem_append.mp hp' with hmem | hmem
    · have := (List.mem_filter.mp hmem).2
      rw [hnum] at this
      simp at this
    · obtain ⟨j, _, rfl⟩ := List.mem_map.mp hmem
      exact chunk_length_le value maxLength j
  · exact flatten_all_chunks value maxLength h

/-- Witness of C10: a value of length 4 cut into pieces of length at most 2. -/
theorem writeLongAttribute_chunks_witness :
    1 ≤ 2 ∧ ∃ (written : EntityNodeBase) (chunks : List Str),
      writeLongAttribute ⟨[⟨['m', '1'], ['o', 'l', 'd']⟩]⟩ ['m'] ['a', 'b', 'c', 'd'] 2
        = some written ∧
      (∀ i (hi : i < chunks.length),
        written.entity.property (numberedName ['m'] (i + 1)) = some (chunks.get ⟨i, hi⟩) ∧
        (chunks.get ⟨i, hi⟩).length ≤ 2) ∧
      written.entity.hasProperty (numberedName ['m'] (chunks.length + 1)) = false ∧
      (∀ p ∈ written.entity, isNumberedProperty ['m'] p.key = true → p.value.length ≤ 2) ∧
      chunks.flatten = ['a', 'b', 'c', 'd'] :=
  ⟨by decide, writeLongAttribute_chunks _ _ _ 2 (by decide)⟩


end Model

namespace MapReader

open Model

variable {Face Point Plane : Type}

/-! ### The order of completion and the slot array -/

theorem cons_eraseIdx_perm {α : Type} : ∀ (l : List α) (k : Nat) (x : α), l[k]? = some x →
    (x :: l.eraseIdx k).Perm l
  | [], k, x, h => by simp at h
  | a :: t, 0, x, h => by
    simp only [List.getElem?_cons_zero, Option.some.injEq] at h
    subst h
    simp
  | a :: t, k + 1, x, h => by
    simp only [List.getElem?_cons_succ] at h
    have ih := cons_eraseIdx_perm t k x h
    simp only [List.eraseIdx_cons_succ]
    exact (List.Perm.swap a x _).trans (List.Perm.cons a ih)

theorem completionOrder_perm (workers : Nat) :
    ∀ (fuel : Nat) (choices pending : List Nat), pending.length ≤ fuel →
      (completionOrder workers fuel choices pending).Perm pending := by
  intro fuel
  induction fuel with
  | zero =>
    intro choices pending h
    have : pending = [] := List.length_eq_zero.mp (by omega)
    subst this
    simp [completionOrder]
  | succ fuel ih =>
    intro choices pending h
    rw [completionOrder]
    cases hk : pending[choices.headD 0 % min (max workers 1) pending.length]? with
    | none =>
      have hlen : pending.length = 0 := by
        by_contra hne
        have hpos : 0 < min (max workers 1) pending.length := by
          have : 0 < pending.length := Nat.pos_of_ne_zero hne
          omega
        have hlt := Nat.mod_lt (choices.headD 0) hpos
        have hlt' : choices.headD 0 % min (max workers 1) pending.length < pending.length :=
          lt_of_lt_of_le hlt (Nat.min_le_right _ _)
        rw [List.getElem?_eq_none_iff] at hk
        omega
      have : pending = [] := List.length_eq_zero.mp hlen
      subst this
      simp
    | some task =>
      simp only
      have hlt : choices.headD 0 % min (max workers 1) pending.length < pending.length := by
        rcases List.getElem?_eq_some.mp hk with ⟨h1, _⟩
        exact h1
      have hrec := ih choices.tail
        (pending.eraseIdx (choices.headD 0 % min (max workers 1) pending.length))
        (by rw [List.length_eraseIdx]; simp only [hlt, if_true]; omega)
      exact (List.Perm.cons task hrec).trans (cons_eraseIdx_perm pending _ task hk)

theorem completeTask_eq [DecidableEq Plane] (ctx : BuildContext Face Plane)
    (objectInfos : List (ObjectInfo Face Point)) (state : BuildState Face Point) (index : Nat) :
    completeTask ctx objectInfos state index =
      { slots := match buildSlot ctx objectInfos index with
          | some nodeInfo => state.slots.set index (some nodeInfo)
          | none => state.slots
        status := state.status ++ buildErrors ctx objectInfos index } := by
  unfold completeTask buildSlot buildErrors
  cases h : objectInfos[index]? with
  | none => simp
  | some info =>
    simp only
    rcases h2 : createNodeFromObjectInfo ctx index info with ⟨slot, diagnostics⟩
    cases slot <;> rfl

theorem foldl_completeTask_status [DecidableEq Plane] (ctx : BuildContext Face Plane)
    (objectInfos : List (ObjectInfo Face Point)) :
    ∀ (order : List Nat) (state : BuildState Face Point),
      (order.foldl (completeTask ctx objectInfos) state).status =
        state.status ++ (order.map (buildErrors ctx objectInfos)).flatten := by
  intro order
  induction order with
  | nil => intro state; simp
  | cons i order ih =>
    intro state
    rw [List.foldl_cons, ih, completeTask_eq]
    simp

theorem foldl_completeTask_slots [DecidableEq Plane] (ctx : BuildContext Face Plane)
    (objectInfos : List (ObjectInfo Face Point)) :
    ∀ (order done : List Nat) (state : BuildState Face Point),
      state.slots.length = objectInfos.length →
      (∀ j, j < objectInfos.length →
        state.slots[j]? = some (if j ∈ done then buildSlot ctx objectInfos j else none)) →
      (order.foldl (completeTask ctx objectInfos) state).slots.length = objectInfos.length ∧
      ∀ j, j < objectInfos.length →
        (order.foldl (completeTask ctx objectInfos) state).slots[j]? =
          some (if j ∈ done ++ order then buildSlot ctx objectInfos j else none) := by
  intro order
  induction order with
  | nil => intro done state hlen h; simpa using ⟨hlen, h⟩
  | cons i order ih =>
    intro done state hlen h
    rw [List.foldl_cons]
    have hstep := ih (done ++ [i]) (completeTask ctx objectInfos state i) ?_ ?_
    · simpa [List.append_assoc] using hstep
    · rw [completeTask_eq]
      cases buildSlot ctx objectInfos i <;> simp [hlen]
    · intro j hj
      rw [completeTask_eq]
      cases hslot : buildSlot ctx objectInfos i with
      | none =>
        simp only
        rw [h j hj]
        by_cases hji : j = i
        · subst hji; simp [hslot]
        · simp [hji]
      | some nodeInfo =>
        simp only
        by_cases hji : j = i
        · subst hji
          rw [List.getElem?_set_self (by omega)]
          simp [hslot]
        · rw [List.getElem?_set_ne (Ne.symm hji), h j hj]
          simp [hji]

theorem createNodesFromObjectInfos_eq [DecidableEq Plane] (ctx : BuildContext Face Plane)
    (workers : Nat) (choices : List Nat) (objectInfos : List (ObjectInfo Face Point))
    (status : List Diagnostic) :
    createNodesFromObjectInfos ctx workers choices objectInfos status =
      { slots := (List.range objectInfos.length).map (buildSlot ctx objectInfos)
        status := status ++
          ((completionOrder workers objectInfos.length choices
            (List.range objectInfos.length)).map (buildErrors ctx objectInfos)).flatten } := by
  have hperm := completionOrder_perm workers objectInfos.length choices
    (List.range objectInfos.length) (by simp)
  have hslots := foldl_completeTask_slots ctx objectInfos
    (completionOrder workers objectInfos.length choices (List.range objectInfos.length)) []
    { slots := List.replicate objectInfos.length none, status := status } (by simp)
    (by intro j hj; simp [hj])
  have hstatus := foldl_completeTask_status ctx objectInfos
    (completionOrder workers objectInfos.length choices (List.range objectInfos.length))
    { slots := List.replicate objectInfos.length none, status := status }
  unfold createNodesFromObjectInfos
  rcases hfold : List.foldl (completeTask ctx objectInfos)
    { slots := List.replicate objectInfos.length none, status := status }
    (completionOrder workers objectInfos.length choices (List.range objectInfos.length))
    with ⟨slots, status'⟩
  rw [hfold] at hslots hstatus
  simp only at hslots hstatus
  congr 1
  · apply List.ext_getElem?
    intro j
    by_cases hj : j < objectInfos.length
    · rw [hslots.2 j hj]
      have hmem : j ∈ completionOrder workers objectInfos.length choices
          (List.range objectInfos.length) := hperm.mem_iff.mpr (List.mem_range.mpr hj)
      simp [hmem, List.getElem?_range hj, hj]
    · rw [List.getElem?_eq_none (by omega), List.getElem?_eq_none (by simp; omega)]


/-! ### The sequential pass of the resolver -/

theorem resolveStep_events (objectInfos : List (ObjectInfo Face Point))
    (slots : List (Option (NodeInfo Face Point))) (state : ResolverState Face Point)
    (index : Nat) :
    (resolveStep objectInfos slots state index).events =
      state.events ++ (resolveEvent objectInfos slots state index).toList := by
  unfold resolveStep resolveEvent
  cases hs : slots[index]? with
  | none => simp
  | some slot =>
    cases slot with
    | none => simp
    | some nodeInfo =>
      cases ho : objectInfos[index]? with
      | none => simp
      | some info =>
        simp only
        cases hn : nodeInfo.node <;> simp [ResolverState.attach]

theorem resolveEvent_handed (objectInfos : List (ObjectInfo Face Point))
    (slots : List (Option (NodeInfo Face Point))) (state : ResolverState Face Point)
    (index : Nat) (e : Event Face Point)
    (h : resolveEvent objectInfos slots state index = some e) :
    ∃ nodeInfo, slots[index]? = some (some nodeInfo) ∧ e.handed = some (index, nodeInfo.node) ∧
      e.isWorld = nodeInfo.node.isWorld ∧ e.record = some index := by
  unfold resolveEvent at h
  cases hs : slots[index]? with
  | none => simp [hs] at h
  | some slot =>
    cases slot with
    | none => simp [hs] at h
    | some nodeInfo =>
      cases ho : objectInfos[index]? with
      | none => simp [hs, ho] at h
      | some info =>
        refine ⟨nodeInfo, rfl, ?_⟩
        simp only [hs, ho] at h
        cases hn : nodeInfo.node <;> simp only [hn, Option.some.injEq] at h <;> subst h <;>
          simp [Event.handed, Event.isWorld, Event.record, Node.isWorld]

theorem resolveEvent_isSome (objectInfos : List (ObjectInfo Face Point))
    (slots : List (Option (NodeInfo Face Point))) (state : ResolverState Face Point)
    (index : Nat) (nodeInfo : NodeInfo Face Point) (info : ObjectInfo Face Point)
    (hs : slots[index]? = some (some nodeInfo)) (ho : objectInfos[index]? = some info) :
    ∃ e, resolveEvent objectInfos slots state index = some e := by
  unfold resolveEvent
  simp only [hs, ho]
  cases nodeInfo.node <;> simp

/-- The record and node that the step for `index` hands over: those of the slot. -/
theorem resolveEvent_map_handed (objectInfos : List (ObjectInfo Face Point))
    (slots : List (Option (NodeInfo Face Point))) (state : ResolverState Face Point)
    (index : Nat) :
    (resolveEvent objectInfos slots state index).toList.map Event.handed =
      (match slots[index]?, objectInfos[index]? with
        | some (some nodeInfo), some _ => [some (index, nodeInfo.node)]
        | _, _ => []) := by
  cases hs : slots[index]? with
  | none => simp [resolveEvent, hs]
  | some slot =>
    cases slot with
    | none => simp [resolveEvent, hs]
    | some nodeInfo =>
      cases ho : objectInfos[index]? with
      | none => simp [resolveEvent, hs, ho]
      | some info =>
        obtain ⟨e, he⟩ := resolveEvent_isSome objectInfos slots state index nodeInfo info hs ho
        obtain ⟨nodeInfo', h1, h2, _, _⟩ :=
          resolveEvent_handed objectInfos slots state index e he
        rw [hs] at h1
        simp only [Option.some.injEq] at h1
        subst h1
        simp [he, h2]

theorem foldl_resolveStep_events (objectInfos : List (ObjectInfo Face Point))
    (slots : List (Option (NodeInfo Face Point))) :
    ∀ (indices : List Nat) (state : ResolverState Face Point),
      ∃ added, (indices.foldl (resolveStep objectInfos slots) state).events =
          state.events ++ added ∧
        added.map Event.handed = (indices.filterMap (fun index =>
          match slots[index]?, objectInfos[index]? with
          | some (some nodeInfo), some _ => some (index, nodeInfo.node)
          | _, _ => none)).map some ∧
        (∀ e ∈ added, ∃ index ∈ indices, ∃ state',
          resolveEvent objectInfos slots state' index = some e) := by
  intro indices
  induction indices with
  | nil => intro state; exact ⟨[], by simp⟩
  | cons i indices ih =>
    intro state
    obtain ⟨added, h1, h2, h3⟩ := ih (resolveStep objectInfos slots state i)
    refine ⟨(resolveEvent objectInfos slots state i).toList ++ added, ?_, ?_, ?_⟩
    · rw [List.foldl_cons, h1, resolveStep_events, List.append_assoc]
    · rw [List.map_append, h2, resolveEvent_map_handed, List.filterMap_cons]
      cases hs : slots[i]? with
      | none => simp
      | some slot =>
        cases slot with
        | none => simp
        | some nodeInfo =>
          cases ho : objectInfos[i]? with
          | none => simp
          | some info => simp
    · intro e he
      rcases List.mem_append.mp he with h | h
      · exact ⟨i, by simp, state, by simpa using h⟩
      · obtain ⟨index, hmem, state', hs⟩ := h3 e h
        exact ⟨index, List.mem_cons_of_mem _ hmem, state', hs⟩

theorem foldl_resolveStep_mem (objectInfos : List (ObjectInfo Face Point))
    (slots : List (Option (NodeInfo Face Point))) (e : Event Face Point) (index : Nat)
    (h : ∀ state, resolveEvent objectInfos slots state index = some e) :
    ∀ (indices : List Nat) (state : ResolverState Face Point), index ∈ indices →
      e ∈ (indices.foldl (resolveStep objectInfos slots) state).events := by
  intro indices
  induction indices with
  | nil => intro state hmem; simp at hmem
  | cons i indices ih =>
    intro state hmem
    rw [List.foldl_cons]
    obtain ⟨added, h1, _, _⟩ :=
      foldl_resolveStep_events objectInfos slots indices (resolveStep objectInfos slots state i)
    rcases List.mem_cons.mp hmem with hi | hi
    · subst hi
      rw [h1, resolveStep_events, h state]
      simp
    · exact ih _ hi

theorem resolveStep_status (objectInfos : List (ObjectInfo Face Point))
    (slots : List (Option (NodeInfo Face Point))) (state : ResolverState Face Point)
    (index : Nat) :
    ∃ notes, (resolveStep objectInfos slots state index).status = state.status ++ notes ∧
      ∀ d ∈ notes, d.kind = ErrorKind.resolutionWarning := by
  unfold resolveStep
  cases hs : slots[index]? with
  | none => exact ⟨[], by simp⟩
  | some slot =>
    cases slot with
    | none => exact ⟨[], by simp⟩
    | some nodeInfo =>
      cases ho : objectInfos[index]? with
      | none => exact ⟨[], by simp⟩
      | some info =>
        simp only
        cases hn : nodeInfo.node with
        | world properties => exact ⟨[], by simp⟩
        | layer id properties => exact ⟨[], by simp⟩
        | group id properties =>
          simp only [ResolverState.attach]
          split
          · exact ⟨[_], rfl, by simp⟩
          · exact ⟨[], by simp⟩
        | entity properties =>
          simp only [ResolverState.attach]
          split
          · exact ⟨[_], rfl, by simp⟩
          · exact ⟨[], by simp⟩
        | brush faces =>
          simp only [ResolverState.attach]
          split
          · exact ⟨[_], rfl, by simp⟩
          · exact ⟨[], by simp⟩
        | patch rowCount columnCount controlPoints materialName =>
          simp only [ResolverState.attach]
          split
          · exact ⟨[_], rfl, by simp⟩
          · exact ⟨[], by simp⟩

theorem foldl_resolveStep_status (objectInfos : List (ObjectInfo Face Point))
    (slots : List (Option (NodeInfo Face Point))) :
    ∀ (indices : List Nat) (state : ResolverState Face Point),
      ∃ notes, (indices.foldl (resolveStep objectInfos slots) state).status =
          state.status ++ notes ∧
        ∀ d ∈ notes, d.kind = ErrorKind.resolutionWarning := by
  intro indices
  induction indices with
  | nil => intro state; exact ⟨[], by simp⟩
  | cons i indices ih =>
    intro state
    obtain ⟨notes₁, h1, h2⟩ := resolveStep_status objectInfos slots state i
    obtain ⟨notes₂, h3, h4⟩ := ih (resolveStep objectInfos slots state i)
    refine ⟨notes₁ ++ notes₂, ?_, ?_⟩
    · rw [List.foldl_cons, h3, h1, List.append_assoc]
    · intro d hd
      rcases List.mem_append.mp hd with h | h
      · exact h2 d h
      · exact h4 d h

/-! ### `createNodes` -/

theorem createNodes_eq [DecidableEq Plane] (ctx : BuildContext Face Plane) (workers : Nat)
    (choices : List Nat) (c : Collector Face Point) :
    createNodes ctx workers choices c =
      { nodes := sequentialSlots ctx c.m_objectInfos
        events := (resolve c.m_objectInfos (sequentialSlots ctx c.m_objectInfos)).events
        status := c.status ++
          ((completionOrder workers c.m_objectInfos.length choices
            (List.range c.m_objectInfos.length)).map (buildErrors ctx c.m_objectInfos)).flatten
          ++ (resolve c.m_objectInfos (sequentialSlots ctx c.m_objectInfos)).status } := by
  unfold createNodes
  rw [createNodesFromObjectInfos_eq]
  rfl

theorem sequentialSlots_getElem? [DecidableEq Plane] (ctx : BuildContext Face Plane)
    (objectInfos : List (ObjectInfo Face Point)) (index : Nat) :
    (sequentialSlots ctx objectInfos)[index]? =
      if index < objectInfos.length then some (buildSlot ctx objectInfos index) else none := by
  unfold sequentialSlots
  by_cases h : index < objectInfos.length
  · simp [h, List.getElem?_range h]
  · rw [List.getElem?_eq_none (by simp; omega)]
    simp [h]

theorem buildSlot_eq_some [DecidableEq Plane] (ctx : BuildContext Face Plane)
    (objectInfos : List (ObjectInfo Face Point)) (index : Nat) (nodeInfo : NodeInfo Face Point)
    (h : buildSlot ctx objectInfos index = some nodeInfo) :
    ∃ info, objectInfos[index]? = some info ∧
      (createNodeFromObjectInfo ctx index info).1 = some nodeInfo := by
  unfold buildSlot at h
  cases ho : objectInfos[index]? with
  | none => simp [ho] at h
  | some info => exact ⟨info, rfl, by simpa [ho] using h⟩

theorem sequentialSlots_eq_some [DecidableEq Plane] (ctx : BuildContext Face Plane)
    (objectInfos : List (ObjectInfo Face Point)) (index : Nat) (nodeInfo : NodeInfo Face Point) :
    (sequentialSlots ctx objectInfos)[index]? = some (some nodeInfo) ↔
      buildSlot ctx objectInfos index = some nodeInfo := by
  rw [sequentialSlots_getElem?]
  constructor
  · intro h
    by_cases hlt : index < objectInfos.length
    · simpa [hlt] using h
    · simp [hlt] at h
  · intro h
    obtain ⟨info, ho, _⟩ := buildSlot_eq_some ctx objectInfos index nodeInfo h
    have hlt : index < objectInfos.length := (List.getElem?_eq_some.mp ho).1
    simp [hlt, h]

theorem resolve_events_handed [DecidableEq Plane] (ctx : BuildContext Face Plane)
    (objectInfos : List (ObjectInfo Face Point)) :
    (resolve objectInfos (sequentialSlots ctx objectInfos)).events.map Event.handed =
      (documentOrder ctx objectInfos).map some := by
  obtain ⟨added, h1, h2, _⟩ := foldl_resolveStep_events objectInfos
    (sequentialSlots ctx objectInfos) (List.range objectInfos.length)
    { layers := [], groups := [], events := [], status := [] }
  unfold resolve documentOrder
  rw [h1, List.nil_append, h2]
  congr 1
  apply List.filterMap_congr
  intro index hmem
  have hlt : index < objectInfos.length := List.mem_range.mp hmem
  rw [sequentialSlots_getElem?, if_pos hlt]
  cases hb : buildSlot ctx objectInfos index with
  | none => simp
  | some nodeInfo =>
    obtain ⟨info, ho, _⟩ := buildSlot_eq_some ctx objectInfos index nodeInfo hb
    simp [ho]

theorem documentOrder_mem [DecidableEq Plane] (ctx : BuildContext Face Plane)
    (objectInfos : List (ObjectInfo Face Point)) (index : Nat) (node : Node Face Point) :
    (index, node) ∈ documentOrder ctx objectInfos ↔
      ∃ nodeInfo, buildSlot ctx objectInfos index = some nodeInfo ∧ nodeInfo.node = node := by
  unfold documentOrder
  rw [List.mem_filterMap]
  constructor
  · rintro ⟨i, _, h⟩
    cases hb : buildSlot ctx objectInfos i with
    | none => simp [hb] at h
    | some nodeInfo =>
      simp only [hb, Option.map_some', Option.some.injEq, Prod.mk.injEq] at h
      obtain ⟨rfl, rfl⟩ := h
      exact ⟨nodeInfo, hb, rfl⟩
  · rintro ⟨nodeInfo, hb, rfl⟩
    obtain ⟨info, ho, _⟩ := buildSlot_eq_some ctx objectInfos index nodeInfo hb
    exact ⟨index, List.mem_range.mpr (List.getElem?_eq_some.mp ho).1, by simp [hb]⟩

theorem resolve_event_record [DecidableEq Plane] (ctx : BuildContext Face Plane)
    (objectInfos : List (ObjectInfo Face Point)) (e : Event Face Point)
    (he : e ∈ (resolve objectInfos (sequentialSlots ctx objectInfos)).events) :
    ∃ index nodeInfo, buildSlot ctx objectInfos index = some nodeInfo ∧
      e.handed = some (index, nodeInfo.node) ∧ e.record = some index ∧
      e.isWorld = nodeInfo.node.isWorld := by
  obtain ⟨added, h1, _, h3⟩ := foldl_resolveStep_events objectInfos
    (sequentialSlots ctx objectInfos) (List.range objectInfos.length)
    { layers := [], groups := [], events := [], status := [] }
  unfold resolve at he
  rw [h1, List.nil_append] at he
  obtain ⟨index, _, state', hs⟩ := h3 e he
  obtain ⟨nodeInfo, hslot, hh, hw, hr⟩ := resolveEvent_handed _ _ _ _ _ hs
  exact ⟨index, nodeInfo, (sequentialSlots_eq_some ctx objectInfos index nodeInfo).mp hslot,
    hh, hr, hw⟩

theorem Event.record_eq_handed (e : Event Face Point) :
    e.record = e.handed.map Prod.fst := by
  cases e <;> rfl

theorem documentOrder_map_fst [DecidableEq Plane] (ctx : BuildContext Face Plane)
    (objectInfos : List (ObjectInfo Face Point)) :
    (documentOrder ctx objectInfos).map Prod.fst =
      (List.range objectInfos.length).filter
        (fun index => (buildSlot ctx objectInfos index).isSome) := by
  unfold documentOrder
  induction List.range objectInfos.length with
  | nil => rfl
  | cons i l ih =>
    rw [List.filterMap_cons, List.filter_cons]
    cases hb : buildSlot ctx objectInfos i with
    | none => simpa using ih
    | some nodeInfo => simpa using ih

theorem resolve_events_records [DecidableEq Plane] (ctx : BuildContext Face Plane)
    (objectInfos : List (ObjectInfo Face Point)) :
    (resolve objectInfos (sequentialSlots ctx objectInfos)).events.filterMap Event.record =
      (List.range objectInfos.length).filter
        (fun index => (buildSlot ctx objectInfos index).isSome) := by
  have h := resolve_events_handed ctx objectInfos
  have h2 : (resolve objectInfos (sequentialSlots ctx objectInfos)).events.filterMap Event.record
      = ((resolve objectInfos (sequentialSlots ctx objectInfos)).events.map
          Event.handed).filterMap (fun o => o.map Prod.fst) := by
    rw [List.filterMap_map]
    apply List.filterMap_congr
    intro e _
    exact Event.record_eq_handed e
  rw [h2, h, List.filterMap_map, ← documentOrder_map_fst]
  induction documentOrder ctx objectInfos with
  | nil => rfl
  | cons a l ih => simp [List.filterMap_cons, ih]

/-- C5. Determinism under concurrency: for every document (the records and diagnostics
of the collector) the slot array and the sequence of calls that `createNodes` makes are
the same for every number of workers and every order of completion of the build tasks;
the slot of a record holds the result of building that record, the calls hand over the
built nodes in the original order of the records (increasing record index), and the
diagnostics differ at most in their order. -/
theorem createNodes_deterministic [DecidableEq Plane] (ctx : BuildContext Face Plane)
    (workers₁ workers₂ : Nat) (choices₁ choices₂ : List Nat) (c : Collector Face Point) :
    (createNodes ctx workers₁ choices₁ c).nodes = (createNodes ctx workers₂ choices₂ c).nodes ∧
    (createNodes ctx workers₁ choices₁ c).events = (createNodes ctx workers₂ choices₂ c).events ∧
    (createNodes ctx workers₁ choices₁ c).nodes = sequentialSlots ctx c.m_objectInfos ∧
    (createNodes ctx workers₁ choices₁ c).events.map Event.handed =
      (documentOrder ctx c.m_objectInfos).map some ∧
    List.Pairwise (fun i j => i < j)
      ((createNodes ctx workers₁ choices₁ c).events.filterMap Event.record) ∧
    List.Perm (createNodes ctx workers₁ choices₁ c).status
      (createNodes ctx workers₂ choices₂ c).status := by
  rw [createNodes_eq ctx workers₁ choices₁ c, createNodes_eq ctx workers₂ choices₂ c]
  refine ⟨rfl, rfl, rfl, resolve_events_handed ctx c.m_objectInfos, ?_, ?_⟩
  · simp only
    rw [resolve_events_records]
    exact List.Pairwise.sublist (List.filter_sublist _) (List.pairwise_lt_range _)
  · simp only
    apply List.Perm.append_right
    apply List.Perm.append_left
    apply List.Perm.flatten
    apply List.Perm.map
    exact (completionOrder_perm workers₁ _ choices₁ _ (by simp)).trans
      (completionOrder_perm workers₂ _ choices₂ _ (by simp)).symm

/-- Witness of C5: with three workers the tasks of the example map complete in another
order than with one worker, and the calls are the same. -/
theorem createNodes_deterministic_witness :
    completionOrder 3 8 [2, 1, 5] (List.range 8) = [2, 1, 4, 0, 3, 5, 6, 7] ∧
      completionOrder 1 8 [] (List.range 8) = [0, 1, 2, 3, 4, 5, 6, 7] ∧
      (createNodes exampleContext 3 [2, 1, 5] (Collector.initial.run exampleMap)).events =
        (createNodes exampleContext 1 [] (Collector.initial.run exampleMap)).events :=
  ⟨by decide, by decide,
    (createNodes_deterministic exampleContext 3 1 [2, 1, 5] []
      (Collector.initial.run exampleMap)).2.1⟩

/-! ### The world node -/

theorem Collector.initial_invariant : (Collector.initial : Collector Face Point).Invariant where
  stack_open := by intro p hp; simp [Collector.initial] at hp
  stack_nodup := by simp [Collector.initial]
  parent_earlier := by intro i info p h; simp [Collector.initial] at h
  patch_closed := by intro i p h; simp [Collector.initial] at h
  status_structural := by intro d hd; simp [Collector.initial] at hd

theorem Collector.report_invariant (c : Collector Face Point) (h : c.Invariant)
    (location : FileLocation) : (c.report .structuralError location).Invariant where
  stack_open := h.stack_open
  stack_nodup := h.stack_nodup
  parent_earlier := h.parent_earlier
  patch_closed := h.patch_closed
  status_structural := by
    intro d hd
    simp only [Collector.report, List.mem_append, List.mem_singleton] at hd
    rcases hd with hd | hd
    · exact h.status_structural d hd
    · subst hd; rfl

theorem Collector.openBrush_eq_some (c : Collector Face Point) (info : BrushInfo Face)
    (h : c.openBrush = some info) :
    c.m_objectInfos[c.m_objectInfos.length - 1]? = some (.brush info) ∧
      info.endLocation = none ∧ 0 < c.m_objectInfos.length := by
  unfold Collector.openBrush at h
  rw [List.getLast?_eq_getElem?] at h
  cases hl : c.m_objectInfos[c.m_objectInfos.length - 1]? with
  | none => simp [hl] at h
  | some last =>
    have hlen := (List.getElem?_eq_some.mp hl).1
    cases last with
    | entity e => simp [hl] at h
    | patch p => simp [hl] at h
    | brush b =>
      simp only [hl] at h
      split at h
      · simp only [Option.some.injEq] at h
        subst h
        refine ⟨rfl, ?_, by omega⟩
        cases hb : b.endLocation with
        | none => rfl
        | some l => simp_all
      · cases h

theorem Collector.top_mem (c : Collector Face Point) (p : Nat)
    (h : c.getCurrentEntityInfo = some p) :
    p ∈ c.m_currentEntityInfo ∧ c.m_currentEntityInfo = c.m_currentEntityInfo.dropLast ++ [p] := by
  unfold Collector.getCurrentEntityInfo at h
  obtain ⟨ys, hys⟩ := List.getLast?_eq_some_iff.mp h
  rw [hys]
  simp

theorem getElem?_concat_eq_some {α : Type} (l : List α) (a x : α) (i : Nat)
    (h : (l ++ [a])[i]? = some x) : l[i]? = some x ∨ (i = l.length ∧ x = a) := by
  by_cases hlt : i < l.length
  · rw [List.getElem?_append_left hlt] at h
    exact Or.inl h
  · rw [List.getElem?_append_right (by omega)] at h
    have h0 : i - l.length = 0 := by
      by_contra hne
      rw [List.getElem?_eq_none (by simp; omega)] at h
      cases h
    rw [h0] at h
    simp only [List.getElem?_cons_zero, Option.some.injEq] at h
    exact Or.inr ⟨by omega, h.symm⟩

theorem getElem?_concat_of_some {α : Type} (l : List α) (a x : α) (i : Nat)
    (h : l[i]? = some x) : (l ++ [a])[i]? = some x := by
  rw [List.getElem?_append_left (List.getElem?_eq_some.mp h).1]
  exact h

/-- Replacing a record by one of the same kind keeps entity records where they are. -/
theorem getElem?_set_entity (objectInfos : List (ObjectInfo Face Point)) (k : Nat)
    (old new : ObjectInfo Face Point) (hold : objectInfos[k]? = some old)
    (hkind : new.isEntity = old.isEntity) (p : Nat) :
    (∃ e : EntityInfo, objectInfos[p]? = some (.entity e)) →
      ∃ e : EntityInfo, (objectInfos.set k new)[p]? = some (.entity e) := by
  rintro ⟨e, he⟩
  by_cases hkp : k = p
  · subst hkp
    rw [List.getElem?_set_self (List.getElem?_eq_some.mp hold).1]
    rw [hold] at he
    simp only [Option.some.injEq] at he
    subst he
    cases new with
    | entity e' => exact ⟨e', rfl⟩
    | brush b => simp [ObjectInfo.isEntity] at hkind
    | patch q => simp [ObjectInfo.isEntity] at hkind
  · rw [List.getElem?_set_ne hkp]
    exact ⟨e, he⟩

theorem Collector.onBeginEntity_invariant (c : Collector Face Point) (h : c.Invariant)
    (location : FileLocation) (properties : List EntityProperty) :
    (c.onBeginEntity location properties).Invariant where
  stack_open := by
    intro p hp
    simp only [Collector.onBeginEntity, List.mem_append, List.mem_singleton] at hp ⊢
    rcases hp with hp | hp
    · obtain ⟨e, he, hopen⟩ := h.stack_open p hp
      exact ⟨e, by rw [List.getElem?_append_left (List.getElem?_eq_some.mp he).1]; exact he,
        hopen⟩
    · subst hp
      exact ⟨⟨properties, location, none⟩, by simp, rfl⟩
  stack_nodup := by
    simp only [Collector.onBeginEntity]
    rw [List.nodup_append]
    refine ⟨h.stack_nodup, by simp, ?_⟩
    intro a ha hb
    simp only [List.mem_singleton] at hb
    subst hb
    obtain ⟨e, he, _⟩ := h.stack_open _ ha
    have := (List.getElem?_eq_some.mp he).1
    omega
  parent_earlier := by
    intro i info p hi hp
    simp only [Collector.onBeginEntity] at hi ⊢
    rcases getElem?_concat_eq_some _ _ _ _ hi with hi | ⟨_, hi⟩
    · obtain ⟨h1, e, he⟩ := h.parent_earlier i info p hi hp
      exact ⟨h1, e, getElem?_concat_of_some _ _ _ _ he⟩
    · subst hi
      simp [ObjectInfo.parentIndex] at hp
  patch_closed := by
    intro i p hi
    simp only [Collector.onBeginEntity] at hi
    rcases getElem?_concat_eq_some _ _ _ _ hi with hi | ⟨_, hi⟩
    · exact h.patch_closed i p hi
    · cases hi
  status_structural := h.status_structural

theorem Collector.onBeginBrush_invariant (c : Collector Face Point) (h : c.Invariant)
    (location : FileLocation) : (c.onBeginBrush location).Invariant where
  stack_open := by
    intro p hp
    obtain ⟨e, he, hopen⟩ := h.stack_open p hp
    exact ⟨e, getElem?_concat_of_some _ _ _ _ he, hopen⟩
  stack_nodup := h.stack_nodup
  parent_earlier := by
    intro i info p hi hp
    simp only [Collector.onBeginBrush] at hi ⊢
    rcases getElem?_concat_eq_some _ _ _ _ hi with hi | ⟨_, hi⟩
    · obtain ⟨h1, e, he⟩ := h.parent_earlier i info p hi hp
      exact ⟨h1, e, getElem?_concat_of_some _ _ _ _ he⟩
    · subst hi
      simp [ObjectInfo.parentIndex] at hp
  patch_closed := by
    intro i p hi
    simp only [Collector.onBeginBrush] at hi
    rcases getElem?_concat_eq_some _ _ _ _ hi with hi | ⟨_, hi⟩
    · exact h.patch_closed i p hi
    · cases hi
  status_structural := h.status_structural

theorem Collector.onPatch_invariant (c : Collector Face Point) (h : c.Invariant)
    (startLocation endLocation : FileLocation) (rowCount columnCount : Nat)
    (controlPoints : List Point) (materialName : Str) :
    (c.onPatch startLocation endLocation rowCount columnCount controlPoints
      materialName).Invariant where
  stack_open := by
    intro p hp
    obtain ⟨e, he, hopen⟩ := h.stack_open p hp
    exact ⟨e, getElem?_concat_of_some _ _ _ _ he, hopen⟩
  stack_nodup := h.stack_nodup
  parent_earlier := by
    intro i info p hi hp
    simp only [Collector.onPatch] at hi ⊢
    rcases getElem?_concat_eq_some _ _ _ _ hi with hi | ⟨hidx, hi⟩
    · obtain ⟨h1, e, he⟩ := h.parent_earlier i info p hi hp
      exact ⟨h1, e, getElem?_concat_of_some _ _ _ _ he⟩
    · subst hi
      simp only [ObjectInfo.parentIndex] at hp
      obtain ⟨e, he, _⟩ := h.stack_open p (c.top_mem p hp).1
      have := (List.getElem?_eq_some.mp he).1
      exact ⟨by omega, e, getElem?_concat_of_some _ _ _ _ he⟩
  patch_closed := by
    intro i p hi
    simp only [Collector.onPatch] at hi
    rcases getElem?_concat_eq_some _ _ _ _ hi with hi | ⟨_, hi⟩
    · exact h.patch_closed i p hi
    · simp only [ObjectInfo.patch.injEq] at hi
      subst hi
      rfl
  status_structural := h.status_structural

/-- An update in place of a record by one of the same kind that is no patch and has a
parent index that is absent or points to an earlier entity keeps the invariant, when the
stack is a part of the old stack whose records stay open. -/
theorem Collector.set_invariant (c : Collector Face Point) (h : c.Invariant) (k : Nat)
    (old new : ObjectInfo Face Point) (stack : List Nat)
    (hold : c.m_objectInfos[k]? = some old) (hkind : new.index = old.index)
    (hnew : old.index ≠ 2)
    (hparent : ∀ p, new.parentIndex = some p →
      p < k ∧ ∃ e : EntityInfo, c.m_objectInfos[p]? = some (.entity e))
    (hsub : stack.Sublist c.m_currentEntityInfo)
    (hstack : ∀ p ∈ stack, p = k → new = old) :
    ({ c with m_objectInfos := c.m_objectInfos.set k new,
              m_currentEntityInfo := stack } : Collector Face Point).Invariant := by
  have hentity : new.isEntity = old.isEntity := by
    cases new <;> cases old <;> simp_all [ObjectInfo.index, ObjectInfo.isEntity]
  have hklt := (List.getElem?_eq_some.mp hold).1
  refine ⟨?_, hsub.nodup h.stack_nodup, ?_, ?_, h.status_structural⟩
  · intro p hp
    obtain ⟨e, he, hopen⟩ := h.stack_open p (hsub.subset hp)
    by_cases hkp : k = p
    · have := hstack p hp hkp.symm
      subst this
      subst hkp
      simp only
      rw [List.getElem?_set_self hklt]
      rw [hold] at he
      exact ⟨e, he, hopen⟩
    · simp only
      rw [List.getElem?_set_ne hkp]
      exact ⟨e, he, hopen⟩
  · intro i info p hi hp
    simp only at hi ⊢
    by_cases hki : k = i
    · subst hki
      rw [List.getElem?_set_self hklt] at hi
      simp only [Option.some.injEq] at hi
      subst hi
      obtain ⟨h1, he⟩ := hparent p hp
      exact ⟨h1, getElem?_set_entity _ _ _ _ hold hentity p he⟩
    · rw [List.getElem?_set_ne hki] at hi
      obtain ⟨h1, he⟩ := h.parent_earlier i info p hi hp
      exact ⟨h1, getElem?_set_entity _ _ _ _ hold hentity p he⟩
  · intro i p hi
    simp only at hi
    by_cases hki : k = i
    · subst hki
      rw [List.getElem?_set_self hklt] at hi
      simp only [Option.some.injEq] at hi
      subst hi
      simp [ObjectInfo.index] at hkind
      exact absurd hkind.symm hnew
    · rw [List.getElem?_set_ne hki] at hi
      exact h.patch_closed i p hi

theorem Collector.onEndEntity_invariant (c : Collector Face Point) (h : c.Invariant)
    (endLocation : FileLocation) : (c.onEndEntity endLocation).Invariant := by
  unfold Collector.onEndEntity
  cases htop : c.getCurrentEntityInfo with
  | none => exact c.report_invariant h endLocation
  | some index =>
    simp only
    cases hrec : c.m_objectInfos[index]? with
    | none => exact c.report_invariant h endLocation
    | some info =>
      cases info with
      | brush b => exact c.report_invariant h endLocation
      | patch p => exact c.report_invariant h endLocation
      | entity e =>
        simp only
        apply c.set_invariant h index (.entity e)
          (.entity { e with endLocation := some endLocation }) _ hrec rfl
          (by simp [ObjectInfo.index])
        · intro p hp
          simp [ObjectInfo.parentIndex] at hp
        · exact List.dropLast_sublist _
        · intro p hp hpk
          subst hpk
          exfalso
          have hnodup := h.stack_nodup
          rw [(c.top_mem p htop).2, List.nodup_append] at hnodup
          exact hnodup.2.2 hp (by simp)

theorem Collector.onEndBrush_invariant (c : Collector Face Point) (h : c.Invariant)
    (endLocation : FileLocation) : (c.onEndBrush endLocation).Invariant := by
  unfold Collector.onEndBrush
  cases hopen : c.openBrush with
  | none => exact c.report_invariant h endLocation
  | some info =>
    simp only
    obtain ⟨hlast, _, hpos⟩ := c.openBrush_eq_some info hopen
    apply c.set_invariant h _ (.brush info)
      (.brush { info with endLocation := some endLocation,
                          parentIndex := c.getCurrentEntityInfo }) _ hlast rfl
      (by simp [ObjectInfo.index])
    · intro p hp
      simp only [ObjectInfo.parentIndex] at hp
      obtain ⟨e, he, _⟩ := h.stack_open p (c.top_mem p hp).1
      refine ⟨?_, e, he⟩
      have hlt := (List.getElem?_eq_some.mp he).1
      have hne : p ≠ c.m_objectInfos.length - 1 := by
        intro heq
        rw [heq, hlast] at he
        cases he
      omega
    · exact List.Sublist.refl _
    · intro p hp hpk
      subst hpk
      obtain ⟨e, he, _⟩ := h.stack_open _ hp
      rw [hlast] at he
      cases he

theorem Collector.onBrushFaceLine_invariant (c : Collector Face Point) (h : c.Invariant)
    (location : FileLocation) (face : Face) : (c.onBrushFaceLine location face).Invariant := by
  unfold Collector.onBrushFaceLine
  cases hopen : c.openBrush with
  | none => exact c.report_invariant h location
  | some info =>
    simp only
    obtain ⟨hlast, _, hpos⟩ := c.openBrush_eq_some info hopen
    apply c.set_invariant h _ (.brush info)
      (.brush { info with faces := info.faces ++ [face] }) _ hlast rfl
      (by simp [ObjectInfo.index])
    · intro p hp
      simp only [ObjectInfo.parentIndex] at hp
      exact h.parent_earlier _ (.brush info) p hlast hp
    · exact List.Sublist.refl _
    · intro p hp hpk
      subst hpk
      obtain ⟨e, he, _⟩ := h.stack_open _ hp
      rw [hlast] at he
      cases he

theorem Collector.step_invariant (c : Collector Face Point) (h : c.Invariant)
    (callback : Callback Face Point) : (c.step callback).Invariant := by
  cases callback with
  | onBeginEntity location properties => exact c.onBeginEntity_invariant h location properties
  | onEndEntity endLocation => exact c.onEndEntity_invariant h endLocation
  | onBeginBrush location => exact c.onBeginBrush_invariant h location
  | onEndBrush endLocation => exact c.onEndBrush_invariant h endLocation
  | onBrushFaceLine location face => exact c.onBrushFaceLine_invariant h location face
  | onPatch startLocation endLocation rowCount columnCount controlPoints materialName =>
    exact c.onPatch_invariant h startLocation endLocation rowCount columnCount controlPoints
      materialName

theorem Collector.run_invariant (callbacks : List (Callback Face Point)) :
    ∀ (c : Collector Face Point), c.Invariant → (c.run callbacks).Invariant := by
  induction callbacks with
  | nil => intro c h; exact h
  | cons callback callbacks ih =>
    intro c h
    exact ih _ (c.step_invariant h callback)

/-! ### The sequence of records is append-only -/

theorem set_records (objectInfos : List (ObjectInfo Face Point)) (k : Nat)
    (old new : ObjectInfo Face Point) (hold : objectInfos[k]? = some old)
    (hkind : new.index = old.index) (hstart : new.startLocation = old.startLocation)
    (hopen : old.endLocation = none) (i : Nat) (info : ObjectInfo Face Point)
    (hi : objectInfos[i]? = some info) :
    ∃ info', (objectInfos.set k new)[i]? = some info' ∧ info'.index = info.index ∧
      info'.startLocation = info.startLocation ∧
      (info.endLocation.isSome = true → info' = info) := by
  by_cases hki : k = i
  · subst hki
    rw [hold] at hi
    simp only [Option.some.injEq] at hi
    subst hi
    refine ⟨new, List.getElem?_set_self (List.getElem?_eq_some.mp hold).1, hkind, hstart, ?_⟩
    intro h
    rw [hopen] at h
    cases h
  · exact ⟨info, by rw [List.getElem?_set_ne hki]; exact hi, rfl, rfl, fun _ => rfl⟩

theorem Collector.step_records (c : Collector Face Point) (h : c.Invariant)
    (callback : Callback Face Point) :
    c.m_objectInfos.length ≤ (c.step callback).m_objectInfos.length ∧
    ∀ (i : Nat) (info : ObjectInfo Face Point), c.m_objectInfos[i]? = some info →
      ∃ info', (c.step callback).m_objectInfos[i]? = some info' ∧ info'.index = info.index ∧
        info'.startLocation = info.startLocation ∧
        (info.endLocation.isSome = true → info' = info) := by
  have same : ∀ (i : Nat) (info : ObjectInfo Face Point), c.m_objectInfos[i]? = some info →
      ∃ info', c.m_objectInfos[i]? = some info' ∧ info'.index = info.index ∧
        info'.startLocation = info.startLocation ∧
        (info.endLocation.isSome = true → info' = info) :=
    fun i info hi => ⟨info, hi, rfl, rfl, fun _ => rfl⟩
  have appended : ∀ (x : ObjectInfo Face Point) (i : Nat) (info : ObjectInfo Face Point),
      c.m_objectInfos[i]? = some info →
      ∃ info', (c.m_objectInfos ++ [x])[i]? = some info' ∧ info'.index = info.index ∧
        info'.startLocation = info.startLocation ∧
        (info.endLocation.isSome = true → info' = info) :=
    fun x i info hi => ⟨info, getElem?_concat_of_some _ _ _ _ hi, rfl, rfl, fun _ => rfl⟩
  cases callback with
  | onBeginEntity location properties =>
    exact ⟨by simp [Collector.step, Collector.onBeginEntity], appended _⟩
  | onBeginBrush location =>
    exact ⟨by simp [Collector.step, Collector.onBeginBrush], appended _⟩
  | onPatch startLocation endLocation rowCount columnCount controlPoints materialName =>
    exact ⟨by simp [Collector.step, Collector.onPatch], appended _⟩
  | onEndEntity endLocation =>
    simp only [Collector.step, Collector.onEndEntity]
    cases htop : c.getCurrentEntityInfo with
    | none => exact ⟨le_refl _, same⟩
    | some index =>
      simp only
      cases hrec : c.m_objectInfos[index]? with
      | none => exact ⟨le_refl _, same⟩
      | some info =>
        cases info with
        | brush b => exact ⟨le_refl _, same⟩
        | patch p => exact ⟨le_refl _, same⟩
        | entity e =>
          simp only
          refine ⟨by simp, ?_⟩
          obtain ⟨e', he', hopen⟩ := h.stack_open index (c.top_mem index htop).1
          rw [hrec] at he'
          simp only [Option.some.injEq, ObjectInfo.entity.injEq] at he'
          subst he'
          exact set_records _ _ _ _ hrec rfl rfl hopen
  | onEndBrush endLocation =>
    simp only [Collector.step, Collector.onEndBrush]
    cases hopen : c.openBrush with
    | none => exact ⟨le_refl _, same⟩
    | some info =>
      simp only
      obtain ⟨hlast, hnone, _⟩ := c.openBrush_eq_some info hopen
      exact ⟨by simp, set_records _ _ _ _ hlast rfl rfl hnone⟩
  | onBrushFaceLine location face =>
    simp only [Collector.step, Collector.onBrushFaceLine]
    cases hopen : c.openBrush with
    | none => exact ⟨le_refl _, same⟩
    | some info =>
      simp only
      obtain ⟨hlast, hnone, _⟩ := c.openBrush_eq_some info hopen
      exact ⟨by simp, set_records _ _ _ _ hlast rfl rfl hnone⟩

theorem Collector.step_parentIndex (c : Collector Face Point)
    (callback : Callback Face Point) (i : Nat) (info : ObjectInfo Face Point)
    (hcloses : c.closes callback = some i)
    (hi : (c.step callback).m_objectInfos[i]? = some info) (hgeo : info.isEntity = false) :
    info.parentIndex = c.getCurrentEntityInfo := by
  cases callback with
  | onBeginEntity location properties => simp [Collector.closes] at hcloses
  | onBeginBrush location => simp [Collector.closes] at hcloses
  | onBrushFaceLine location face => simp [Collector.closes] at hcloses
  | onPatch startLocation endLocation rowCount columnCount controlPoints materialName =>
    simp only [Collector.closes, Option.some.injEq] at hcloses
    subst hcloses
    simp only [Collector.step, Collector.onPatch] at hi
    rw [List.getElem?_append_right (le_refl _)] at hi
    simp only [Nat.sub_self, List.getElem?_cons_zero, Option.some.injEq] at hi
    subst hi
    rfl
  | onEndBrush endLocation =>
    simp only [Collector.closes] at hcloses
    cases hopen : c.openBrush with
    | none => simp [hopen] at hcloses
    | some b =>
      simp only [hopen, Option.some.injEq] at hcloses
      subst hcloses
      obtain ⟨hlast, _, _⟩ := c.openBrush_eq_some b hopen
      simp only [Collector.step, Collector.onEndBrush, hopen] at hi
      rw [List.getElem?_set_self (List.getElem?_eq_some.mp hlast).1] at hi
      simp only [Option.some.injEq] at hi
      subst hi
      rfl
  | onEndEntity endLocation =>
    simp only [Collector.closes] at hcloses
    cases htop : c.getCurrentEntityInfo with
    | none => simp [htop] at hcloses
    | some index =>
      simp only [htop] at hcloses
      cases hrec : c.m_objectInfos[index]? with
      | none => simp [hrec] at hcloses
      | some old =>
        cases old with
        | brush b => simp [hrec] at hcloses
        | patch p => simp [hrec] at hcloses
        | entity e =>
          simp only [hrec, Option.some.injEq] at hcloses
          subst hcloses
          simp only [Collector.step, Collector.onEndEntity, htop, hrec] at hi
          rw [List.getElem?_set_self (List.getElem?_eq_some.mp hrec).1] at hi
          simp only [Option.some.injEq] at hi
          subst hi
          simp [ObjectInfo.isEntity] at hgeo

/-- C9. Collector parent-index invariant: after any sequence of parser callbacks and one
more callback, (1) the sequence of records has only been appended to: no record is
removed, every record keeps its index, its kind and its start location, and a record
that was closed is not changed at all; (2) every parent index that is present is smaller
than the index of its record and is the index of an `EntityInfo` record; (3) the brush or
patch record whose block the callback closes gets as its parent index the top of the
stack of current entities at that moment, and the parent index is absent exactly when the
stack is empty. -/
theorem parentIndex_invariant (callbacks : List (Callback Face Point))
    (callback : Callback Face Point) :
    ((Collector.initial.run callbacks).m_objectInfos.length ≤
        ((Collector.initial.run callbacks).step callback).m_objectInfos.length ∧
      ∀ (i : Nat) (info : ObjectInfo Face Point),
        (Collector.initial.run callbacks).m_objectInfos[i]? = some info →
        ∃ info', ((Collector.initial.run callbacks).step callback).m_objectInfos[i]? = some info' ∧
          info'.index = info.index ∧ info'.startLocation = info.startLocation ∧
          (info.endLocation.isSome = true → info' = info)) ∧
    (∀ (i : Nat) (info : ObjectInfo Face Point) (p : Nat),
      ((Collector.initial.run callbacks).step callback).m_objectInfos[i]? = some info →
      info.parentIndex = some p →
      p < i ∧ ∃ e : EntityInfo,
        ((Collector.initial.run callbacks).step callback).m_objectInfos[p]? = some (.entity e)) ∧
    (∀ (i : Nat) (info : ObjectInfo Face Point),
      (Collector.initial.run callbacks).closes callback = some i →
      ((Collector.initial.run callbacks).step callback).m_objectInfos[i]? = some info →
      info.isEntity = false →
      info.parentIndex = (Collector.initial.run callbacks).m_currentEntityInfo.getLast? ∧
      (info.parentIndex = none ↔ (Collector.initial.run callbacks).m_currentEntityInfo = [])) := by
  have hinv := Collector.run_invariant callbacks Collector.initial
    (@Collector.initial_invariant Face Point)
  refine ⟨Collector.step_records _ hinv callback,
    (Collector.step_invariant _ hinv callback).parent_earlier, ?_⟩
  intro i info hcloses hi hgeo
  have hparent := Collector.step_parentIndex _ callback i info hcloses hi hgeo
  refine ⟨hparent, ?_⟩
  rw [hparent, Collector.getCurrentEntityInfo, List.getLast?_eq_none_iff]

/-- Witness of C9: the closing brace of the first brush of the example map closes the
record 1 while the entity of record 0 is on top of the stack. -/
theorem parentIndex_invariant_witness :
    (Collector.initial.run (exampleMap.take 6)).closes (.onEndBrush (atLine 7)) = some 1 ∧
      ((Collector.initial.run (exampleMap.take 6)).step (.onEndBrush (atLine 7))).m_objectInfos[1]?
        = some (.brush exampleBrush) ∧
      ObjectInfo.parentIndex (.brush exampleBrush : ObjectInfo Nat Nat) =
        (Collector.initial.run (exampleMap.take 6)).m_currentEntityInfo.getLast? :=
  ⟨by decide, by decide,
    ((parentIndex_invariant (exampleMap.take 6) (.onEndBrush (atLine 7))).2.2 1
      (.brush exampleBrush) (by decide) (by decide) (by decide)).1⟩

/-! ### End locations -/

theorem set_endLocation (objectInfos : List (ObjectInfo Face Point)) (k : Nat)
    (old new : ObjectInfo Face Point) (hold : objectInfos[k]? = some old)
    (hopen : old.endLocation = none) (closes : Option Nat)
    (hcloses : closes = if new.endLocation.isSome then some k else none)
    (i : Nat) (info' : ObjectInfo Face Point)
    (hi : (objectInfos.set k new)[i]? = some info') :
    (info'.endLocation.isSome = true ↔
      (∃ info, objectInfos[i]? = some info ∧ info.endLocation.isSome = true) ∨
        closes = some i) := by
  by_cases hki : k = i
  · subst hki
    rw [List.getElem?_set_self (List.getElem?_eq_some.mp hold).1] at hi
    simp only [Option.some.injEq] at hi
    subst hi
    rw [hcloses]
    constructor
    · intro h
      right
      simp [h]
    · rintro (⟨info, h1, h2⟩ | h)
      · rw [hold] at h1
        simp only [Option.some.injEq] at h1
        subst h1
        rw [hopen] at h2
        cases h2
      · by_contra hne
        simp [hne] at h
  · rw [List.getElem?_set_ne hki] at hi
    constructor
    · intro h
      exact Or.inl ⟨info', hi, h⟩
    · rintro (⟨info, h1, h2⟩ | h)
      · rw [hi] at h1
        simp only [Option.some.injEq] at h1
        subst h1
        exact h2
      · rw [hcloses] at h
        split at h
        · simp only [Option.some.injEq] at h
          exact absurd h hki
        · cases h

theorem concat_endLocation (objectInfos : List (ObjectInfo Face Point))
    (new : ObjectInfo Face Point) (closes : Option Nat)
    (hcloses : closes = if new.endLocation.isSome then some objectInfos.length else none)
    (i : Nat) (info' : ObjectInfo Face Point)
    (hi : (objectInfos ++ [new])[i]? = some info') :
    (info'.endLocation.isSome = true ↔
      (∃ info, objectInfos[i]? = some info ∧ info.endLocation.isSome = true) ∨
        closes = some i) := by
  rcases getElem?_concat_eq_some _ _ _ _ hi with h | ⟨hidx, h⟩
  · constructor
    · intro hsome
      exact Or.inl ⟨info', h, hsome⟩
    · rintro (⟨info, h1, h2⟩ | hc)
      · rw [h] at h1
        simp only [Option.some.injEq] at h1
        subst h1
        exact h2
      · rw [hcloses] at hc
        have hlt := (List.getElem?_eq_some.mp h).1
        split at hc
        · simp only [Option.some.injEq] at hc
          omega
        · cases hc
  · subst h
    subst hidx
    rw [hcloses]
    constructor
    · intro hsome
      right
      simp [hsome]
    · rintro (⟨info, h1, _⟩ | hc)
      · rw [List.getElem?_eq_none (le_refl _)] at h1
        cases h1
      · by_contra hne
        simp [hne] at hc

theorem same_endLocation (objectInfos : List (ObjectInfo Face Point))
    (i : Nat) (info' : ObjectInfo Face Point) (hi : objectInfos[i]? = some info') :
    (info'.endLocation.isSome = true ↔
      (∃ info, objectInfos[i]? = some info ∧ info.endLocation.isSome = true) ∨
        (none : Option Nat) = some i) := by
  constructor
  · intro h
    exact Or.inl ⟨info', hi, h⟩
  · rintro (⟨info, h1, h2⟩ | h)
    · rw [hi] at h1
      simp only [Option.some.injEq] at h1
      subst h1
      exact h2
    · cases h

theorem Collector.step_endLocation (c : Collector Face Point) (h : c.Invariant)
    (callback : Callback Face Point) (i : Nat) (info' : ObjectInfo Face Point)
    (hi : (c.step callback).m_objectInfos[i]? = some info') :
    (info'.endLocation.isSome = true ↔
      (∃ info, c.m_objectInfos[i]? = some info ∧ info.endLocation.isSome = true) ∨
        c.closes callback = some i) := by
  cases callback with
  | onBeginEntity location properties =>
    exact concat_endLocation _ _ _ (by simp [Collector.closes, ObjectInfo.endLocation]) i info' hi
  | onBeginBrush location =>
    exact concat_endLocation _ _ _ (by simp [Collector.closes, ObjectInfo.endLocation]) i info' hi
  | onPatch startLocation endLocation rowCount columnCount controlPoints materialName =>
    exact concat_endLocation _ _ _ (by simp [Collector.closes, ObjectInfo.endLocation]) i info' hi
  | onEndEntity endLocation =>
    simp only [Collector.step, Collector.onEndEntity] at hi
    simp only [Collector.closes]
    cases htop : c.getCurrentEntityInfo with
    | none =>
      simp only [htop] at hi
      exact same_endLocation _ i info' hi
    | some index =>
      simp only [htop] at hi ⊢
      cases hrec : c.m_objectInfos[index]? with
      | none =>
        simp only [hrec] at hi
        exact same_endLocation _ i info' hi
      | some old =>
        cases old with
        | brush b =>
          simp only [hrec] at hi
          exact same_endLocation _ i info' hi
        | patch p =>
          simp only [hrec] at hi
          exact same_endLocation _ i info' hi
        | entity e =>
          simp only [hrec] at hi
          obtain ⟨e', he', hopen⟩ := h.stack_open index (c.top_mem index htop).1
          rw [hrec] at he'
          simp only [Option.some.injEq, ObjectInfo.entity.injEq] at he'
          subst he'
          exact set_endLocation _ _ _ _ hrec hopen _ (by simp [ObjectInfo.endLocation])
            i info' hi
  | onEndBrush endLocation =>
    simp only [Collector.step, Collector.onEndBrush] at hi
    simp only [Collector.closes]
    cases hopen : c.openBrush with
    | none =>
      simp only [hopen] at hi
      exact same_endLocation _ i info' hi
    | some b =>
      simp only [hopen] at hi ⊢
      obtain ⟨hlast, hnone, _⟩ := c.openBrush_eq_some b hopen
      exact set_endLocation _ _ _ _ hlast hnone _ (by simp [ObjectInfo.endLocation]) i info' hi
  | onBrushFaceLine location face =>
    simp only [Collector.step, Collector.onBrushFaceLine] at hi
    simp only [Collector.closes]
    cases hopen : c.openBrush with
    | none =>
      simp only [hopen] at hi
      exact same_endLocation _ i info' hi
    | some b =>
      simp only [hopen] at hi
      obtain ⟨hlast, hnone, _⟩ := c.openBrush_eq_some b hopen
      exact set_endLocation _ _ _ _ hlast hnone _
        (by simp [ObjectInfo.endLocation, hnone]) i info' hi

theorem Collector.run_endLocation (callbacks : List (Callback Face Point)) :
    ∀ (c : Collector Face Point), c.Invariant →
      ∀ (i : Nat) (info' : ObjectInfo Face Point),
        (c.run callbacks).m_objectInfos[i]? = some info' →
        (info'.endLocation.isSome = true ↔
          (∃ info, c.m_objectInfos[i]? = some info ∧ info.endLocation.isSome = true) ∨
            i ∈ c.closed callbacks) := by
  induction callbacks with
  | nil =>
    intro c _ i info' hi
    simp only [Collector.closed, List.not_mem_nil, or_false]
    exact ⟨fun h => ⟨info', hi, h⟩, fun ⟨info, h1, h2⟩ => by
      have : info = info' := Option.some.inj (h1.symm.trans hi)
      rw [← this]; exact h2⟩
  | cons callback callbacks ih =>
    intro c hc i info' hi
    have hrec := ih (c.step callback) (c.step_invariant hc callback) i info' hi
    rw [hrec]
    have hlen := (c.step_records hc callback).1
    constructor
    · rintro (⟨info, h1, h2⟩ | hmem)
      · rcases (c.step_endLocation hc callback i info h1).mp h2 with h | h
        · exact Or.inl h
        · right
          simp [Collector.closed, h]
      · right
        simp only [Collector.closed]
        cases c.closes callback with
        | none => exact hmem
        | some index => exact List.mem_cons_of_mem _ hmem
    · rintro (⟨info, h1, h2⟩ | hmem)
      · obtain ⟨info₂, h3, _, _, h4⟩ := (c.step_records hc callback).2 i info h1
        exact Or.inl ⟨info₂, h3, by rw [h4 h2]; exact h2⟩
      · simp only [Collector.closed] at hmem
        cases hcl : c.closes callback with
        | none =>
          rw [hcl] at hmem
          exact Or.inr hmem
        | some index =>
          rw [hcl] at hmem
          rcases List.mem_cons.mp hmem with h | h
          · subst h
            left
            have hsome : ∃ info₂, (c.step callback).m_objectInfos[i]? = some info₂ := by
              have hlt : i < (c.run (callback :: callbacks)).m_objectInfos.length :=
                (List.getElem?_eq_some.mp hi).1
              cases hget : (c.step callback).m_objectInfos[i]? with
              | some info₂ => exact ⟨info₂, rfl⟩
              | none =>
                exfalso
                cases callback with
                | onBeginEntity location properties => simp [Collector.closes] at hcl
                | onBeginBrush location => simp [Collector.closes] at hcl
                | onBrushFaceLine location face => simp [Collector.closes] at hcl
                | onPatch startLocation endLocation rowCount columnCount controlPoints
                    materialName =>
                  simp only [Collector.closes, Option.some.injEq] at hcl
                  subst hcl
                  simp [Collector.step, Collector.onPatch] at hget
                | onEndBrush endLocation =>
                  simp only [Collector.closes] at hcl
                  cases hopen : c.openBrush with
                  | none => simp [hopen] at hcl
                  | some b =>
                    simp only [hopen, Option.some.injEq] at hcl
                    have := (c.step_records hc (.onEndBrush endLocation)).1
                    obtain ⟨_, _, hpos⟩ := c.openBrush_eq_some b hopen
                    rw [List.getElem?_eq_none_iff] at hget
                    omega
                | onEndEntity endLocation =>
                  simp only [Collector.closes] at hcl
                  cases htop : c.getCurrentEntityInfo with
                  | none => simp [htop] at hcl
                  | some index =>
                    simp only [htop] at hcl
                    cases hrec' : c.m_objectInfos[index]? with
                    | none => simp [hrec'] at hcl
                    | some old =>
                      have hlt' := (List.getElem?_eq_some.mp hrec').1
                      have := (c.step_records hc (.onEndEntity endLocation)).1
                      rw [List.getElem?_eq_none_iff] at hget
                      cases old with
                      | brush b => simp [hrec'] at hcl
                      | patch p => simp [hrec'] at hcl
                      | entity e =>
                        simp only [hrec', Option.some.injEq] at hcl
                        omega
            obtain ⟨info₂, h2⟩ := hsome
            exact ⟨info₂, h2, (c.step_endLocation hc callback i info₂ h2).mpr (Or.inr hcl)⟩
          · exact Or.inr h

/-! ### The build of one record -/

theorem createNodeFromObjectInfo_unclosed [DecidableEq Plane] (ctx : BuildContext Face Plane)
    (index : Nat) (info : ObjectInfo Face Point) (h : info.endLocation = none) :
    (createNodeFromObjectInfo ctx index info).1 = none ∧
      { kind := ErrorKind.structuralError, location := info.startLocation } ∈
        (createNodeFromObjectInfo ctx index info).2 := by
  unfold createNodeFromObjectInfo
  cases createNodeOfKind ctx index info <;> simp [h, unclosedError]

theorem createNodeFromObjectInfo_closed [DecidableEq Plane] (ctx : BuildContext Face Plane)
    (index : Nat) (info : ObjectInfo Face Point) (nodeInfo : NodeInfo Face Point)
    (h : (createNodeFromObjectInfo ctx index info).1 = some nodeInfo) :
    info.endLocation.isSome = true ∧ createNodeOfKind ctx index info = .ok nodeInfo := by
  unfold createNodeFromObjectInfo at h
  cases hk : createNodeOfKind ctx index info with
  | error d => simp [hk] at h
  | ok built =>
    simp only [hk] at h
    split at h
    · cases h
    · simp only [Option.some.injEq] at h
      subst h
      refine ⟨?_, rfl⟩
      cases hend : info.endLocation with
      | none => simp_all
      | some l => rfl

theorem createNodeFromObjectInfo_ok [DecidableEq Plane] (ctx : BuildContext Face Plane)
    (index : Nat) (info : ObjectInfo Face Point) (nodeInfo : NodeInfo Face Point)
    (hclosed : info.endLocation.isSome = true)
    (h : createNodeOfKind ctx index info = .ok nodeInfo) :
    createNodeFromObjectInfo ctx index info = (some nodeInfo, []) := by
  unfold createNodeFromObjectInfo
  rw [h]
  cases hend : info.endLocation with
  | none => rw [hend] at hclosed; cases hclosed
  | some l => simp [unclosedError, hend]

theorem createNodeFromObjectInfo_error [DecidableEq Plane] (ctx : BuildContext Face Plane)
    (index : Nat) (info : ObjectInfo Face Point) (d : Diagnostic)
    (h : createNodeOfKind ctx index info = .error d) :
    createNodeFromObjectInfo ctx index info = (none, unclosedError info ++ [d]) := by
  unfold createNodeFromObjectInfo
  rw [h]

theorem buildSlot_of_getElem? [DecidableEq Plane] (ctx : BuildContext Face Plane)
    (objectInfos : List (ObjectInfo Face Point)) (index : Nat) (info : ObjectInfo Face Point)
    (h : objectInfos[index]? = some info) :
    buildSlot ctx objectInfos index = (createNodeFromObjectInfo ctx index info).1 ∧
      buildErrors ctx objectInfos index = (createNodeFromObjectInfo ctx index info).2 := by
  simp [buildSlot, buildErrors, h]

theorem createNodes_nodes_getElem? [DecidableEq Plane] (ctx : BuildContext Face Plane)
    (workers : Nat) (choices : List Nat) (c : Collector Face Point) (index : Nat)
    (info : ObjectInfo Face Point) (h : c.m_objectInfos[index]? = some info) :
    (createNodes ctx workers choices c).nodes[index]? =
      some (createNodeFromObjectInfo ctx index info).1 := by
  rw [createNodes_eq]
  simp only
  rw [sequentialSlots_getElem?, if_pos (List.getElem?_eq_some.mp h).1,
    (buildSlot_of_getElem? ctx _ index info h).1]

theorem createNodes_status_mem [DecidableEq Plane] (ctx : BuildContext Face Plane)
    (workers : Nat) (choices : List Nat) (c : Collector Face Point) (index : Nat)
    (info : ObjectInfo Face Point) (h : c.m_objectInfos[index]? = some info) (d : Diagnostic)
    (hd : d ∈ (createNodeFromObjectInfo ctx index info).2) :
    d ∈ (createNodes ctx workers choices c).status := by
  rw [createNodes_eq]
  simp only
  apply List.mem_append_left
  apply List.mem_append_right
  rw [List.mem_flatten]
  refine ⟨buildErrors ctx c.m_objectInfos index, ?_, ?_⟩
  · apply List.mem_map_of_mem
    exact (completionOrder_perm workers _ choices _ (by simp)).mem_iff.mpr
      (List.mem_range.mpr (List.getElem?_eq_some.mp h).1)
  · rw [(buildSlot_of_getElem? ctx _ index info h).2]
    exact hd

theorem createNodes_event_record [DecidableEq Plane] (ctx : BuildContext Face Plane)
    (workers : Nat) (choices : List Nat) (c : Collector Face Point) (e : Event Face Point)
    (he : e ∈ (createNodes ctx workers choices c).events) :
    ∃ index info nodeInfo, c.m_objectInfos[index]? = some info ∧
      (createNodeFromObjectInfo ctx index info).1 = some nodeInfo ∧
      e.handed = some (index, nodeInfo.node) ∧ e.record = some index := by
  rw [createNodes_eq] at he
  obtain ⟨index, nodeInfo, hb, hh, hr, _⟩ := resolve_event_record ctx c.m_objectInfos e he
  obtain ⟨info, ho, hc⟩ := buildSlot_eq_some ctx c.m_objectInfos index nodeInfo hb
  exact ⟨index, info, nodeInfo, ho, hc, hh, hr⟩

theorem createNodes_no_event [DecidableEq Plane] (ctx : BuildContext Face Plane)
    (workers : Nat) (choices : List Nat) (c : Collector Face Point) (index : Nat)
    (info : ObjectInfo Face Point) (h : c.m_objectInfos[index]? = some info)
    (hnone : (createNodeFromObjectInfo ctx index info).1 = none) :
    ∀ e ∈ (createNodes ctx workers choices c).events, e.record ≠ some index := by
  intro e he hr
  obtain ⟨index', info', nodeInfo, ho, hc, _, hr'⟩ :=
    createNodes_event_record ctx workers choices c e he
  rw [hr] at hr'
  simp only [Option.some.injEq] at hr'
  subst hr'
  rw [h] at ho
  simp only [Option.some.injEq] at ho
  subst ho
  rw [hnone] at hc
  cases hc

theorem createNodes_event_of_built [DecidableEq Plane] (ctx : BuildContext Face Plane)
    (workers : Nat) (choices : List Nat) (c : Collector Face Point) (index : Nat)
    (info : ObjectInfo Face Point) (nodeInfo : NodeInfo Face Point)
    (h : c.m_objectInfos[index]? = some info)
    (hbuilt : (createNodeFromObjectInfo ctx index info).1 = some nodeInfo) :
    ∃ e ∈ (createNodes ctx workers choices c).events,
      e.handed = some (index, nodeInfo.node) := by
  have hmem : (index, nodeInfo.node) ∈ documentOrder ctx c.m_objectInfos :=
    (documentOrder_mem ctx c.m_objectInfos index nodeInfo.node).mpr
      ⟨nodeInfo, by rw [(buildSlot_of_getElem? ctx _ index info h).1]; exact hbuilt, rfl⟩
  have hmap : some (index, nodeInfo.node) ∈
      (createNodes ctx workers choices c).events.map Event.handed := by
    rw [createNodes_eq]
    simp only
    rw [resolve_events_handed]
    exact List.mem_map_of_mem _ hmem
  obtain ⟨e, he, hh⟩ := List.mem_map.mp hmap
  exact ⟨e, he, hh⟩

/-- C8. End-location invariant: every record has a start location (the total function
`ObjectInfo.startLocation`), and after any sequence of parser callbacks the end location
of a record is present if and only if the closing brace of its block was seen, that is,
the record is among those that a callback closed; in the run of the reader a record
without end location, such as an entity block that misses its closing brace, is reported
as a structural error at its opening location, leaves its slot empty and is handed over
by no call; and every call hands over a node of a record that was closed. -/
theorem endLocation_invariant [DecidableEq Plane] (ctx : BuildContext Face Plane)
    (workers : Nat) (choices : List Nat) (callbacks : List (Callback Face Point)) :
    (∀ (i : Nat) (info : ObjectInfo Face Point),
      (Collector.initial.run callbacks).m_objectInfos[i]? = some info →
      (info.endLocation.isSome = true ↔ i ∈ Collector.initial.closed callbacks)) ∧
    (∀ (i : Nat) (info : ObjectInfo Face Point),
      (Collector.initial.run callbacks).m_objectInfos[i]? = some info →
      info.endLocation = none →
      { kind := ErrorKind.structuralError, location := info.startLocation } ∈
          (readEntities ctx workers choices callbacks).status ∧
        (readEntities ctx workers choices callbacks).nodes[i]? = some none ∧
        ∀ e ∈ (readEntities ctx workers choices callbacks).events, e.record ≠ some i) ∧
    (∀ e ∈ (readEntities ctx workers choices callbacks).events,
      ∃ (i : Nat) (info : ObjectInfo Face Point), e.record = some i ∧
        (Collector.initial.run callbacks).m_objectInfos[i]? = some info ∧
        info.endLocation.isSome = true) := by
  refine ⟨?_, ?_, ?_⟩
  · intro i info hi
    rw [Collector.run_endLocation callbacks Collector.initial Collector.initial_invariant i
      info hi]
    simp [Collector.initial]
  · intro i info hi hopen
    obtain ⟨h1, h2⟩ := createNodeFromObjectInfo_unclosed ctx i info hopen
    refine ⟨createNodes_status_mem ctx workers choices _ i info hi _ h2, ?_,
      createNodes_no_event ctx workers choices _ i info hi h1⟩
    unfold readEntities
    rw [createNodes_nodes_getElem? ctx workers choices _ i info hi, h1]
  · intro e he
    obtain ⟨index, info, nodeInfo, ho, hc, _, hr⟩ :=
      createNodes_event_record ctx workers choices _ e he
    exact ⟨index, info, hr, ho, (createNodeFromObjectInfo_closed ctx index info nodeInfo hc).1⟩

/-- Witness of C8: in the example map the closing braces of the records 1, 2, 3, 0, 5, 4
and 7 are seen, in this order; the entity of record 6 is not closed and is reported at
its opening location. -/
theorem endLocation_invariant_witness :
    Collector.initial.closed exampleMap = [1, 2, 3, 0, 5, 4, 7] ∧
      (Collector.initial.run exampleMap).m_objectInfos[6]? =
        some (.entity { properties := [{ key := ['c'], value := ['e'] }],
                        startLocation := atLine 21, endLocation := none }) ∧
      { kind := ErrorKind.structuralError, location := atLine 21 } ∈
        (readEntities exampleContext 2 [1] exampleMap).status :=
  ⟨by decide, by decide,
    ((endLocation_invariant exampleContext 2 [1] exampleMap).2.1 6
      (.entity { properties := [{ key := ['c'], value := ['e'] }],
                 startLocation := atLine 21, endLocation := none })
      (by decide) rfl).1⟩

/-! ### Patches and brushes -/

/-- C6. Patch validity: for every patch record of a document, a patch node is built if
and only if the product of the row and column counts equals the number of control points
and both counts are at least three; the node then holds the counts, the material and the
control points in the given order and is handed over by a call; otherwise the slot stays
empty, a construction error at the location of the patch is reported and no call hands
the record over. -/
theorem patch_validity [DecidableEq Plane] (ctx : BuildContext Face Plane) (workers : Nat)
    (choices : List Nat) (callbacks : List (Callback Face Point)) (i : Nat)
    (p : PatchInfo Point)
    (h : (Collector.initial.run callbacks).m_objectInfos[i]? = some (.patch p)) :
    ((∃ nodeInfo : NodeInfo Face Point,
        (readEntities ctx workers choices callbacks).nodes[i]? = some (some nodeInfo)) ↔
      (p.rowCount * p.columnCount = p.controlPoints.length ∧
        3 ≤ p.rowCount ∧ 3 ≤ p.columnCount)) ∧
    ((p.rowCount * p.columnCount = p.controlPoints.length ∧
        3 ≤ p.rowCount ∧ 3 ≤ p.columnCount) →
      (readEntities ctx workers choices callbacks).nodes[i]? =
        some (some { node := .patch p.rowCount p.columnCount p.controlPoints p.materialName,
                     parentInfo := p.parentIndex.map ParentInfo.record }) ∧
      ∃ e ∈ (readEntities ctx workers choices callbacks).events,
        e.handed = some (i, .patch p.rowCount p.columnCount p.controlPoints p.materialName)) ∧
    (¬ (p.rowCount * p.columnCount = p.controlPoints.length ∧
        3 ≤ p.rowCount ∧ 3 ≤ p.columnCount) →
      (readEntities ctx workers choices callbacks).nodes[i]? = some none ∧
      { kind := ErrorKind.constructionError, location := p.startLocation } ∈
        (readEntities ctx workers choices callbacks).status ∧
      ∀ e ∈ (readEntities ctx workers choices callbacks).events, e.record ≠ some i) := by
  have hclosed : (ObjectInfo.patch p : ObjectInfo Face Point).endLocation.isSome = true :=
    (Collector.run_invariant callbacks Collector.initial
      Collector.initial_invariant).patch_closed i p h
  have hnodes := createNodes_nodes_getElem? ctx workers choices _ i _ h
  have hvalid : (p.rowCount * p.columnCount = p.controlPoints.length ∧
      3 ≤ p.rowCount ∧ 3 ≤ p.columnCount) →
      createNodeFromObjectInfo ctx i (ObjectInfo.patch p : ObjectInfo Face Point) =
        (some { node := .patch p.rowCount p.columnCount p.controlPoints p.materialName,
                parentInfo := p.parentIndex.map ParentInfo.record }, []) := by
    intro hv
    apply createNodeFromObjectInfo_ok ctx i _ _ hclosed
    simp [createNodeOfKind, createPatchNode, hv]
  have hinvalid : ¬ (p.rowCount * p.columnCount = p.controlPoints.length ∧
      3 ≤ p.rowCount ∧ 3 ≤ p.columnCount) →
      createNodeFromObjectInfo ctx i (ObjectInfo.patch p : ObjectInfo Face Point) =
        (none, unclosedError (ObjectInfo.patch p : ObjectInfo Face Point) ++
          [{ kind := ErrorKind.constructionError, location := p.startLocation }]) := by
    intro hv
    apply createNodeFromObjectInfo_error ctx i
    simp only [createNodeOfKind, createPatchNode]
    rw [if_neg hv]
  unfold readEntities
  refine ⟨?_, ?_, ?_⟩
  · rw [hnodes]
    constructor
    · rintro ⟨nodeInfo, hn⟩
      by_contra hv
      rw [hinvalid hv] at hn
      simp at hn
    · intro hv
      rw [hvalid hv]
      exact ⟨_, rfl⟩
  · intro hv
    rw [hnodes, hvalid hv]
    refine ⟨rfl, ?_⟩
    exact createNodes_event_of_built ctx workers choices _ i _ _ h (by rw [hvalid hv])
  · intro hv
    rw [hnodes, hinvalid hv]
    refine ⟨rfl, ?_, ?_⟩
    · apply createNodes_status_mem ctx workers choices _ i _ h
      rw [hinvalid hv]
      simp
    · exact createNodes_no_event ctx workers choices _ i _ h (by rw [hinvalid hv])

/-- Witness of C6: in the example map the record 5 is a patch that declares three by three
control points and supplies eight; its slot is empty and a construction error is reported
at its location. -/
theorem patch_validity_witness :
    (Collector.initial.run exampleMap).m_objectInfos[5]? = some (.patch exampleShortPatch) ∧
      (readEntities exampleContext 2 [1, 0, 1] exampleMap).nodes[5]? = some none ∧
      { kind := ErrorKind.constructionError, location := atLine 18 } ∈
        (readEntities exampleContext 2 [1, 0, 1] exampleMap).status :=
  ⟨by decide,
    ((patch_validity exampleContext 2 [1, 0, 1] exampleMap 5 exampleShortPatch
      (by decide)).2.2 (by decide)).1,
    ((patch_validity exampleContext 2 [1, 0, 1] exampleMap 5 exampleShortPatch
      (by decide)).2.2 (by decide)).2.1⟩

theorem count_flatten_eq_one {α : Type} [DecidableEq α] (f : Nat → List α) (d : α) (i : Nat)
    (hone : (f i).count d = 1) :
    ∀ (l : List Nat), l.Nodup → i ∈ l → (∀ j ∈ l, j ≠ i → d ∉ f j) →
      ((l.map f).flatten).count d = 1 := by
  intro l
  induction l with
  | nil => intro _ hmem; simp at hmem
  | cons a t ih =>
    intro hnodup hmem hothers
    rw [List.map_cons, List.flatten_cons, List.count_append]
    rw [List.nodup_cons] at hnodup
    by_cases hai : a = i
    · subst hai
      have hzero : ((t.map f).flatten).count d = 0 := by
        rw [List.count_eq_zero]
        intro hd
        obtain ⟨ds, hds, hdd⟩ := List.mem_flatten.mp hd
        obtain ⟨j, hj, rfl⟩ := List.mem_map.mp hds
        exact hothers j (List.mem_cons_of_mem _ hj) (by rintro rfl; exact hnodup.1 hj) hdd
      rw [hone, hzero]
    · have hzero : (f a).count d = 0 :=
        List.count_eq_zero.mpr (hothers a (by simp) hai)
      have hmem' : i ∈ t := by
        rcases List.mem_cons.mp hmem with h | h
        · exact absurd h.symm hai
        · exact h
      rw [hzero, ih hnodup.2 hmem' (fun j hj => hothers j (List.mem_cons_of_mem _ hj))]

/-- C7. Degenerate brush rejection: for every document, a brush record with fewer than
four valid, pairwise different face planes leaves its slot empty and is handed over by no
call; its build reports exactly one construction error, at the location of the brush,
which is in the diagnostics of the run, exactly once when no other record reports the
same diagnostic; and every other record is built as if alone, and handed over by a call
when it built a node. -/
theorem degenerate_brush_rejected [DecidableEq Plane] (ctx : BuildContext Face Plane)
    (workers : Nat) (choices : List Nat) (callbacks : List (Callback Face Point)) (i : Nat)
    (b : BrushInfo Face)
    (h : (Collector.initial.run callbacks).m_objectInfos[i]? = some (.brush b))
    (hplanes : (validPlanes ctx b.faces).length < 4) :
    (readEntities ctx workers choices callbacks).nodes[i]? = some none ∧
    (∀ e ∈ (readEntities ctx workers choices callbacks).events, e.record ≠ some i) ∧
    (buildErrors ctx (Collector.initial.run callbacks).m_objectInfos i).count
      { kind := ErrorKind.constructionError, location := b.startLocation } = 1 ∧
    { kind := ErrorKind.constructionError, location := b.startLocation } ∈
      (readEntities ctx workers choices callbacks).status ∧
    ((∀ j, j ≠ i → { kind := ErrorKind.constructionError, location := b.startLocation } ∉
        buildErrors ctx (Collector.initial.run callbacks).m_objectInfos j) →
      (readEntities ctx workers choices callbacks).status.count
        { kind := ErrorKind.constructionError, location := b.startLocation } = 1) ∧
    (∀ (j : Nat) (info : ObjectInfo Face Point), j ≠ i →
      (Collector.initial.run callbacks).m_objectInfos[j]? = some info →
      (readEntities ctx workers choices callbacks).nodes[j]? =
        some (createNodeFromObjectInfo ctx j info).1 ∧
      ∀ nodeInfo, (createNodeFromObjectInfo ctx j info).1 = some nodeInfo →
        ∃ e ∈ (readEntities ctx workers choices callbacks).events,
          e.handed = some (j, nodeInfo.node)) := by
  have hinv := Collector.run_invariant callbacks Collector.initial
    (@Collector.initial_invariant Face Point)
  have herr : createNodeFromObjectInfo ctx i (ObjectInfo.brush b : ObjectInfo Face Point) =
      (none, unclosedError (ObjectInfo.brush b : ObjectInfo Face Point) ++
        [{ kind := ErrorKind.constructionError, location := b.startLocation }]) := by
    apply createNodeFromObjectInfo_error ctx i
    simp only [createNodeOfKind, createBrushNode]
    rw [if_pos hplanes]
  have hcount : (buildErrors ctx (Collector.initial.run callbacks).m_objectInfos i).count
      { kind := ErrorKind.constructionError, location := b.startLocation } = 1 := by
    rw [(buildSlot_of_getElem? ctx _ i _ h).2, herr]
    simp only [unclosedError]
    split <;> simp [List.count_cons, List.count_nil]
  unfold readEntities
  refine ⟨?_, ?_, hcount, ?_, ?_, ?_⟩
  · rw [createNodes_nodes_getElem? ctx workers choices _ i _ h, herr]
  · exact createNodes_no_event ctx workers choices _ i _ h (by rw [herr])
  · apply createNodes_status_mem ctx workers choices _ i _ h
    rw [herr]
    simp
  · intro hothers
    rw [createNodes_eq]
    simp only
    obtain ⟨notes, hnotes, hkind⟩ := foldl_resolveStep_status
      (Collector.initial.run callbacks).m_objectInfos
      (sequentialSlots ctx (Collector.initial.run callbacks).m_objectInfos)
      (List.range (Collector.initial.run callbacks).m_objectInfos.length)
      { layers := [], groups := [], events := [], status := [] }
    have hresolve : (resolve (Collector.initial.run callbacks).m_objectInfos
        (sequentialSlots ctx (Collector.initial.run callbacks).m_objectInfos)).status = notes := by
      unfold resolve
      rw [hnotes]
      rfl
    rw [hresolve, List.count_append, List.count_append]
    have h1 : (Collector.initial.run callbacks).status.count
        { kind := ErrorKind.constructionError, location := b.startLocation } = 0 := by
      rw [List.count_eq_zero]
      intro hd
      have := hinv.status_structural _ hd
      cases this
    have h2 : notes.count
        { kind := ErrorKind.constructionError, location := b.startLocation } = 0 := by
      rw [List.count_eq_zero]
      intro hd
      have := hkind _ hd
      cases this
    have hperm := completionOrder_perm workers
      (Collector.initial.run callbacks).m_objectInfos.length choices
      (List.range (Collector.initial.run callbacks).m_objectInfos.length) (by simp)
    rw [h1, h2, count_flatten_eq_one _ _ i hcount _
      (hperm.nodup_iff.mpr (List.nodup_range _))
      (hperm.mem_iff.mpr (List.mem_range.mpr (List.getElem?_eq_some.mp h).1))
      (fun j _ hj => hothers j hj)]
  · intro j info _ hj
    refine ⟨createNodes_nodes_getElem? ctx workers choices _ j info hj, ?_⟩
    intro nodeInfo hbuilt
    exact createNodes_event_of_built ctx workers choices _ j info nodeInfo hj hbuilt

/-- Witness of C7: in the example map the record 2 is a brush with the planes 1, 2, 3, 3,
of which three are different; its slot is empty, exactly one construction error is
reported at its location, and the patch after it is still handed over. -/
theorem degenerate_brush_rejected_witness :
    (Collector.initial.run exampleMap).m_objectInfos[2]? =
        some (.brush exampleDegenerateBrush) ∧
      (validPlanes exampleContext exampleDegenerateBrush.faces).length < 4 ∧
      (readEntities exampleContext 3 [2, 0] exampleMap).nodes[2]? = some none ∧
      (readEntities exampleContext 3 [2, 0] exampleMap).status.count
        { kind := ErrorKind.constructionError, location := atLine 8 } = 1 ∧
      (∃ e ∈ (readEntities exampleContext 3 [2, 0] exampleMap).events,
        e.handed = some (3, .patch 3 3 [1, 2, 3, 4, 5, 6, 7, 8, 9] ['m'])) :=
  ⟨by decide, by decide,
    (degenerate_brush_rejected exampleContext 3 [2, 0] exampleMap 2 exampleDegenerateBrush
      (by decide) (by decide)).1,
    by decide,
    ((degenerate_brush_rejected exampleContext 3 [2, 0] exampleMap 2 exampleDegenerateBrush
      (by decide) (by decide)).2.2.2.2.2 3 (.patch examplePatch) (by decide) (by decide)).2
      { node := .patch 3 3 [1, 2, 3, 4, 5, 6, 7, 8, 9] ['m'],
        parentInfo := some (.record 0) } (by decide)⟩

/-! ### The tree of the caller -/

theorem lookupId_append (table extra : List (Nat × Nat)) (id : Nat) :
    lookupId (table ++ extra) id = (lookupId table id).or (lookupId extra id) := by
  unfold lookupId
  rw [List.find?_append]
  cases List.find? (fun entry => decide (entry.1 = id)) table <;> simp

theorem lookupId_eq_none (table : List (Nat × Nat)) (id : Nat)
    (h : ∀ entry ∈ table, entry.1 ≠ id) : lookupId table id = none := by
  unfold lookupId
  rw [Option.map_eq_none', List.find?_eq_none]
  intro entry hentry
  simpa using h entry hentry

theorem Tree.Extends.refl (t : Tree Face Point) : Tree.Extends t t [] :=
  ⟨fun _ _ _ h => h, fun h => h, [], by simp, by simp⟩

theorem Tree.Extends.trans {t₁ t₂ t₃ : Tree Face Point} {r₁ r₂ : List Nat}
    (h₁ : Tree.Extends t₁ t₂ r₁) (h₂ : Tree.Extends t₂ t₃ r₂) :
    Tree.Extends t₁ t₃ (r₁ ++ r₂) := by
  refine ⟨fun k x hk h => h₂.nodes k x hk (h₁.nodes k x hk h), fun h => h₂.root (h₁.root h), ?_⟩
  obtain ⟨e₁, h1, h1'⟩ := h₁.placed
  obtain ⟨e₂, h2, h2'⟩ := h₂.placed
  refine ⟨e₁ ++ e₂, by rw [h2, h1, List.append_assoc], ?_⟩
  intro entry hentry
  rcases List.mem_append.mp hentry with h | h
  · exact List.mem_append_left _ (h1' entry h)
  · exact List.mem_append_right _ (h2' entry h)

theorem Tree.add_extends (t : Tree Face Point) (parent index : Nat) (node : Node Face Point) :
    Tree.Extends t (t.add parent index node) [index] := by
  refine ⟨?_, ?_, [(index, t.nodes.length)], rfl, by simp⟩
  · intro k x _ h
    exact getElem?_concat_of_some _ _ _ _ h
  · rintro ⟨properties, h⟩
    exact ⟨properties, getElem?_concat_of_some _ _ _ _ h⟩

theorem Tree.onEvent_extends (t : Tree Face Point) (e : Event Face Point) :
    Tree.Extends t (t.onEvent e) e.record.toList := by
  cases e with
  | onBrushFace face => exact Tree.Extends.refl t
  | onLayerNode index layerNode => exact t.add_extends _ index layerNode
  | onNode parentNode index node =>
    cases parentNode with
    | some parent => exact t.add_extends _ index node
    | none =>
      simp only [Tree.onEvent]
      split
      · exact t.add_extends _ index node
      · exact t.add_extends _ index node
  | onWorldNode index worldNode =>
    cases worldNode with
    | world properties =>
      refine ⟨?_, ?_, [(index, Tree.defaultLayerIndex)], rfl, by simp [Event.record]⟩
      · intro k x hk h
        simp only [Tree.onEvent, Tree.rootIndex]
        rw [List.getElem?_set_ne (by omega)]
        exact h
      · rintro ⟨old, h⟩
        refine ⟨properties, ?_⟩
        simp only [Tree.onEvent, Tree.rootIndex]
        rw [List.getElem?_set_self (List.getElem?_eq_some.mp h).1]
    | layer id properties => exact ⟨fun _ _ _ h => h, fun h => h, [], by simp [Tree.onEvent], by simp⟩
    | group id properties => exact ⟨fun _ _ _ h => h, fun h => h, [], by simp [Tree.onEvent], by simp⟩
    | entity properties => exact ⟨fun _ _ _ h => h, fun h => h, [], by simp [Tree.onEvent], by simp⟩
    | brush faces => exact ⟨fun _ _ _ h => h, fun h => h, [], by simp [Tree.onEvent], by simp⟩
    | patch rowCount columnCount controlPoints materialName =>
      exact ⟨fun _ _ _ h => h, fun h => h, [], by simp [Tree.onEvent], by simp⟩

theorem Tree.foldl_extends (events : List (Event Face Point)) :
    ∀ (t : Tree Face Point),
      Tree.Extends t (events.foldl Tree.onEvent t) (events.filterMap Event.record) := by
  induction events with
  | nil => intro t; exact Tree.Extends.refl t
  | cons e events ih =>
    intro t
    have h := (t.onEvent_extends e).trans (ih (t.onEvent e))
    have hrec : e.record.toList ++ events.filterMap Event.record =
        (e :: events).filterMap Event.record := by
      rw [List.filterMap_cons]
      cases e.record <;> rfl
    rw [hrec] at h
    exact h

/-- The place of a brush or patch that is handed over with a null parent, in the tree
that the caller builds from calls with pairwise different records. -/
theorem buildTree_orphan (events : List (Event Face Point)) (index : Nat)
    (node : Node Face Point) (hgeo : node.isGeometry = true)
    (hmem : Event.onNode none index node ∈ events)
    (hnodup : (events.filterMap Event.record).Nodup) :
    ∃ (a : Nat) (properties : List EntityProperty),
      lookupId (buildTree events).placed index = some a ∧
      (buildTree events).nodes[a]? =
        some { kind := .built node, parent := some Tree.defaultEntityIndex } ∧
      (buildTree events).nodes[Tree.defaultEntityIndex]? =
        some { kind := .defaultEntity, parent := some Tree.defaultLayerIndex } ∧
      (buildTree events).nodes[Tree.defaultLayerIndex]? =
        some { kind := .defaultLayer, parent := some Tree.rootIndex } ∧
      (buildTree events).nodes[Tree.rootIndex]? =
        some { kind := .root properties, parent := none } := by
  obtain ⟨before, after, hsplit⟩ := List.append_of_mem hmem
  subst hsplit
  have hrecords : (before ++ Event.onNode none index node :: after).filterMap Event.record =
      before.filterMap Event.record ++ index :: after.filterMap Event.record := by
    rw [List.filterMap_append, List.filterMap_cons]
    rfl
  rw [hrecords, List.nodup_append] at hnodup
  have hbefore : index ∉ before.filterMap Event.record := by
    intro hin
    exact hnodup.2.2 hin (by simp)
  unfold buildTree
  rw [List.foldl_append, List.foldl_cons]
  have h1 := Tree.foldl_extends before (Tree.initial : Tree Face Point)
  have hstep : Tree.onEvent (List.foldl Tree.onEvent Tree.initial before)
      (Event.onNode none index node) =
      (List.foldl Tree.onEvent Tree.initial before).add Tree.defaultEntityIndex index node := by
    simp [Tree.onEvent, hgeo]
  rw [hstep]
  have h2 := Tree.foldl_extends after
    ((List.foldl Tree.onEvent (Tree.initial : Tree Face Point) before).add
      Tree.defaultEntityIndex index node)
  have hadd := (List.foldl Tree.onEvent (Tree.initial : Tree Face Point) before).add_extends
    Tree.defaultEntityIndex index node
  obtain ⟨extra₁, hp1, hp1'⟩ := h1.placed
  obtain ⟨extra₂, hp2, _⟩ := h2.placed
  have hlen : 3 ≤ (List.foldl Tree.onEvent (Tree.initial : Tree Face Point) before).nodes.length := by
    have := h1.nodes 2 { kind := .defaultEntity, parent := some Tree.defaultLayerIndex }
      (by omega) (by simp [Tree.initial])
    have := (List.getElem?_eq_some.mp this).1
    omega
  obtain ⟨properties, hroot⟩ := h2.root (hadd.root (h1.root ⟨[], by simp [Tree.initial]⟩))
  refine ⟨(List.foldl Tree.onEvent (Tree.initial : Tree Face Point) before).nodes.length,
    properties, ?_, ?_, ?_, ?_, hroot⟩
  · rw [hp2]
    simp only [Tree.add]
    rw [lookupId_append, lookupId_append, lookupId_eq_none]
    · simp [lookupId]
    · intro entry hentry
      rw [hp1] at hentry
      simp only [Tree.initial, List.nil_append] at hentry
      intro heq
      exact hbefore (heq ▸ hp1' entry hentry)
  · apply h2.nodes _ _ (by omega)
    simp [Tree.add]
  · apply h2.nodes _ _ (by simp [Tree.defaultEntityIndex])
    apply hadd.nodes _ _ (by simp [Tree.defaultEntityIndex])
    exact h1.nodes _ _ (by simp [Tree.defaultEntityIndex]) (by simp [Tree.initial, Tree.defaultEntityIndex])
  · apply h2.nodes _ _ (by simp [Tree.defaultLayerIndex])
    apply hadd.nodes _ _ (by simp [Tree.defaultLayerIndex])
    exact h1.nodes _ _ (by simp [Tree.defaultLayerIndex]) (by simp [Tree.initial, Tree.defaultLayerIndex])

/-! ### Orphans -/

theorem createNodeOfKind_geometry [DecidableEq Plane] (ctx : BuildContext Face Plane)
    (index : Nat) (info : ObjectInfo Face Point) (nodeInfo : NodeInfo Face Point)
    (hgeo : info.isEntity = false) (h : createNodeOfKind ctx index info = .ok nodeInfo) :
    nodeInfo.node.isGeometry = true ∧
      nodeInfo.parentInfo = info.parentIndex.map ParentInfo.record := by
  cases info with
  | entity e => simp [ObjectInfo.isEntity] at hgeo
  | brush b =>
    simp only [createNodeOfKind, createBrushNode] at h
    split at h
    · cases h
    · split at h
      · simp only [Except.ok.injEq] at h
        subst h
        exact ⟨rfl, rfl⟩
      · cases h
  | patch p =>
    simp only [createNodeOfKind, createPatchNode] at h
    split at h
    · simp only [Except.ok.injEq] at h
      subst h
      exact ⟨rfl, rfl⟩
    · cases h

theorem createNodeOfKind_error_location [DecidableEq Plane] (ctx : BuildContext Face Plane)
    (index : Nat) (info : ObjectInfo Face Point) (d : Diagnostic)
    (h : createNodeOfKind ctx index info = .error d) :
    d = { kind := ErrorKind.constructionError, location := info.startLocation } := by
  cases info with
  | entity e => simp [createNodeOfKind] at h
  | brush b =>
    simp only [createNodeOfKind, createBrushNode] at h
    split at h
    · simp only [Except.error.injEq] at h
      exact h.symm
    · split at h
      · cases h
      · simp only [Except.error.injEq] at h
        exact h.symm
  | patch p =>
    simp only [createNodeOfKind, createPatchNode] at h
    split at h
    · cases h
    · simp only [Except.error.injEq] at h
      exact h.symm

theorem createNodeFromObjectInfo_none [DecidableEq Plane] (ctx : BuildContext Face Plane)
    (index : Nat) (info : ObjectInfo Face Point)
    (h : (createNodeFromObjectInfo ctx index info).1 = none) :
    ∃ d ∈ (createNodeFromObjectInfo ctx index info).2, d.location = info.startLocation ∧
      (d.kind = ErrorKind.constructionError ∨ d.kind = ErrorKind.structuralError) := by
  cases hk : createNodeOfKind ctx index info with
  | error d =>
    rw [createNodeFromObjectInfo_error ctx index info d hk]
    refine ⟨d, by simp, ?_⟩
    rw [createNodeOfKind_error_location ctx index info d hk]
    exact ⟨rfl, Or.inl rfl⟩
  | ok nodeInfo =>
    cases hend : info.endLocation with
    | none =>
      obtain ⟨_, hmem⟩ := createNodeFromObjectInfo_unclosed ctx index info hend
      exact ⟨_, hmem, rfl, Or.inr rfl⟩
    | some l =>
      rw [createNodeFromObjectInfo_ok ctx index info nodeInfo (by simp [hend]) hk] at h
      cases h

theorem resolveEvent_orphan (objectInfos : List (ObjectInfo Face Point))
    (slots : List (Option (NodeInfo Face Point))) (state : ResolverState Face Point)
    (index : Nat) (info : ObjectInfo Face Point) (nodeInfo : NodeInfo Face Point)
    (hs : slots[index]? = some (some nodeInfo)) (ho : objectInfos[index]? = some info)
    (hgeo : nodeInfo.node.isGeometry = true)
    (hparent : nodeInfo.parentInfo = none ∨
      ∃ p, nodeInfo.parentInfo = some (.record p) ∧ ∀ parent, slots[p]? ≠ some (some parent)) :
    resolveEvent objectInfos slots state index = some (.onNode none index nodeInfo.node) := by
  have hres : resolveParent slots state nodeInfo.parentInfo = none := by
    rcases hparent with h | ⟨p, h, hp⟩
    · rw [h]
      rfl
    · rw [h]
      cases hslot : slots[p]? with
      | none => simp [resolveParent, hslot]
      | some slot =>
        cases slot with
        | none => simp [resolveParent, hslot]
        | some parent => exact absurd hslot (hp parent)
  unfold resolveEvent
  simp only [hs, ho]
  cases hn : nodeInfo.node with
  | world properties => simp [hn, Node.isGeometry] at hgeo
  | layer id properties => simp [hn, Node.isGeometry] at hgeo
  | group id properties => simp [hn, Node.isGeometry] at hgeo
  | entity properties => simp [hn, Node.isGeometry] at hgeo
  | brush faces => simp [hres]
  | patch rowCount columnCount controlPoints materialName => simp [hres]

theorem Collector.run_faceLines (location : FileLocation) :
    ∀ (faceLines : List (FileLocation × Face)) (faces : List Face),
      Collector.run
        ({ m_objectInfos := [.brush { faces := faces, startLocation := location,
                                      endLocation := none, parentIndex := none }],
           m_currentEntityInfo := [], status := [] } : Collector Face Point)
        (faceLines.map (fun line => Callback.onBrushFaceLine line.1 line.2)) =
      { m_objectInfos := [.brush { faces := faces ++ faceLines.map Prod.snd,
                                   startLocation := location, endLocation := none,
                                   parentIndex := none }],
        m_currentEntityInfo := [], status := [] } := by
  intro faceLines
  induction faceLines with
  | nil => intro faces; simp [Collector.run]
  | cons line faceLines ih =>
    intro faces
    simp only [List.map_cons, Collector.run, List.foldl_cons]
    have hstep : Collector.step
        ({ m_objectInfos := [.brush { faces := faces, startLocation := location,
                                      endLocation := none, parentIndex := none }],
           m_currentEntityInfo := [], status := [] } : Collector Face Point)
        (Callback.onBrushFaceLine line.1 line.2) =
        { m_objectInfos := [.brush { faces := faces ++ [line.2], startLocation := location,
                                     endLocation := none, parentIndex := none }],
          m_currentEntityInfo := [], status := [] } := by
      simp [Collector.step, Collector.onBrushFaceLine, Collector.openBrush]
    rw [hstep]
    have := ih (faces ++ [line.2])
    simp only [Collector.run] at this
    rw [this]
    simp

theorem Collector.run_singleBrushDocument (location endLocation : FileLocation)
    (faceLines : List (FileLocation × Face)) :
    (Collector.initial.run (singleBrushDocument location endLocation faceLines) :
        Collector Face Point) =
      { m_objectInfos := [.brush { faces := faceLines.map Prod.snd, startLocation := location,
                                   endLocation := some endLocation, parentIndex := none }],
        m_currentEntityInfo := [], status := [] } := by
  unfold singleBrushDocument Collector.run
  rw [List.foldl_append, List.foldl_append]
  have h1 : List.foldl Collector.step (Collector.initial : Collector Face Point)
      [Callback.onBeginBrush location] =
      { m_objectInfos := [.brush { faces := [], startLocation := location,
                                   endLocation := none, parentIndex := none }],
        m_currentEntityInfo := [], status := [] } := by
    simp [Collector.step, Collector.onBeginBrush, Collector.initial]
  rw [h1]
  have h2 := @Collector.run_faceLines Face Point location faceLines []
  simp only [Collector.run, List.nil_append] at h2
  rw [h2]
  simp [Collector.step, Collector.onEndBrush, Collector.openBrush,
    Collector.getCurrentEntityInfo]

theorem createNodes_records_nodup [DecidableEq Plane] (ctx : BuildContext Face Plane)
    (workers : Nat) (choices : List Nat) (c : Collector Face Point) :
    ((createNodes ctx workers choices c).events.filterMap Event.record).Nodup := by
  rw [createNodes_eq]
  simp only
  rw [resolve_events_records]
  exact (List.nodup_range _).filter _

theorem createNodes_orphan_event [DecidableEq Plane] (ctx : BuildContext Face Plane)
    (workers : Nat) (choices : List Nat) (c : Collector Face Point) (i : Nat)
    (info : ObjectInfo Face Point) (nodeInfo : NodeInfo Face Point)
    (hi : c.m_objectInfos[i]? = some info) (hgeo : info.isEntity = false)
    (hparent : info.parentIndex = none ∨ ∃ p, info.parentIndex = some p ∧
      ∀ parent, (createNodes ctx workers choices c).nodes[p]? ≠ some (some parent))
    (hbuilt : (createNodes ctx workers choices c).nodes[i]? = some (some nodeInfo)) :
    nodeInfo.node.isGeometry = true ∧
      Event.onNode none i nodeInfo.node ∈ (createNodes ctx workers choices c).events := by
  rw [createNodes_nodes_getElem? ctx workers choices c i info hi] at hbuilt
  simp only [Option.some.injEq] at hbuilt
  obtain ⟨_, hkind⟩ := createNodeFromObjectInfo_closed ctx i info nodeInfo hbuilt
  obtain ⟨hnode, hpi⟩ := createNodeOfKind_geometry ctx i info nodeInfo hgeo hkind
  refine ⟨hnode, ?_⟩
  rw [createNodes_eq] at hparent ⊢
  simp only at hparent ⊢
  unfold resolve
  apply foldl_resolveStep_mem _ _ _ i _ _ _ (List.mem_range.mpr (List.getElem?_eq_some.mp hi).1)
  intro state
  apply resolveEvent_orphan _ _ state i info nodeInfo _ hi hnode
  · rcases hparent with h | ⟨p, h, hp⟩
    · left
      rw [hpi, h]
      rfl
    · right
      exact ⟨p, by rw [hpi, h]; rfl, hp⟩
  · rw [sequentialSlots_eq_some, (buildSlot_of_getElem? ctx _ i info hi).1]
    exact hbuilt

theorem Tree.ancestors_orphan (t : Tree Face Point) (a : Nat) (node : Node Face Point)
    (properties : List EntityProperty)
    (h₁ : t.nodes[a]? = some { kind := .built node, parent := some Tree.defaultEntityIndex })
    (h₂ : t.nodes[Tree.defaultEntityIndex]? =
      some { kind := .defaultEntity, parent := some Tree.defaultLayerIndex })
    (h₃ : t.nodes[Tree.defaultLayerIndex]? =
      some { kind := .defaultLayer, parent := some Tree.rootIndex })
    (h₄ : t.nodes[Tree.rootIndex]? = some { kind := .root properties, parent := none }) :
    t.ancestors 4 a = [.defaultEntity, .defaultLayer, .root properties] := by
  simp [Tree.ancestors, h₁, h₂, h₃, h₄]

/-- C4, as stated, fails for an orphan record whose construction fails: a document that
consists of exactly one brush block with three face lines and no enclosing entity has one
brush record without parent index, no node is handed to the caller, the tree is root,
default layer and default entity without a brush, and the one diagnostic is the
construction error of the brush; the same holds for an orphan patch that declares three
by three control points and supplies eight. -/
theorem orphan_attachment_counterexample :
    (Collector.initial.run exampleOrphanBrushDocument).m_objectInfos =
        [.brush { faces := [1, 2, 3], startLocation := atLine 1,
                  endLocation := some (atLine 5), parentIndex := none }] ∧
      (readEntities exampleContext 2 [1] exampleOrphanBrushDocument).events = [] ∧
      (parse exampleContext 2 [1] exampleOrphanBrushDocument).1.nodes =
        [{ kind := .root [], parent := none },
         { kind := .defaultLayer, parent := some Tree.rootIndex },
         { kind := .defaultEntity, parent := some Tree.defaultLayerIndex }] ∧
      (parse exampleContext 2 [1] exampleOrphanBrushDocument).2 =
        [{ kind := .constructionError, location := atLine 1 }] ∧
      (Collector.initial.run exampleOrphanPatchDocument).m_objectInfos.map
        ObjectInfo.parentIndex = [none] ∧
      (readEntities exampleContext 2 [1] exampleOrphanPatchDocument).events = [] ∧
      (parse exampleContext 2 [1] exampleOrphanPatchDocument).2 =
        [{ kind := .constructionError, location := atLine 1 }] :=
  ⟨by decide, by decide, by decide, by decide, by decide, by decide, by decide⟩

/-- C4, amended. Orphan attachment: in every run of the reader on a map, a brush or patch
record whose parent index is absent, or is the index of a record that built no node, is
never dropped without a report: either a node is built for it, or a construction or
structural error at its location is in the diagnostics. When a node is built, it is
handed to the caller by `onNode` with a null parent, and in the tree of the caller it
hangs under the synthetic default entity, which hangs under the default layer, which
hangs under the root. A document that consists of exactly one brush block with no
enclosing entity, whose faces give at least four valid different planes that bound a
solid, yields exactly the tree root, default layer, default entity, brush. -/
theorem orphan_attachment [DecidableEq Plane] (ctx : BuildContext Face Plane)
    (workers : Nat) (choices : List Nat) :
    (∀ (callbacks : List (Callback Face Point)) (i : Nat) (info : ObjectInfo Face Point),
      (Collector.initial.run callbacks).m_objectInfos[i]? = some info →
      info.isEntity = false →
      (info.parentIndex = none ∨ ∃ p, info.parentIndex = some p ∧
        ∀ parent, (readEntities ctx workers choices callbacks).nodes[p]? ≠ some (some parent)) →
      ((∃ nodeInfo,
          (readEntities ctx workers choices callbacks).nodes[i]? = some (some nodeInfo)) ∨
        (∃ d ∈ (readEntities ctx workers choices callbacks).status,
          d.location = info.startLocation ∧
          (d.kind = ErrorKind.constructionError ∨ d.kind = ErrorKind.structuralError))) ∧
      ∀ nodeInfo,
        (readEntities ctx workers choices callbacks).nodes[i]? = some (some nodeInfo) →
        Event.onNode none i nodeInfo.node ∈
          (readEntities ctx workers choices callbacks).events ∧
        ∃ (a : Nat) (properties : List EntityProperty),
          lookupId (parse ctx workers choices callbacks).1.placed i = some a ∧
          (parse ctx workers choices callbacks).1.nodes[a]? =
            some { kind := .built nodeInfo.node, parent := some Tree.defaultEntityIndex } ∧
          (parse ctx workers choices callbacks).1.ancestors 4 a =
            [.defaultEntity, .defaultLayer, .root properties]) ∧
    (∀ (location endLocation : FileLocation) (faceLines : List (FileLocation × Face)),
      4 ≤ (validPlanes ctx (faceLines.map Prod.snd)).length →
      ctx.intersectPlanes (validPlanes ctx (faceLines.map Prod.snd)) = true →
      (parse ctx workers choices
          (singleBrushDocument location endLocation faceLines :
            List (Callback Face Point))).1.nodes =
        [{ kind := .root [], parent := none },
         { kind := .defaultLayer, parent := some Tree.rootIndex },
         { kind := .defaultEntity, parent := some Tree.defaultLayerIndex },
         { kind := .built (.brush (faceLines.map Prod.snd)),
           parent := some Tree.defaultEntityIndex }]) := by
  refine ⟨?_, ?_⟩
  · intro callbacks i info hi hgeo hparent
    refine ⟨?_, ?_⟩
    · have hnodes := createNodes_nodes_getElem? ctx workers choices _ i info hi
      unfold readEntities
      rw [hnodes]
      cases hb : (createNodeFromObjectInfo ctx i info).1 with
      | some nodeInfo => exact Or.inl ⟨nodeInfo, rfl⟩
      | none =>
        right
        obtain ⟨d, hd, hloc, hkind⟩ := createNodeFromObjectInfo_none ctx i info hb
        exact ⟨d, createNodes_status_mem ctx workers choices _ i info hi d hd, hloc, hkind⟩
    · intro nodeInfo hbuilt
      obtain ⟨hnode, hevent⟩ := createNodes_orphan_event ctx workers choices _ i info nodeInfo
        hi hgeo hparent hbuilt
      refine ⟨hevent, ?_⟩
      obtain ⟨a, properties, h0, h1, h2, h3, h4⟩ := buildTree_orphan _ i nodeInfo.node hnode
        hevent (createNodes_records_nodup ctx workers choices _)
      exact ⟨a, properties, h0, h1, Tree.ancestors_orphan _ a _ properties h1 h2 h3 h4⟩
  · intro location endLocation faceLines hplanes hsolid
    have hkind : createNodeOfKind ctx 0
        (ObjectInfo.brush { faces := faceLines.map Prod.snd, startLocation := location,
                            endLocation := some endLocation, parentIndex := none } :
          ObjectInfo Face Point) =
        .ok { node := .brush (faceLines.map Prod.snd), parentInfo := none } := by
      simp only [createNodeOfKind, createBrushNode]
      rw [if_neg (by omega), if_pos hsolid]
      rfl
    have hbuild := createNodeFromObjectInfo_ok ctx 0 _ _ (by rfl) hkind
    simp only [parse, readEntities]
    rw [Collector.run_singleBrushDocument, createNodes_eq]
    have hslots : sequentialSlots ctx
        [(ObjectInfo.brush { faces := faceLines.map Prod.snd, startLocation := location,
                             endLocation := some endLocation, parentIndex := none } :
          ObjectInfo Face Point)] =
        [some { node := .brush (faceLines.map Prod.snd), parentInfo := none }] := by
      simp [sequentialSlots, List.range_succ, buildSlot, hbuild]
    simp only [hslots]
    simp [resolve, List.range_succ, resolveStep, ResolverState.attach, resolveParent,
      buildTree, Tree.onEvent, Node.isGeometry, Tree.add, Tree.initial]

/-- Witness of C4: in the example map the record 7 is a patch inside an entity block that
is not closed, so its parent, the record 6, built no node; the patch is handed over with
a null parent and hangs under the default entity. -/
theorem orphan_attachment_witness :
    (Collector.initial.run exampleMap).m_objectInfos[7]? = some (.patch exampleOrphanPatch) ∧
      (readEntities exampleContext 2 [1] exampleMap).nodes[6]? = some none ∧
      Event.onNode none 7 (.patch 3 3 [1, 2, 3, 4, 5, 6, 7, 8, 9] ['m']) ∈
        (readEntities exampleContext 2 [1] exampleMap).events ∧
      (parse exampleContext 2 [1] exampleMap).1.ancestors 4 6 =
        [.defaultEntity, .defaultLayer, .root [{ key := ['c'], value := ['w'] }]] :=
  ⟨by decide, by decide,
    (((orphan_attachment exampleContext 2 [1]).1 exampleMap 7 (.patch exampleOrphanPatch)
      (by decide) (by decide)
      (Or.inr ⟨6, by decide, fun parent h =>
        Option.noConfusion (Option.some.inj
          ((by decide : (readEntities exampleContext 2 [1] exampleMap).nodes[6]? =
            some none).symm.trans h))⟩)).2
      { node := .patch 3 3 [1, 2, 3, 4, 5, 6, 7, 8, 9] ['m'],
        parentInfo := some (.record 6) } (by decide)).1,
    by decide⟩

end MapReader

namespace Model

/-! ### Number of pieces and the first gap -/

theorem filter_numbered_removeNumberedProperty (e : Entity) (baseName : Str) :
    (e.removeNumberedProperty baseName).filter (fun p => isNumberedProperty baseName p.key) = [] := by
  rw [List.filter_eq_nil_iff]
  intro p hp
  have := (List.mem_filter.mp hp).2
  simpa using this

theorem filter_numbered_chunkProperties (baseName value : Str) (maxLength i count : Nat) :
    (chunkProperties baseName value maxLength i count).filter
      (fun p => isNumberedProperty baseName p.key) =
      chunkProperties baseName value maxLength i count := by
  rw [List.filter_eq_self]
  intro p hp
  obtain ⟨j, _, rfl⟩ := List.mem_map.mp hp
  exact isNumberedProperty_numberedName baseName (Nat.succ_pos j)

theorem chunkProperties_getElem? (baseName value : Str) (maxLength count i : Nat)
    (h : i < count) :
    (chunkProperties baseName value maxLength 0 count)[i]? =
      some { key := numberedName baseName (i + 1), value := chunk value maxLength i } := by
  simp [chunkProperties, List.getElem?_range', h]

/-- C15. Chunk boundary behaviour: for every value and `maxLength >= 1` the numbered
properties of the base name in the node that `writeLongAttribute` leaves are exactly
`floor(|value| / maxLength) + 1`, named `baseName1 .. baseNameN` in this order, the
`i`-th holding the piece `value.substr(i * maxLength, maxLength)`; the other properties
of the node are untouched. An empty value yields the single property `baseName1` with the
empty value, and when the length of the value is a multiple of `maxLength` the last
property, `baseNameN`, holds the empty value. -/
theorem writeLongAttribute_count (node : EntityNodeBase) (baseName value : Str)
    (maxLength : Nat) (h : 1 ≤ maxLength) :
    ∃ written, writeLongAttribute node baseName value maxLength = some written ∧
      (written.entity.filter (fun p => isNumberedProperty baseName p.key)).length =
        value.length / maxLength + 1 ∧
      (∀ i, i < value.length / maxLength + 1 →
        (written.entity.filter (fun p => isNumberedProperty baseName p.key))[i]? =
          some { key := numberedName baseName (i + 1),
                 value := (value.drop (i * maxLength)).take maxLength }) ∧
      written.entity.filter (fun p => !isNumberedProperty baseName p.key) =
        node.entity.filter (fun p => !isNumberedProperty baseName p.key) ∧
      (value = [] →
        written.entity.filter (fun p => isNumberedProperty baseName p.key) =
          [{ key := numberedName baseName 1, value := [] }]) ∧
      (maxLength ∣ value.length →
        written.entity.property (numberedName baseName (value.length / maxLength + 1)) =
          some []) := by
  refine ⟨_, writeLongAttribute_eq node baseName value maxLength h, ?_⟩
  have hfilter : List.filter (fun p => isNumberedProperty baseName p.key)
      (node.entity.removeNumberedProperty baseName ++
        chunkProperties baseName value maxLength 0 (value.length / maxLength + 1)) =
      chunkProperties baseName value maxLength 0 (value.length / maxLength + 1) := by
    rw [List.filter_append, filter_numbered_removeNumberedProperty,
      filter_numbered_chunkProperties, List.nil_append]
  simp only [hfilter]
  refine ⟨by simp [chunkProperties], ?_, ?_, ?_, ?_⟩
  · intro i hi
    rw [chunkProperties_getElem? baseName value maxLength _ i hi]
    rfl
  · rw [List.filter_append]
    have h1 : List.filter (fun p => !isNumberedProperty baseName p.key)
        (chunkProperties baseName value maxLength 0 (value.length / maxLength + 1)) = [] := by
      rw [List.filter_eq_nil_iff]
      intro p hp
      obtain ⟨j, _, rfl⟩ := List.mem_map.mp hp
      simp [isNumberedProperty_numberedName baseName (Nat.succ_pos j)]
    rw [h1, List.append_nil]
    unfold Entity.removeNumberedProperty
    rw [List.filter_filter]
    simp
  · intro hv
    subst hv
    simp [chunkProperties, chunk]
  · intro hdvd
    rw [property_append_of_not_has _ _ _
      (hasProperty_removeNumberedProperty _ _ (Nat.succ_pos _))]
    rw [property_chunkProperties baseName value maxLength _ 0 (value.length / maxLength)
      (Nat.zero_le _) (by omega)]
    simp [chunk, Nat.div_mul_cancel hdvd]

/-- Witness of C15: a value of length 4 with `maxLength = 2` gives three properties, the
last one empty. -/
theorem writeLongAttribute_count_witness :
    1 ≤ 2 ∧ ∃ written,
      writeLongAttribute ⟨[⟨['k'], ['v']⟩]⟩ ['m'] ['a', 'b', 'c', 'd'] 2 = some written ∧
      (written.entity.filter (fun p => isNumberedProperty ['m'] p.key)).length = 3 ∧
      written.entity.property ['m', '3'] = some [] :=
  ⟨by decide,
    (writeLongAttribute_count ⟨[⟨['k'], ['v']⟩]⟩ ['m'] ['a', 'b', 'c', 'd'] 2
      (by decide)).imp (fun _ hw => ⟨hw.1, hw.2.1, hw.2.2.2.2.2 (by decide)⟩)⟩

theorem readLongAttributeLoop_gap (entity : Entity) (baseName : Str) :
    ∀ (fuel index : Nat) (acc result : Str),
      readLongAttributeLoop entity baseName fuel index acc = some result →
      ∃ k, (∀ j, j < k → entity.hasProperty (numberedName baseName (index + j)) = true) ∧
        entity.hasProperty (numberedName baseName (index + k)) = false ∧
        result = acc ++ ((List.range k).map
          (fun j => (entity.property (numberedName baseName (index + j))).getD [])).flatten := by
  intro fuel
  induction fuel with
  | zero => intro index acc result h; simp [readLongAttributeLoop] at h
  | succ fuel ih =>
    intro index acc result h
    rw [readLongAttributeLoop] at h
    by_cases hhas : entity.hasProperty (numberedName baseName index) = true
    · rw [if_pos hhas] at h
      obtain ⟨k, h1, h2, h3⟩ := ih (index + 1) _ result h
      refine ⟨k + 1, ?_, ?_, ?_⟩
      · intro j hj
        cases j with
        | zero => simpa using hhas
        | succ j =>
          have := h1 j (by omega)
          rw [show index + (j + 1) = index + 1 + j by omega]
          exact this
      · rw [show index + (k + 1) = index + 1 + k by omega]
        exact h2
      · rw [h3, List.range_succ_eq_map, List.map_cons, List.flatten_cons, List.map_map]
        have hacc : (match entity.property (numberedName baseName index) with
            | some value => acc ++ value
            | none => acc) =
            acc ++ (entity.property (numberedName baseName index)).getD [] := by
          cases entity.property (numberedName baseName index) <;> simp
        rw [hacc, List.append_assoc]
        congr 2
        congr 1
        apply List.map_congr_left
        intro j _
        simp only [Function.comp, Nat.add_zero]
        rw [show index + Nat.succ j = index + 1 + j by omega]
    · rw [if_neg hhas] at h
      simp only [Option.some.injEq] at h
      refine ⟨0, by intro j hj; omega, by simpa using hhas, by simp [h]⟩

/-- C16. `readLongAttribute` stops at the first gap: for every entity node and base name
there is a number `k` such that `baseName1 .. baseNamek` are all present and
`baseName(k+1)` is absent, and `readLongAttribute` returns the concatenation of the values
of `baseName1 .. baseNamek` in this order; nothing else contributes, and the result is
the empty string when `baseName1` is absent. -/
theorem readLongAttribute_first_gap (node : EntityNodeBase) (baseName : Str) :
    (∃ k, (∀ j, j < k → node.entity.hasProperty (numberedName baseName (j + 1)) = true) ∧
      node.entity.hasProperty (numberedName baseName (k + 1)) = false ∧
      readLongAttribute node baseName = some (((List.range k).map
        (fun j => (node.entity.property (numberedName baseName (j + 1))).getD [])).flatten)) ∧
    (node.entity.hasProperty (numberedName baseName 1) = false →
      readLongAttribute node baseName = some []) := by
  have hsome := readLongAttribute_isSome node baseName
  obtain ⟨result, hres⟩ := Option.isSome_iff_exists.mp hsome
  obtain ⟨k, h1, h2, h3⟩ := readLongAttributeLoop_gap node.entity baseName _ 1 [] result hres
  have hform : readLongAttribute node baseName = some (((List.range k).map
      (fun j => (node.entity.property (numberedName baseName (j + 1))).getD [])).flatten) := by
    rw [hres, h3, List.nil_append]
    congr 3
    funext j
    rw [Nat.add_comm 1 j]
  refine ⟨⟨k, ?_, ?_, hform⟩, ?_⟩
  · intro j hj
    rw [Nat.add_comm j 1]
    exact h1 j hj
  · rw [Nat.add_comm k 1]
    exact h2
  · intro habsent
    cases k with
    | zero => simpa using hform
    | succ k =>
      have := h1 0 (by omega)
      rw [Nat.add_zero, habsent] at this
      cases this

/-- Witness of C16: with `wad1`, `wad2` and `wad4` present and `wad3` missing the result
is the values of `wad1` and `wad2`; with `wad1` missing it is empty. -/
theorem readLongAttribute_first_gap_witness :
    readLongAttribute
        ⟨[⟨['w', 'a', 'd', '2'], ['b']⟩, ⟨['w', 'a', 'd', '4'], ['d']⟩,
          ⟨['w', 'a', 'd', '1'], ['a']⟩]⟩ ['w', 'a', 'd'] = some ['a', 'b'] ∧
      readLongAttribute ⟨[⟨['w', 'a', 'd', '2'], ['b']⟩]⟩ ['w', 'a', 'd'] = some [] :=
  ⟨by decide,
    (readLongAttribute_first_gap ⟨[⟨['w', 'a', 'd', '2'], ['b']⟩]⟩ ['w', 'a', 'd']).2
      (by decide)⟩

end Model

namespace Model

/-! ### Saving and exporting -/

variable {World MapFormat ObjOptions Path : Type}

/-- C11. Export mode is never used for an ordinary save: whenever
`doWriteMap(world, path)` returns without error, the writer has run exactly once, on the
map file serializer, with `exporting = false`, and the file holds what the writer emits
in that mode; whenever `doExportMap` returns without error, for an OBJ export as for a
map export, the writer has run exactly once with `exporting = true`. -/
theorem doWriteMap_not_exporting (game : GameImpl World MapFormat ObjOptions Path)
    (world : World) :
    (∀ (path : Path) (log : WriteLog MapFormat ObjOptions Path),
      game.doWriteMap world path = .ok log →
      log.runs = [{ serializer := .mapFile (game.mapFormat world), exporting := false }] ∧
      log.files = [(path, mapHeader game world ++
        (game.emit world (.mapFile (game.mapFormat world)) false).1)]) ∧
    (∀ (options : ExportOptions ObjOptions Path) (log : WriteLog MapFormat ObjOptions Path),
      game.doExportMap world options = .ok log →
      ∃ serializer, log.runs = [{ serializer := serializer, exporting := true }] ∧
        ∀ file ∈ log.files, file.2 = (game.emit world serializer true).1 ∨
          file.2 = (game.emit world serializer true).2 ∨
          file.2 = mapHeader game world ++ (game.emit world serializer true).1) := by
  refine ⟨?_, ?_⟩
  · intro path log h
    simp only [GameImpl.doWriteMap, GameImpl.doWriteMapExporting] at h
    split at h
    · simp only [Except.ok.injEq] at h
      subst h
      exact ⟨rfl, rfl⟩
    · cases h
  · intro options log h
    cases options with
    | objExport exportPath objOptions =>
      simp only [GameImpl.doExportMap] at h
      split at h
      · split at h
        · simp only [Except.ok.injEq] at h
          subst h
          refine ⟨_, rfl, ?_⟩
          intro file hfile
          simp only [List.mem_cons, List.mem_singleton, List.not_mem_nil, or_false] at hfile
          rcases hfile with hf | hf
          · subst hf; exact Or.inl rfl
          · subst hf; exact Or.inr (Or.inl rfl)
        · cases h
      · cases h
    | mapExport exportPath =>
      simp only [GameImpl.doExportMap, GameImpl.doWriteMapExporting] at h
      split at h
      · simp only [Except.ok.injEq] at h
        subst h
        refine ⟨_, rfl, ?_⟩
        intro file hfile
        simp only [List.mem_singleton] at hfile
        subst hfile
        exact Or.inr (Or.inr rfl)
      · cases h

/-- Witness of C11: a save, a map export and an OBJ export of the example game. -/
theorem doWriteMap_not_exporting_witness :
    (exampleGame.doWriteMap 1 ['a']).toOption.map (fun log => log.runs) =
        some [{ serializer := .mapFile 1, exporting := false }] ∧
      (exampleGame.doExportMap 1 (.mapExport ['a'])).toOption.map (fun log => log.runs) =
        some [{ serializer := .mapFile 1, exporting := true }] ∧
      (exampleGame.doExportMap 1 (.objExport ['a'] 5)).toOption.map (fun log => log.runs) =
        some [{ serializer := .obj ['a', '.', 'm', 't', 'l'] 5, exporting := true }] ∧
      ((exampleGame.doWriteMap 1 ['a']).toOption.map (fun log => log.runs)).isSome = true ∧
      ∀ log, exampleGame.doWriteMap 1 ['a'] = .ok log →
        log.runs = [{ serializer := .mapFile 1, exporting := false }] :=
  ⟨by decide, by decide, by decide, by decide,
    fun log h => ((doWriteMap_not_exporting exampleGame 1).1 ['a'] log h).1⟩

/-- C12. Document header: for every world and path, whenever
`doWriteMap(world, path, exporting)` returns without error the one file it wrote is the
file at the path and its text is `// Game: <game name>`, a newline,
`// Format: <formatName(world.mapFormat())>`, a newline, and after them what the writer
emits; the same holds for `doWriteMap(world, path)`. -/
theorem doWriteMap_header (game : GameImpl World MapFormat ObjOptions Path) (world : World)
    (path : Path) :
    (∀ (exporting : Bool) (log : WriteLog MapFormat ObjOptions Path),
      game.doWriteMapExporting world path exporting = .ok log →
      log.files = [(path,
        "// Game: ".toList ++ game.gameName ++ ['\n'] ++
        ("// Format: ".toList ++ game.formatName (game.mapFormat world) ++ ['\n']) ++
        (game.emit world (.mapFile (game.mapFormat world)) exporting).1)]) ∧
    (∀ (log : WriteLog MapFormat ObjOptions Path),
      game.doWriteMap world path = .ok log →
      log.files = [(path,
        "// Game: ".toList ++ game.gameName ++ ['\n'] ++
        ("// Format: ".toList ++ game.formatName (game.mapFormat world) ++ ['\n']) ++
        (game.emit world (.mapFile (game.mapFormat world)) false).1)]) := by
  have key : ∀ (exporting : Bool) (log : WriteLog MapFormat ObjOptions Path),
      game.doWriteMapExporting world path exporting = .ok log →
      log.files = [(path,
        "// Game: ".toList ++ game.gameName ++ ['\n'] ++
        ("// Format: ".toList ++ game.formatName (game.mapFormat world) ++ ['\n']) ++
        (game.emit world (.mapFile (game.mapFormat world)) exporting).1)] := by
    intro exporting log h
    simp only [GameImpl.doWriteMapExporting] at h
    split at h
    · simp only [Except.ok.injEq] at h
      subst h
      rfl
    · cases h
  exact ⟨key, fun log h => key false log h⟩

/-- Witness of C12: the file that a save of the example game writes. -/
theorem doWriteMap_header_witness :
    (exampleGame.doWriteMap 0 ['a']).toOption.map (fun log => log.files) =
        some [(['a'], "// Game: Nightfire\n// Format: Standard\ns".toList)] ∧
      ∀ log, exampleGame.doWriteMap 0 ['a'] = .ok log →
        log.files = [(['a'],
          "// Game: ".toList ++ exampleGame.gameName ++ ['\n'] ++
          ("// Format: ".toList ++ exampleGame.formatName (exampleGame.mapFormat 0) ++ ['\n'])
          ++ (exampleGame.emit 0 (.mapFile (exampleGame.mapFormat 0)) false).1)] :=
  ⟨by decide, (doWriteMap_header exampleGame 0 ['a']).2⟩

end Model

/-! ### Readers -/

namespace Reader

theorem getElem?_bytesAt (data : List Byte) (offset count k : Nat) :
    (bytesAt data offset count)[k]? = if k < count then data[offset + k]? else none := by
  simp only [bytesAt, List.getElem?_take, List.getElem?_drop]

theorem length_bytesAt (data : List Byte) (offset count : Nat)
    (h : offset + count ≤ data.length) : (bytesAt data offset count).length = count := by
  simp only [bytesAt, List.length_take, List.length_drop]
  omega

theorem bytesAt_bytesAt (data : List Byte) (offset count k m : Nat) (h : k + m ≤ count) :
    bytesAt (bytesAt data offset count) k m = bytesAt data (offset + k) m := by
  apply List.ext_getElem?
  intro i
  simp only [getElem?_bytesAt]
  by_cases hi : i < m
  · have : k + i < count := by omega
    simp only [hi, this, if_true, Nat.add_assoc]
  · simp only [hi, if_false]

theorem bytesAt_congr (first second : List Byte) (offset count : Nat)
    (h : ∀ i, offset ≤ i → i < offset + count → first[i]? = second[i]?) :
    bytesAt first offset count = bytesAt second offset count := by
  apply List.ext_getElem?
  intro i
  simp only [getElem?_bytesAt]
  by_cases hi : i < count
  · simp only [hi, if_true]
    exact h _ (by omega) (by omega)
  · simp only [hi, if_false]

theorem bytesAt_add (data : List Byte) (offset first second : Nat) :
    bytesAt data offset (first + second) =
      bytesAt data offset first ++ bytesAt data (offset + first) second := by
  simp only [bytesAt, List.take_add, List.drop_drop, Nat.add_comm]

theorem read_eq (reader : Reader) (count : Nat)
    (h : reader.position + count ≤ reader.data.length) :
    reader.read count = .ok (bytesAt reader.data reader.position count,
      { reader with position := reader.position + count }) := by
  simp only [read, size, h, if_true]

theorem seekFromBegin_eq (reader : Reader) (offset : Nat) (h : offset ≤ reader.data.length) :
    reader.seekFromBegin offset = .ok { reader with position := offset } := by
  simp only [seekFromBegin, size, h, if_true]

theorem seekForward_eq (reader : Reader) (offset : Nat)
    (h : reader.position + offset ≤ reader.data.length) :
    reader.seekForward offset = .ok { reader with position := reader.position + offset } := by
  simp only [seekForward, size, h, if_true]

theorem readInt32_eq (reader : Reader) (h : reader.position + 4 ≤ reader.data.length) :
    reader.readInt32 = .ok (int32At reader.data reader.position,
      { reader with position := reader.position + 4 }) := by
  simp only [readInt32, read_eq reader 4 h, int32At]
  rfl

theorem readSize32_eq (reader : Reader) (h : reader.position + 4 ≤ reader.data.length) :
    reader.readSize32 = .ok (uint32At reader.data reader.position,
      { reader with position := reader.position + 4 }) := by
  simp only [readSize32, read_eq reader 4 h, uint32At]
  rfl

end Reader

/-! ### Nightfire model detection -/

theorem MdlLayout.readNfMdlHeader_eq (reader : Reader)
    (h : reader.position + 20 ≤ reader.data.length) :
    MdlLayout.readNfMdlHeader reader = .ok
      ({ id := Reader.uint32At reader.data reader.position
         version := Reader.uint32At reader.data (reader.position + 4)
         gaitBonesIndex := Reader.int32At reader.data (reader.position + 8)
         gaitBonesCount := Reader.int32At reader.data (reader.position + 12)
         textureDimsIndex := Reader.int32At reader.data (reader.position + 16) },
        { reader with position := reader.position + 20 }) := by
  simp only [MdlLayout.readNfMdlHeader, Reader.read_eq reader 20 h, Reader.uint32At,
    Reader.int32At, bind, Except.bind]
  rw [Reader.bytesAt_bytesAt _ _ 20 0 4 (by omega), Reader.bytesAt_bytesAt _ _ 20 4 4 (by omega),
    Reader.bytesAt_bytesAt _ _ 20 8 4 (by omega), Reader.bytesAt_bytesAt _ _ 20 12 4 (by omega),
    Reader.bytesAt_bytesAt _ _ 20 16 4 (by omega)]
  rfl

theorem canParseHeaders_eq (reader : Reader) (h : 264 ≤ reader.data.length) :
    canParseHeaders reader = .ok
      (decide (Reader.int32At reader.data 0 = 0x54534449) &&
        decide (Reader.int32At reader.data 4 = 10) &&
        decide (Reader.uint32At reader.data 244 = 0x504F464E)) := by
  have hIdent : MdlLayout.Ident = 0x54534449 := by decide
  have hNf : Reader.castUInt32 MdlLayout.NfIdent = 0x504F464E := by decide
  unfold canParseHeaders
  rw [Reader.seekFromBegin_eq reader 0 (by omega)]
  simp only [bind, Except.bind]
  rw [Reader.readInt32_eq _ (by simp only []; omega)]
  simp only []
  rw [Reader.readInt32_eq _ (by simp only []; omega)]
  simp only [hIdent, MdlLayout.Version10, Nat.zero_add]
  by_cases h0 : Reader.int32At reader.data 0 = 0x54534449
  · by_cases h4 : Reader.int32At reader.data 4 = 10
    · rw [Reader.seekFromBegin_eq _ _ (by simp only [MdlLayout.MdlHeaderSize]; omega)]
      simp only []
      rw [MdlLayout.readNfMdlHeader_eq _ (by simp only [MdlLayout.MdlHeaderSize]; omega)]
      simp [h0, h4, hNf, MdlLayout.MdlHeaderSize]
    · simp [h0, h4]
  · simp [h0]

theorem Reader.read_error (reader : Reader) (count : Nat)
    (h : ¬ reader.position + count ≤ reader.data.length) :
    reader.read count = .error Reader.outOfBounds := by
  simp only [Reader.read, Reader.size, h, if_false]

theorem canParseHeaders_true (reader : Reader) (h : canParseHeaders reader = .ok true) :
    264 ≤ reader.data.length := by
  by_cases h264 : 264 ≤ reader.data.length
  · exact h264
  · exfalso
    unfold canParseHeaders at h
    rw [Reader.seekFromBegin_eq reader 0 (by omega)] at h
    simp only [bind, Except.bind] at h
    by_cases h4 : 4 ≤ reader.data.length
    · rw [Reader.readInt32_eq _ (by simp only []; omega)] at h
      simp only [] at h
      by_cases h8 : 8 ≤ reader.data.length
      · rw [Reader.readInt32_eq _ (by simp only []; omega)] at h
        simp only [] at h
        split at h
        · cases h
        · by_cases h244 : 244 ≤ reader.data.length
          · rw [Reader.seekFromBegin_eq _ _ (by simp only [MdlLayout.MdlHeaderSize]; omega)] at h
            simp only [MdlLayout.readNfMdlHeader] at h
            rw [Reader.read_error _ 20 (by simp only [MdlLayout.MdlHeaderSize]; omega)] at h
            simp only [bind, Except.bind] at h
            cases h
          · simp only [Reader.seekFromBegin, Reader.size, MdlLayout.MdlHeaderSize] at h
            rw [if_neg (by omega)] at h
            cases h
      · simp only [Reader.readInt32] at h
        rw [Reader.read_error _ 4 (by simp only []; omega)] at h
        simp only [bind, Except.bind] at h
        cases h
    · simp only [Reader.readInt32] at h
      rw [Reader.read_error _ 4 (by simp only []; omega)] at h
      simp only [bind, Except.bind] at h
      cases h

namespace NightfireOpenModelParser

variable {Path : Type}

theorem canParse_eq (files : ModelFiles Path) (path : Path) (reader : Reader)
    (h : 264 ≤ reader.data.length) :
    canParse files path reader = .ok
      (decide (files.lowerExtension path = ".mdl".toList) && files.assimpCanParse path &&
        (decide (Reader.int32At reader.data 0 = 0x54534449) &&
          decide (Reader.int32At reader.data 4 = 10) &&
          decide (Reader.uint32At reader.data 244 = 0x504F464E))) := by
  unfold canParse
  by_cases hext : files.lowerExtension path = ".mdl".toList
  · cases hassimp : files.assimpCanParse path
    · simp [hext]
    · simp only [hext, ne_eq, not_true_eq_false, if_false, Bool.not_true, decide_True,
        Bool.and_self, Bool.true_and, canParseHeaders_eq reader h]
      rfl
  · rw [if_pos hext, decide_eq_false hext]
    rfl

/-- C13. Nightfire model detection: for every path and every file of at least 264 bytes,
`NightfireOpenModelParser::canParse` returns, and it returns true if and only if the
lower-cased extension is `.mdl`, `AssimpParser::canParse(path)` holds, the `int32` at
offset 0 is `0x54534449`, the `int32` at offset 4 is 10 and the `uint32` at offset 244 is
`0x504F464E`; a second file of at least 264 bytes that has the same bytes at offsets 0 to
7 and 244 to 247 gets the same answer, whatever its other bytes (the version field of the
Nightfire header among them) and its reader's position are. -/
theorem canParse_iff (files : ModelFiles Path) (path : Path) (reader : Reader)
    (h : 264 ≤ reader.data.length) :
    (∃ result, canParse files path reader = .ok result ∧
      (result = true ↔
        files.lowerExtension path = ".mdl".toList ∧ files.assimpCanParse path = true ∧
          Reader.int32At reader.data 0 = 0x54534449 ∧ Reader.int32At reader.data 4 = 10 ∧
          Reader.uint32At reader.data 244 = 0x504F464E)) ∧
    (∀ other : Reader, 264 ≤ other.data.length →
      (∀ i, i < 8 ∨ (244 ≤ i ∧ i < 248) → other.data[i]? = reader.data[i]?) →
      canParse files path other = canParse files path reader) := by
  refine ⟨⟨_, canParse_eq files path reader h, ?_⟩, ?_⟩
  · simp only [Bool.and_eq_true, decide_eq_true_eq]
    tauto
  · intro other hother hsame
    rw [canParse_eq files path reader h, canParse_eq files path other hother]
    have h0 : Reader.bytesAt other.data 0 4 = Reader.bytesAt reader.data 0 4 :=
      Reader.bytesAt_congr _ _ 0 4 (fun i _ hi => hsame i (Or.inl (by omega)))
    have h4 : Reader.bytesAt other.data 4 4 = Reader.bytesAt reader.data 4 4 :=
      Reader.bytesAt_congr _ _ 4 4 (fun i _ hi => hsame i (Or.inl (by omega)))
    have h244 : Reader.bytesAt other.data 244 4 = Reader.bytesAt reader.data 244 4 :=
      Reader.bytesAt_congr _ _ 244 4 (fun i hi hi2 => hsame i (Or.inr ⟨hi, by omega⟩))
    simp only [Reader.int32At, Reader.uint32At, h0, h4, h244]

set_option maxRecDepth 100000 in
/-- Witness of C13: the example file is accepted under the name `a.mdl`, and the theorem
applies to it. -/
theorem canParse_iff_witness :
    264 ≤ exampleMdl.length ∧
      (canParse exampleFiles "a.mdl".toList ⟨exampleMdl, 0⟩).toOption = some true ∧
      (canParse exampleFiles "a.txt".toList ⟨exampleMdl, 0⟩).toOption = some false ∧
      (canParse exampleFiles "a.mdl".toList ⟨exampleMdl.set 0 0, 0⟩).toOption = some false ∧
      ∃ result, canParse exampleFiles "a.mdl".toList ⟨exampleMdl, 0⟩ = .ok result ∧
        (result = true ↔
          exampleFiles.lowerExtension "a.mdl".toList = ".mdl".toList ∧
            exampleFiles.assimpCanParse "a.mdl".toList = true ∧
            Reader.int32At exampleMdl 0 = 0x54534449 ∧ Reader.int32At exampleMdl 4 = 10 ∧
            Reader.uint32At exampleMdl 244 = 0x504F464E) :=
  ⟨by decide, by decide, by decide, by decide,
    (canParse_iff exampleFiles "a.mdl".toList ⟨exampleMdl, 0⟩ (by decide)).1⟩

end NightfireOpenModelParser

namespace NightfireOpenModelParser

variable {Path : Type}

/-! ### The table of texture dimensions -/

theorem readNfMdlTextureDim_eq (reader : Reader)
    (h : reader.position + 8 ≤ reader.data.length) :
    MdlLayout.readNfMdlTextureDim reader = .ok
      ({ width := Reader.int32At reader.data reader.position
         height := Reader.int32At reader.data (reader.position + 4) },
        { reader with position := reader.position + 8 }) := by
  simp only [MdlLayout.readNfMdlTextureDim, Reader.read_eq reader 8 h, Reader.int32At, bind,
    Except.bind]
  rw [Reader.bytesAt_bytesAt _ _ 8 0 4 (by omega), Reader.bytesAt_bytesAt _ _ 8 4 4 (by omega)]
  rfl

theorem textureDimAt_shift (data : List Byte) (offset count : Nat) :
    (Reader.int32At data offset, Reader.int32At data (offset + 4)) ::
        (List.range count).map (textureDimAt data (offset + 8)) =
      (List.range (count + 1)).map (textureDimAt data offset) := by
  simp only [List.range_succ_eq_map, List.map_cons, List.map_map, List.cons.injEq]
  refine ⟨by simp [textureDimAt], ?_⟩
  apply List.map_congr_left
  intro i _
  simp only [Function.comp, textureDimAt, Nat.succ_eq_add_one, Prod.mk.injEq]
  constructor <;> congr 1 <;> omega

theorem readTextureDims_eq (count : Nat) :
    ∀ (reader : Reader) (outDims : List (Int × Int)),
      reader.position + 8 * count ≤ reader.data.length →
      readTextureDims count reader outDims = .ok
        (outDims ++ (List.range count).map (textureDimAt reader.data reader.position)) := by
  induction count with
  | zero => intro reader outDims _; simp [readTextureDims]
  | succ count ih =>
    intro reader outDims h
    rw [readTextureDims, readNfMdlTextureDim_eq reader (by omega)]
    simp only [bind, Except.bind]
    rw [ih _ _ (by simp only []; omega), ← textureDimAt_shift]
    simp only [List.append_assoc, List.singleton_append]

theorem readTextureDims_ok (count : Nat) :
    ∀ (reader : Reader) (outDims dims : List (Int × Int)),
      readTextureDims count reader outDims = .ok dims →
      dims = outDims ++ (List.range count).map (textureDimAt reader.data reader.position) := by
  induction count with
  | zero => intro reader outDims dims h; simp [readTextureDims] at h; simp [h]
  | succ count ih =>
    intro reader outDims dims h
    by_cases hb : reader.position + 8 ≤ reader.data.length
    · rw [readTextureDims, readNfMdlTextureDim_eq reader hb] at h
      simp only [bind, Except.bind] at h
      rw [ih _ _ _ h, ← textureDimAt_shift]
      simp only [List.append_assoc, List.singleton_append]
    · rw [readTextureDims, MdlLayout.readNfMdlTextureDim, Reader.read_error reader 8 hb] at h
      simp only [bind, Except.bind] at h
      cases h

theorem canParse_true (files : ModelFiles Path) (path : Path) (reader : Reader)
    (h : canParse files path reader = .ok true) : canParseHeaders reader = .ok true := by
  unfold canParse at h
  split at h
  · cases h
  · split at h
    · cases h
    · exact h

theorem generateTextureDims_accepted (files : ModelFiles Path) (path : Path)
    (data : List Byte) (hopen : files.openFile path = some data)
    (hcan : canParse files path ⟨data, 0⟩ = .ok true) :
    generateTextureDims files path =
      (Reader.seekFromBegin ⟨data, 264⟩ (Reader.castSizeT (Reader.int32At data 260))).bind
        (fun reader => readTextureDims (Reader.int32At data 180).toNat reader []) := by
  have hheaders := canParse_true files path _ hcan
  have h264 : 264 ≤ data.length := canParseHeaders_true _ hheaders
  have hid : Reader.uint32At data 244 = Reader.castUInt32 MdlLayout.NfIdent := by
    have h := canParseHeaders_eq ⟨data, 0⟩ h264
    rw [hheaders] at h
    simp only [Except.ok.injEq] at h
    have h := h.symm
    simp only [Bool.and_eq_true, decide_eq_true_eq] at h
    rw [h.2]
    decide
  unfold generateTextureDims
  rw [hopen]
  simp only [hcan, bind, Except.bind, Bool.not_true]
  rw [Reader.seekFromBegin_eq _ _ (by simp only [MdlLayout.NumTexturesOffset]; omega)]
  simp only []
  rw [Reader.readInt32_eq _ (by simp only [MdlLayout.NumTexturesOffset]; omega)]
  simp only []
  rw [Reader.seekFromBegin_eq _ _ (by simp only [MdlLayout.MdlHeaderSize]; omega)]
  simp only []
  rw [MdlLayout.readNfMdlHeader_eq _ (by simp only [MdlLayout.MdlHeaderSize]; omega)]
  simp only [MdlLayout.MdlHeaderSize, MdlLayout.NumTexturesOffset, hid, ne_eq,
    not_true_eq_false, if_false]
  rfl

end NightfireOpenModelParser

namespace NightfireOpenModelParser

variable {Path : Type}

/-- C14. Texture dimension table: when the file cannot be opened, and when `canParse`
rejects it, `generateTextureDims` returns the empty list; when `canParse` accepts the
file and `generateTextureDims` returns, the list has as many entries as the `numTextures`
field says (the `int32` at offset 180; none when it is at most 0) and its `i`-th entry is
the width and height of the `i`-th record of 8 bytes from offset `textureDimsIndex` (the
`int32` at offset 260) on; and it does return when the table lies within the file. -/
theorem generateTextureDims_table (files : ModelFiles Path) (path : Path) :
    (files.openFile path = none → generateTextureDims files path = .ok []) ∧
    (∀ data, files.openFile path = some data →
      canParse files path ⟨data, 0⟩ = .ok false → generateTextureDims files path = .ok []) ∧
    (∀ data dims, files.openFile path = some data →
      canParse files path ⟨data, 0⟩ = .ok true → generateTextureDims files path = .ok dims →
      dims.length = (Reader.int32At data 180).toNat ∧
        (Reader.int32At data 180 ≤ 0 → dims = []) ∧
        ∀ i, i < dims.length →
          dims[i]? = some (textureDimAt data (Reader.castSizeT (Reader.int32At data 260)) i)) ∧
    (∀ data, files.openFile path = some data →
      canParse files path ⟨data, 0⟩ = .ok true →
      Reader.castSizeT (Reader.int32At data 260) + 8 * (Reader.int32At data 180).toNat ≤
        data.length →
      ∃ dims, generateTextureDims files path = .ok dims) := by
  refine ⟨?_, ?_, ?_, ?_⟩
  · intro h
    simp only [generateTextureDims, h]
  · intro data hopen hcan
    simp only [generateTextureDims, hopen, hcan, bind, Except.bind, Bool.not_false, if_true]
  · intro data dims hopen hcan hdims
    rw [generateTextureDims_accepted files path data hopen hcan] at hdims
    cases hseek : Reader.seekFromBegin ⟨data, 264⟩ (Reader.castSizeT (Reader.int32At data 260))
      with
    | error e => rw [hseek] at hdims; cases hdims
    | ok reader =>
      rw [hseek] at hdims
      have hreader : reader = ⟨data, Reader.castSizeT (Reader.int32At data 260)⟩ := by
        simp only [Reader.seekFromBegin] at hseek
        split at hseek
        · simp only [Except.ok.injEq] at hseek
          exact hseek.symm
        · cases hseek
      have hlist := readTextureDims_ok _ _ _ _ hdims
      rw [hreader] at hlist
      simp only [List.nil_append] at hlist
      subst hlist
      have hlen : ((List.range (Reader.int32At data 180).toNat).map
          (textureDimAt data (Reader.castSizeT (Reader.int32At data 260)))).length =
          (Reader.int32At data 180).toNat := by
        simp only [List.length_map, List.length_range]
      refine ⟨hlen, ?_, ?_⟩
      · intro hle
        rw [Int.toNat_of_nonpos hle]
        rfl
      · intro i hi
        rw [hlen] at hi
        rw [List.getElem?_map, List.getElem?_range hi]
        rfl
  · intro data hopen hcan hbound
    rw [generateTextureDims_accepted files path data hopen hcan]
    rw [Reader.seekFromBegin_eq _ _ (by simp only []; omega)]
    exact ⟨_, readTextureDims_eq _ _ _ (by simp only []; omega)⟩

set_option maxRecDepth 100000 in
/-- Witness of C14: the two records of the example file, and the empty list for a file
that cannot be opened and for a path that is rejected. -/
theorem generateTextureDims_table_witness :
    (generateTextureDims exampleFiles "a.mdl".toList).toOption = some [(64, 32), (16, 8)] ∧
      generateTextureDims exampleFiles "b.mdl".toList = .ok [] ∧
      ∃ dims, generateTextureDims exampleFiles "a.mdl".toList = .ok dims :=
  ⟨by decide, (generateTextureDims_table exampleFiles "b.mdl".toList).1 (by decide),
    (generateTextureDims_table exampleFiles "a.mdl".toList).2.2.2 exampleMdl (by decide)
      (canParse_eq exampleFiles "a.mdl".toList ⟨exampleMdl, 0⟩ (by decide)) (by decide)⟩

end NightfireOpenModelParser

namespace ReadWalTexture

/-! ### The number of mip levels -/

theorem shiftOne_eq (i : Nat) (h : i < 64) : shiftOne i = .ok (2 ^ i) := by
  simp only [shiftOne, h, if_true]

theorem readMipOffsetsLoop_spec (width height : Nat) :
    ∀ (remaining i : Nat) (offsets : List Nat) (mipLevels : Nat) (reader : Reader),
      reader.position + 4 * remaining ≤ reader.data.length →
      i + remaining ≤ offsets.length →
      (∀ k, k < remaining →
        (∀ j, j < k → ¬ (width / 2 ^ (i + j) = 1 ∨ height / 2 ^ (i + j) = 1)) → i + k < 64) →
      ∃ n result,
        readMipOffsetsLoop width height remaining i offsets mipLevels reader =
          .ok (result, mipLevels + n, { reader with position := reader.position + 4 * n }) ∧
        n ≤ remaining ∧ (0 < remaining → 0 < n) ∧
        (n = remaining ∨
          (0 < n ∧ (width / 2 ^ (i + n - 1) = 1 ∨ height / 2 ^ (i + n - 1) = 1))) ∧
        (∀ j, j + 1 < n → ¬ (width / 2 ^ (i + j) = 1 ∨ height / 2 ^ (i + j) = 1)) ∧
        result.length = offsets.length ∧
        (∀ j, j < n →
          result[i + j]? = some (Reader.uint32At reader.data (reader.position + 4 * j))) ∧
        (∀ j, j < i → result[j]? = offsets[j]?) := by
  intro remaining
  induction remaining with
  | zero =>
    intro i offsets mipLevels reader _ _ _
    refine ⟨0, offsets, rfl, Nat.le_refl _, fun h => h, Or.inl rfl, ?_, rfl, ?_, fun _ _ => rfl⟩
    · intro j hj; omega
    · intro j hj; omega
  | succ remaining ih =>
    intro i offsets mipLevels reader hbytes harray hshift
    have hi : i < offsets.length := by omega
    have h64 : i < 64 := hshift 0 (by omega) (fun j hj => absurd hj (Nat.not_lt_zero j))
    rw [readMipOffsetsLoop, Reader.readSize32_eq reader (by omega)]
    simp only [bind, Except.bind, hi, if_true, shiftOne_eq i h64]
    by_cases hstop : width / 2 ^ i = 1 ∨ height / 2 ^ i = 1
    · rw [if_pos hstop]
      refine ⟨1, _, rfl, by omega, fun _ => Nat.one_pos, Or.inr ⟨Nat.one_pos, ?_⟩, ?_, ?_, ?_, ?_⟩
      · simpa using hstop
      · intro j hj; omega
      · simp only [List.length_set]
      · intro j hj
        have hj0 : j = 0 := by omega
        subst hj0
        simp only [Nat.add_zero, Nat.mul_zero]
        rw [List.getElem?_set_self hi]
      · intro j hj
        rw [List.getElem?_set_ne (by omega)]
    · rw [if_neg hstop]
      obtain ⟨n, result, hrun, hle, hpos, hlast, hbefore, hlen, hread, hkeep⟩ :=
        ih (i + 1) (offsets.set i (Reader.uint32At reader.data reader.position))
          (mipLevels + 1) { reader with position := reader.position + 4 }
          (by simp only []; omega) (by simp only [List.length_set]; omega)
          (by
            intro k hk hnot
            have := hshift (k + 1) (by omega) (by
              intro j hj
              cases j with
              | zero => simpa using hstop
              | succ j =>
                have hj2 := hnot j (by omega)
                rw [show i + (j + 1) = i + 1 + j by omega]
                exact hj2)
            omega)
      refine ⟨n + 1, result, ?_, by omega, fun _ => Nat.succ_pos n, ?_, ?_, ?_, ?_, ?_⟩
      · rw [hrun]
        simp only [Except.ok.injEq, Prod.mk.injEq, Reader.mk.injEq, true_and]
        omega
      · rcases hlast with hlast | ⟨hn, hlast⟩
        · exact Or.inl (by omega)
        · refine Or.inr ⟨Nat.succ_pos n, ?_⟩
          rw [show i + (n + 1) - 1 = i + 1 + n - 1 by omega]
          exact hlast
      · intro j hj
        cases j with
        | zero => simpa using hstop
        | succ j =>
          rw [show i + (j + 1) = i + 1 + j by omega]
          exact hbefore j (by omega)
      · rw [hlen, List.length_set]
      · intro j hj
        cases j with
        | zero =>
          simp only [Nat.add_zero, Nat.mul_zero]
          rw [hkeep i (by omega), List.getElem?_set_self hi]
        | succ j =>
          rw [show i + (j + 1) = i + 1 + j by omega, hread j (by omega)]
          simp only [Option.some.injEq]
          congr 1
          omega
      · intro j hj
        rw [hkeep j (by omega), List.getElem?_set_ne (by omega)]

theorem readMipOffsets_run (maxMipLevels : Nat) (offsets : List Nat) (width height : Nat)
    (reader : Reader)
    (hshift : maxMipLevels ≤ 64 ∨
      ∃ i, i < 64 ∧ (width / 2 ^ i = 1 ∨ height / 2 ^ i = 1))
    (harray : maxMipLevels ≤ offsets.length)
    (hbytes : reader.position + 4 * maxMipLevels ≤ reader.data.length) :
    ∃ m result,
      readMipOffsets maxMipLevels offsets width height reader =
        .ok (m, result, { reader with
          position := reader.position + 4 * m + (maxMipLevels - m) * 4 % 2 ^ 64 }) ∧
      m ≤ maxMipLevels ∧ (0 < maxMipLevels → 0 < m) ∧
      (m = maxMipLevels ∨
        (0 < m ∧ (width / 2 ^ (m - 1) = 1 ∨ height / 2 ^ (m - 1) = 1))) ∧
      (∀ j, j + 1 < m → ¬ (width / 2 ^ j = 1 ∨ height / 2 ^ j = 1)) ∧
      result.length = offsets.length ∧
      (∀ j, j < m →
        result[j]? = some (Reader.uint32At reader.data (reader.position + 4 * j))) := by
  obtain ⟨n, result, hrun, hle, hpos, hlast, hbefore, hlen, hread, _⟩ :=
    readMipOffsetsLoop_spec width height maxMipLevels 0 offsets 0 reader hbytes
      (by omega) (by
        intro k hk hnot
        rcases hshift with hmax | ⟨i, hi, hstop⟩
        · omega
        · by_cases hki : k ≤ i
          · omega
          · exact absurd (by simpa using hstop) (hnot i (by omega)))
  refine ⟨n, result, ?_, hle, hpos, ?_, ?_, hlen, ?_⟩
  · have hmod : (maxMipLevels - n) * 4 % 2 ^ 64 ≤ (maxMipLevels - n) * 4 := Nat.mod_le _ _
    rw [readMipOffsets, hrun]
    simp only [bind, Except.bind, Nat.zero_add]
    rw [Reader.seekForward_eq _ _ (by simp only []; omega)]
  · simpa using hlast
  · simpa using hbefore
  · simpa using hread

theorem readMipOffsets_spec (maxMipLevels : Nat) (offsets : List Nat) (width height : Nat)
    (reader : Reader)
    (hshift : maxMipLevels ≤ 64 ∨
      ∃ i, i < 64 ∧ (width / 2 ^ i = 1 ∨ height / 2 ^ i = 1))
    (harray : maxMipLevels ≤ offsets.length)
    (hbytes : reader.position + 4 * maxMipLevels ≤ reader.data.length)
    (hwrap : maxMipLevels * 4 < 2 ^ 64) :
    ∃ m result,
      readMipOffsets maxMipLevels offsets width height reader =
        .ok (m, result, { reader with position := reader.position + 4 * maxMipLevels }) ∧
      m ≤ maxMipLevels ∧ (0 < maxMipLevels → 0 < m) ∧
      (m = maxMipLevels ∨
        (0 < m ∧ (width / 2 ^ (m - 1) = 1 ∨ height / 2 ^ (m - 1) = 1))) ∧
      (∀ j, j + 1 < m → ¬ (width / 2 ^ j = 1 ∨ height / 2 ^ j = 1)) ∧
      result.length = offsets.length ∧
      (∀ j, j < m →
        result[j]? = some (Reader.uint32At reader.data (reader.position + 4 * j))) := by
  obtain ⟨m, result, hrun, hle, hrest⟩ :=
    readMipOffsets_run maxMipLevels offsets width height reader hshift harray hbytes
  refine ⟨m, result, ?_, hle, hrest⟩
  rw [hrun, Nat.mod_eq_of_lt (by omega)]
  simp only [Except.ok.injEq, Prod.mk.injEq, Reader.mk.injEq, true_and]
  omega

end ReadWalTexture

namespace ReadWalTexture

/-! ### Failure paths of `readWalTexture` -/

theorem readString_eq (reader : Reader) (size : Nat)
    (h : reader.position + size ≤ reader.data.length) :
    ∃ text, reader.readString size =
      .ok (text, { reader with position := reader.position + size }) := by
  refine ⟨((Reader.bytesAt reader.data reader.position size).takeWhile
    (fun byte => byte.val ≠ 0)).map (fun byte => Char.ofNat byte.val), ?_⟩
  simp only [Reader.readString, Reader.read_eq reader size h, bind, Except.bind]

theorem readChar_first (data : List Byte) (h : 1 ≤ data.length) :
    ∃ version, Reader.readChar ⟨data, 0⟩ = .ok (version, ⟨data, 1⟩) ∧
      (version = 3 ↔ data[0]? = some 3) := by
  cases data with
  | nil => simp at h
  | cons first rest =>
    refine ⟨if Reader.unsignedOf (Reader.bytesAt (first :: rest) 0 1) < 128 then
        (Reader.unsignedOf (Reader.bytesAt (first :: rest) 0 1) : Int)
      else (Reader.unsignedOf (Reader.bytesAt (first :: rest) 0 1) : Int) - 256, ?_, ?_⟩
    · simp only [Reader.readChar, Reader.read_eq ⟨first :: rest, 0⟩ 1 (by simp), bind,
        Except.bind]
    · have hbytes : Reader.bytesAt (first :: rest) 0 1 = [first] := by
        simp [Reader.bytesAt]
      simp only [hbytes, Reader.unsignedOf, Nat.mul_zero, Nat.add_zero, List.getElem?_cons_zero,
        Option.some.injEq]
      have hlt := first.isLt
      constructor
      · intro hv
        apply Fin.ext
        split at hv
        · have : (first.val : Int) = 3 := hv
          have : first.val = 3 := by omega
          simpa using this
        · omega
      · intro hf
        subst hf
        decide

theorem readQ2WalBody_invalid (assets : WalAssets) (name : List Char) (data : List Byte)
    (palette : Option Palette) (h : 40 ≤ data.length)
    (hinvalid : assets.checkTextureDimensions (Reader.uint32At data 32)
      (Reader.uint32At data 36) = false) :
    readQ2WalBody assets name ⟨data, 0⟩ palette =
      .ok (.error { textureName := name, msg := "Invalid texture dimensions".toList }) := by
  unfold readQ2WalBody
  rw [Reader.seekForward_eq _ _ (by simp only [WalLayout.TextureNameLength]; omega)]
  simp only [bind, Except.bind, WalLayout.TextureNameLength, Nat.zero_add]
  rw [Reader.readSize32_eq _ (by simp only []; omega)]
  simp only []
  rw [Reader.readSize32_eq _ (by simp only []; omega)]
  simp only [hinvalid, Bool.not_false, if_true]

theorem readQ2WalBody_missing (assets : WalAssets) (name : List Char) (data : List Byte)
    (h : 100 ≤ data.length)
    (hvalid : assets.checkTextureDimensions (Reader.uint32At data 32)
      (Reader.uint32At data 36) = true) :
    readQ2WalBody assets name ⟨data, 0⟩ none =
      .error (.assetException "Missing palette".toList) := by
  obtain ⟨m, offsets, hoffsets, _⟩ :=
    readMipOffsets_spec 4 (List.replicate 4 0) (Reader.uint32At data 32)
      (Reader.uint32At data 36) ⟨data, 40⟩ (Or.inl (by omega)) (by simp)
      (by simp only []; omega) (by omega)
  obtain ⟨text, htext⟩ := readString_eq ⟨data, 56⟩ 32 (by simp only []; omega)
  unfold readQ2WalBody
  rw [Reader.seekForward_eq _ _ (by simp only [WalLayout.TextureNameLength]; omega)]
  simp only [bind, Except.bind, WalLayout.TextureNameLength, Nat.zero_add]
  rw [Reader.readSize32_eq _ (by simp only []; omega)]
  simp only []
  rw [Reader.readSize32_eq _ (by simp only []; omega)]
  simp only [hvalid, Bool.not_true, hoffsets, htext]
  rw [Reader.readInt32_eq _ (by simp only []; omega)]
  simp only []
  rw [Reader.readInt32_eq _ (by simp only []; omega)]
  simp only []
  rw [Reader.readInt32_eq _ (by simp only []; omega)]
  rfl

theorem readWalTexture_q2 (assets : WalAssets) (name : List Char) (data : List Byte)
    (palette : Option Palette) (h : 1 ≤ data.length) (hfirst : data[0]? ≠ some 3) :
    readWalTexture assets name ⟨data, 0⟩ palette =
      match readQ2Wal assets name ⟨data, 0⟩ palette with
      | .error halt => catchException movedFrom halt
      | .ok result => .ok result := by
  obtain ⟨version, hchar, hversion⟩ := readChar_first data h
  have hne : ¬ version = 3 := fun hv => hfirst (hversion.mp hv)
  unfold readWalTexture
  rw [hchar]
  simp only [bind, Except.bind]
  rw [Reader.seekFromBegin_eq _ _ (Nat.zero_le _)]
  simp only [hne, if_false]

end ReadWalTexture

namespace ReadWalTexture

/-- C17. On the path of a missing palette the `ReadTextureError` that `readWalTexture`
returns does not carry the name that the caller passed in: for the example file, which is
a Quake 2 WAL file with valid dimensions, the name `wall` and no palette, the error has
the text `Missing palette` and the name of a string that has been moved from, while the
errors for invalid dimensions and for a file that is too short carry `wall`. -/
theorem readWalTexture_missing_palette_name :
    readWalTexture exampleAssets exampleName ⟨exampleQ2Wal, 0⟩ none =
        .ok (.error { textureName := movedFrom, msg := "Missing palette".toList }) ∧
      exampleName ≠ movedFrom ∧
      readWalTexture exampleAssets exampleName ⟨exampleQ2Wal.set 32 0, 0⟩ none =
        .ok (.error { textureName := exampleName,
                      msg := "Invalid texture dimensions".toList }) ∧
      readWalTexture exampleAssets exampleName ⟨exampleQ2Wal.take 50, 0⟩ none =
        .ok (.error { textureName := exampleName, msg := "out of bounds".toList }) :=
  ⟨rfl, by decide, rfl, rfl⟩

/-- C18. Missing palette is an error result, not an exception: for every WAL file whose
first byte is not 3, when the dimensions are valid and the header of 100 bytes can be
read, `readWalTexture` called without a palette returns a `ReadTextureError` with the
message `Missing palette`, and no exception escapes; when the dimensions are invalid it
returns a `ReadTextureError` with the message `Invalid texture dimensions`, whether or not
a palette is given. -/
theorem readWalTexture_missing_palette (assets : WalAssets) (name : List Char)
    (data : List Byte) (hfirst : data[0]? ≠ some 3) :
    (100 ≤ data.length →
      assets.checkTextureDimensions (Reader.uint32At data 32) (Reader.uint32At data 36) = true →
      ∃ error, readWalTexture assets name ⟨data, 0⟩ none = .ok (.error error) ∧
        error.msg = "Missing palette".toList) ∧
    (40 ≤ data.length →
      assets.checkTextureDimensions (Reader.uint32At data 32) (Reader.uint32At data 36) = false →
      ∀ palette, ∃ error, readWalTexture assets name ⟨data, 0⟩ palette = .ok (.error error) ∧
        error.msg = "Invalid texture dimensions".toList) := by
  refine ⟨?_, ?_⟩
  · intro h hvalid
    refine ⟨{ textureName := movedFrom, msg := "Missing palette".toList }, ?_, rfl⟩
    rw [readWalTexture_q2 assets name data none (by omega) hfirst, readQ2Wal,
      readQ2WalBody_missing assets name data h hvalid]
    rfl
  · intro h hinvalid palette
    refine ⟨{ textureName := name, msg := "Invalid texture dimensions".toList }, ?_, rfl⟩
    rw [readWalTexture_q2 assets name data palette (by omega) hfirst, readQ2Wal,
      readQ2WalBody_invalid assets name data palette h hinvalid]
    rfl

set_option maxRecDepth 100000 in
/-- Witness of C18: the example file without a palette, and the example file with the
width 0 with and without a palette. -/
theorem readWalTexture_missing_palette_witness :
    exampleQ2Wal[0]? ≠ some 3 ∧
      (∃ error, readWalTexture exampleAssets exampleName ⟨exampleQ2Wal, 0⟩ none =
        .ok (.error error) ∧ error.msg = "Missing palette".toList) ∧
      ∀ palette, ∃ error,
        readWalTexture exampleAssets exampleName ⟨exampleQ2Wal.set 32 0, 0⟩ palette =
          .ok (.error error) ∧ error.msg = "Invalid texture dimensions".toList :=
  ⟨by decide,
    (readWalTexture_missing_palette exampleAssets exampleName exampleQ2Wal (by decide)).1
      (by decide) (by decide),
    (readWalTexture_missing_palette exampleAssets exampleName (exampleQ2Wal.set 32 0)
      (by decide)).2 (by decide) (by decide)⟩

/-- C19. `readMips` does not convert every mip level once level 0 has a transparent pixel:
for the example palette, two levels at the offsets 0 and 4 of a texture of width 2 and
height 2 whose first pixel has index 255, in the mode `Index255Transparent` the conversion
runs for level 0 only and the buffer of level 1 stays as it was, while in the mode
`Opaque` it runs once for each of the two levels. -/
theorem readMips_skips_levels :
    (readMips examplePalette 2 [0, 4] 2 2 ⟨[255, 1, 2, 3, 4], 0⟩ [[], []] Color.default
        .Index255Transparent).toOption.map
          (fun state => (state.conversions, state.buffers, state.hasTransparency)) =
        some ([{ level := 0, offset := 0, size := 4 }], [[255, 1, 2, 3], []], true) ∧
      (readMips examplePalette 2 [0, 4] 2 2 ⟨[255, 1, 2, 3, 4], 0⟩ [[], []] Color.default
        .Opaque).toOption.map
          (fun state => (state.conversions, state.buffers, state.hasTransparency)) =
        some ([{ level := 0, offset := 0, size := 4 }, { level := 1, offset := 4, size := 1 }],
          [[255, 1, 2, 3], [4]], false) :=
  ⟨by decide, by decide⟩

end ReadWalTexture

namespace ReadWalTexture

/-! ### What a returned mip level count says -/

theorem readSize32_error (reader : Reader) (h : ¬ reader.position + 4 ≤ reader.data.length) :
    reader.readSize32 = .error Reader.outOfBounds := by
  simp only [Reader.readSize32, Reader.read_error reader 4 h, bind, Except.bind]

theorem shiftOne_error (i : Nat) (h : ¬ i < 64) : shiftOne i = .error .undefinedBehaviour := by
  simp only [shiftOne, h, if_false]

theorem readMipOffsetsLoop_ok (width height : Nat) :
    ∀ (remaining i : Nat) (offsets : List Nat) (mipLevels : Nat) (reader : Reader)
      (result : List Nat) (count : Nat) (after : Reader),
      readMipOffsetsLoop width height remaining i offsets mipLevels reader =
        .ok (result, count, after) →
      ∃ n, n ≤ remaining ∧ count = mipLevels + n ∧
        after = { reader with position := reader.position + 4 * n } ∧
        (∀ j, j + 1 < n → ¬ (width / 2 ^ (i + j) = 1 ∨ height / 2 ^ (i + j) = 1)) ∧
        (∀ j, j < n → i + j < 64) := by
  intro remaining
  induction remaining with
  | zero =>
    intro i offsets mipLevels reader result count after h
    simp only [readMipOffsetsLoop, Except.ok.injEq, Prod.mk.injEq] at h
    refine ⟨0, Nat.le_refl _, h.2.1.symm, h.2.2.symm, ?_, ?_⟩
    · intro j hj; omega
    · intro j hj; omega
  | succ remaining ih =>
    intro i offsets mipLevels reader result count after h
    rw [readMipOffsetsLoop] at h
    by_cases hbytes : reader.position + 4 ≤ reader.data.length
    · rw [Reader.readSize32_eq reader hbytes] at h
      simp only [bind, Except.bind] at h
      by_cases hi : i < offsets.length
      · rw [if_pos hi] at h
        by_cases h64 : i < 64
        · rw [shiftOne_eq i h64] at h
          simp only [] at h
          by_cases hstop : width / 2 ^ i = 1 ∨ height / 2 ^ i = 1
          · rw [if_pos hstop] at h
            simp only [Except.ok.injEq, Prod.mk.injEq] at h
            refine ⟨1, by omega, h.2.1.symm, h.2.2.symm, ?_, ?_⟩
            · intro j hj; omega
            · intro j hj; omega
          · rw [if_neg hstop] at h
            obtain ⟨n, hle, hcount, hafter, hbefore, hlt⟩ := ih _ _ _ _ _ _ _ h
            refine ⟨n + 1, by omega, by omega, ?_, ?_, ?_⟩
            · rw [hafter]
              simp only [Reader.mk.injEq, true_and]
              omega
            · intro j hj
              cases j with
              | zero => simpa using hstop
              | succ j =>
                rw [show i + (j + 1) = i + 1 + j by omega]
                exact hbefore j (by omega)
            · intro j hj
              cases j with
              | zero => simpa using h64
              | succ j =>
                have := hlt j (by omega)
                omega
        · rw [shiftOne_error i h64] at h
          cases h
      · rw [if_neg hi] at h
        cases h
    · rw [readSize32_error reader hbytes] at h
      simp only [bind, Except.bind] at h
      cases h

theorem readMipOffsets_ok (maxMipLevels : Nat) (offsets : List Nat) (width height : Nat)
    (reader : Reader) (m : Nat) (result : List Nat) (after : Reader)
    (h : readMipOffsets maxMipLevels offsets width height reader = .ok (m, result, after)) :
    m ≤ maxMipLevels ∧ after.data = reader.data ∧
      after.position = reader.position + 4 * m + (maxMipLevels - m) * 4 % 2 ^ 64 ∧
      after.position ≤ reader.data.length ∧
      (∀ j, j + 1 < m → ¬ (width / 2 ^ j = 1 ∨ height / 2 ^ j = 1)) ∧
      (∀ j, j < m → j < 64) := by
  rw [readMipOffsets] at h
  cases hloop : readMipOffsetsLoop width height maxMipLevels 0 offsets 0 reader with
  | error halt =>
    rw [hloop] at h
    simp only [bind, Except.bind] at h
    cases h
  | ok value =>
    obtain ⟨offsets2, count, reader2⟩ := value
    rw [hloop] at h
    simp only [bind, Except.bind] at h
    obtain ⟨n, hle, hcount, hafter, hbefore, hlt⟩ :=
      readMipOffsetsLoop_ok width height _ _ _ _ _ _ _ _ hloop
    simp only [Nat.zero_add] at hcount hbefore hlt
    subst hcount hafter
    simp only [Reader.seekForward, Reader.size] at h
    by_cases hseek : reader.position + 4 * count + (maxMipLevels - count) * 4 % 2 ^ 64 ≤
        reader.data.length
    · rw [if_pos hseek] at h
      simp only [Except.ok.injEq, Prod.mk.injEq] at h
      obtain ⟨hm, _, ha⟩ := h
      subst hm ha
      exact ⟨hle, rfl, rfl, hseek, hbefore, hlt⟩
    · rw [if_neg hseek] at h
      cases h

theorem level_pos (width height : Nat) (hwidth : 1 ≤ width) (m : Nat)
    (hbefore : ∀ j, j + 1 < m → ¬ (width / 2 ^ j = 1 ∨ height / 2 ^ j = 1)) :
    ∀ i, i < m → 1 ≤ width / 2 ^ i := by
  intro i
  induction i with
  | zero => intro _; simpa using hwidth
  | succ i ih =>
    intro hi
    have h1 := ih (by omega)
    have h2 : ¬ width / 2 ^ i = 1 := fun h => hbefore i hi (Or.inl h)
    rw [Nat.pow_succ, ← Nat.div_div_eq_div_mul]
    have h3 : 2 ≤ width / 2 ^ i := by omega
    exact (Nat.le_div_iff_mul_le (by omega)).mpr (by omega)

theorem level_pos_height (width height : Nat) (hheight : 1 ≤ height) (m : Nat)
    (hbefore : ∀ j, j + 1 < m → ¬ (width / 2 ^ j = 1 ∨ height / 2 ^ j = 1)) :
    ∀ i, i < m → 1 ≤ height / 2 ^ i :=
  level_pos height width hheight m (fun j hj h => hbefore j hj (Or.symm h))

theorem exists_level_one (width : Nat) (hwidth : 1 ≤ width) (hsize : width < 2 ^ 64) :
    ∃ i, i < 64 ∧ width / 2 ^ i = 1 := by
  refine ⟨Nat.log 2 width, ?_, ?_⟩
  · have h := Nat.pow_log_le_self 2 (by omega : width ≠ 0)
    by_contra hlt
    have : 2 ^ 64 ≤ 2 ^ Nat.log 2 width := Nat.pow_le_pow_right (by omega) (by omega)
    omega
  · have h1 := Nat.pow_log_le_self 2 (by omega : width ≠ 0)
    have h2 := Nat.lt_pow_succ_log_self (by omega : 1 < 2) width
    rw [Nat.pow_succ] at h2
    have hpos : 0 < 2 ^ Nat.log 2 width := Nat.two_pow_pos _
    apply Nat.div_eq_of_lt_le
    · omega
    · omega

end ReadWalTexture

namespace ReadWalTexture

/-! ### The levels that `readMips` converts -/

theorem readMipsStep_conversions (palette : Palette) (offsets : List Nat) (width height : Nat)
    (transparency : PaletteTransparency) (i : Nat) (state next : MipsState)
    (h : readMipsStep palette offsets width height transparency i state = .ok next) :
    next.conversions = state.conversions ∨
      next.conversions = state.conversions ++
        [{ level := i, offset := offsets.getD i 0,
           size := width / 2 ^ i * (height / 2 ^ i) % 2 ^ 64 }] := by
  unfold readMipsStep at h
  dsimp only at h
  cases hseek : state.reader.seekFromBegin (offsets.getD i 0) with
  | error halt =>
    rw [hseek] at h
    simp only [bind, Except.bind] at h
    cases h
  | ok reader =>
    rw [hseek] at h
    simp only [bind, Except.bind] at h
    by_cases h64 : i < 64
    · rw [shiftOne_eq i h64] at h
      simp only [] at h
      cases htrans : state.hasTransparency with
      | true =>
        rw [htrans] at h
        simp only [if_true, Except.ok.injEq] at h
        left
        rw [← h]
        split <;> rfl
      | false =>
        rw [htrans] at h
        simp only [Bool.false_eq_true, if_false] at h
        cases hconv : palette.indexedToRgba reader
            (width / 2 ^ i * (height / 2 ^ i) % 2 ^ 64) transparency with
        | error halt =>
          rw [hconv] at h
          cases h
        | ok conversion =>
          rw [hconv] at h
          simp only [Except.ok.injEq] at h
          right
          rw [← h]
          split <;> rfl
    · rw [shiftOne_error i h64] at h
      cases h

theorem readMipsLoop_conversions (palette : Palette) (offsets : List Nat) (width height : Nat)
    (transparency : PaletteTransparency) :
    ∀ (remaining i : Nat) (state final : MipsState),
      readMipsLoop palette offsets width height transparency remaining i state = .ok final →
      ∀ read ∈ final.conversions, read ∈ state.conversions ∨
        (i ≤ read.level ∧ read.level < i + remaining ∧
          read.size = width / 2 ^ read.level * (height / 2 ^ read.level) % 2 ^ 64) := by
  intro remaining
  induction remaining with
  | zero =>
    intro i state final h read hread
    simp only [readMipsLoop, Except.ok.injEq] at h
    subst h
    exact Or.inl hread
  | succ remaining ih =>
    intro i state final h read hread
    rw [readMipsLoop] at h
    cases hstep : readMipsStep palette offsets width height transparency i state with
    | error halt =>
      rw [hstep] at h
      simp only [bind, Except.bind] at h
      cases h
    | ok next =>
      rw [hstep] at h
      simp only [bind, Except.bind] at h
      rcases ih (i + 1) next final h read hread with hold | ⟨h1, h2, h3⟩
      · rcases readMipsStep_conversions palette offsets width height transparency i state
          next hstep with hsame | hadd
        · exact Or.inl (hsame ▸ hold)
        · rw [hadd, List.mem_append, List.mem_singleton] at hold
          rcases hold with hold | hnew
          · exact Or.inl hold
          · subst hnew
            exact Or.inr ⟨Nat.le_refl _, Nat.lt_add_of_pos_right (Nat.succ_pos _), rfl⟩
      · exact Or.inr ⟨by omega, by omega, h3⟩

theorem readMips_conversions (palette : Palette) (mipLevels : Nat) (offsets : List Nat)
    (width height : Nat) (reader : Reader) (buffers : List TextureBuffer)
    (averageColor : Color) (transparency : PaletteTransparency) (final : MipsState)
    (h : readMips palette mipLevels offsets width height reader buffers averageColor
      transparency = .ok final) :
    ∀ read ∈ final.conversions, read.level < mipLevels ∧
      read.size = width / 2 ^ read.level * (height / 2 ^ read.level) % 2 ^ 64 := by
  intro read hread
  rcases readMipsLoop_conversions palette offsets width height transparency mipLevels 0 _
    final h read hread with hold | ⟨_, h2, h3⟩
  · simp at hold
  · exact ⟨by omega, h3⟩

end ReadWalTexture

namespace ReadWalTexture

/-- C21. No zero-sized mip level: for every width >= 1 and height >= 1, whenever
`readMipOffsets` returns a count, every level `i` below the count has
`floor(width / 2^i) >= 1` and `floor(height / 2^i) >= 1`, so each level has at least one
pixel, and every call of `indexedToRgba` that `readMips` makes for that count is for a
level below the count and, the product `width * height` being a `size_t` value, for at
least one pixel; and `readMipOffsets` does return a count when the width is a `size_t`
value, the array has `maxMipLevels` entries and the reader has `maxMipLevels * 4` bytes
left. -/
theorem readMipOffsets_levels_pos (maxMipLevels : Nat) (offsets : List Nat)
    (width height : Nat) (reader : Reader) (hwidth : 1 ≤ width) (hheight : 1 ≤ height) :
    (∀ m result after,
      readMipOffsets maxMipLevels offsets width height reader = .ok (m, result, after) →
      (∀ i, i < m → 1 ≤ width / 2 ^ i ∧ 1 ≤ height / 2 ^ i ∧
        1 ≤ width / 2 ^ i * (height / 2 ^ i)) ∧
      ∀ palette reader2 buffers averageColor transparency final,
        readMips palette m result width height reader2 buffers averageColor transparency =
          .ok final →
        ∀ read ∈ final.conversions, read.level < m ∧
          (width * height < 2 ^ 64 →
            read.size = width / 2 ^ read.level * (height / 2 ^ read.level) ∧
              1 ≤ read.size)) ∧
    (width < 2 ^ 64 → maxMipLevels ≤ offsets.length →
      reader.position + 4 * maxMipLevels ≤ reader.data.length →
      ∃ m result after,
        readMipOffsets maxMipLevels offsets width height reader = .ok (m, result, after)) := by
  refine ⟨?_, ?_⟩
  · intro m result after hrun
    obtain ⟨_, _, _, _, hbefore, _⟩ :=
      readMipOffsets_ok maxMipLevels offsets width height reader m result after hrun
    have hlevels : ∀ i, i < m → 1 ≤ width / 2 ^ i ∧ 1 ≤ height / 2 ^ i ∧
        1 ≤ width / 2 ^ i * (height / 2 ^ i) := by
      intro i hi
      have hw := level_pos width height hwidth m hbefore i hi
      have hh := level_pos_height width height hheight m hbefore i hi
      exact ⟨hw, hh, Nat.mul_le_mul hw hh⟩
    refine ⟨hlevels, ?_⟩
    intro palette reader2 buffers averageColor transparency final hmips read hread
    obtain ⟨hlevel, hsize⟩ :=
      readMips_conversions palette m result width height reader2 buffers averageColor
        transparency final hmips read hread
    refine ⟨hlevel, ?_⟩
    intro hproduct
    have hle : width / 2 ^ read.level * (height / 2 ^ read.level) ≤ width * height :=
      Nat.mul_le_mul (Nat.div_le_self _ _) (Nat.div_le_self _ _)
    rw [Nat.mod_eq_of_lt (by omega)] at hsize
    exact ⟨hsize, hsize ▸ (hlevels read.level hlevel).2.2⟩
  · intro hsize harray hbytes
    obtain ⟨i, hi, hone⟩ := exists_level_one width hwidth hsize
    obtain ⟨m, result, hrun, _⟩ :=
      readMipOffsets_run maxMipLevels offsets width height reader
        (Or.inr ⟨i, hi, Or.inl hone⟩) harray hbytes
    exact ⟨m, result, _, hrun⟩

/-- Witness of C21: the two mip levels of the example file, of 2 by 2 and 1 by 1 pixels. -/
theorem readMipOffsets_levels_pos_witness :
    1 ≤ 2 ∧
      readMipOffsets 4 (List.replicate 4 0) 2 2 ⟨exampleQ2Wal, 40⟩ =
        .ok (2, [100, 104, 0, 0], ⟨exampleQ2Wal, 56⟩) ∧
      ∀ i, i < 2 → 1 ≤ 2 / 2 ^ i ∧ 1 ≤ 2 / 2 ^ i ∧ 1 ≤ 2 / 2 ^ i * (2 / 2 ^ i) :=
  ⟨by decide, rfl,
    ((readMipOffsets_levels_pos 4 (List.replicate 4 0) 2 2 ⟨exampleQ2Wal, 40⟩ (by decide)
      (by decide)).1 2 [100, 104, 0, 0] ⟨exampleQ2Wal, 56⟩ rfl).1⟩

/-- C22. `readMipOffsets` leaves the reader at a fixed position: for every width, height
and `maxMipLevels`, whenever `readMipOffsets` returns, whatever the count it returns, the
reader is over the same bytes and has advanced by exactly `maxMipLevels * 4` bytes, the
product taken as the `size_t` value that it is; and it does return, at that position, when
the loop ends before level 64, the array has `maxMipLevels` entries and the reader has
`maxMipLevels * 4` bytes left. -/
theorem readMipOffsets_position (maxMipLevels : Nat) (offsets : List Nat)
    (width height : Nat) (reader : Reader) :
    (∀ m result after,
      readMipOffsets maxMipLevels offsets width height reader = .ok (m, result, after) →
      after.data = reader.data ∧
        (maxMipLevels * 4 < 2 ^ 64 →
          after.position = reader.position + maxMipLevels * 4) ∧
        (reader.data.length < 2 ^ 64 →
          after.position = reader.position + maxMipLevels * 4 % 2 ^ 64)) ∧
    ((maxMipLevels ≤ 64 ∨ ∃ i, i < 64 ∧ (width / 2 ^ i = 1 ∨ height / 2 ^ i = 1)) →
      maxMipLevels ≤ offsets.length →
      reader.position + 4 * maxMipLevels ≤ reader.data.length →
      maxMipLevels * 4 < 2 ^ 64 →
      ∃ m result,
        readMipOffsets maxMipLevels offsets width height reader =
          .ok (m, result, { reader with position := reader.position + maxMipLevels * 4 })) := by
  refine ⟨?_, ?_⟩
  · intro m result after hrun
    obtain ⟨hle, hdata, hposition, hbound, _, _⟩ :=
      readMipOffsets_ok maxMipLevels offsets width height reader m result after hrun
    refine ⟨hdata, ?_, ?_⟩
    · intro hwrap
      rw [hposition, Nat.mod_eq_of_lt (by omega)]
      omega
    · intro hsize
      have hsum : maxMipLevels * 4 = 4 * m + (maxMipLevels - m) * 4 := by omega
      have hlt : 4 * m + (maxMipLevels - m) * 4 % 2 ^ 64 < 2 ^ 64 := by omega
      rw [hposition, hsum, ← Nat.add_mod_mod, Nat.mod_eq_of_lt hlt]
      omega
  · intro hshift harray hbytes hwrap
    obtain ⟨m, result, hrun, _⟩ :=
      readMipOffsets_spec maxMipLevels offsets width height reader hshift harray hbytes hwrap
    refine ⟨m, result, ?_⟩
    rw [hrun, Nat.mul_comm 4 maxMipLevels]

/-- Witness of C22: in the example file two of the four offsets are mip levels, and the
reader moves from offset 40 to offset 56. -/
theorem readMipOffsets_position_witness :
    readMipOffsets 4 (List.replicate 4 0) 2 2 ⟨exampleQ2Wal, 40⟩ =
        .ok (2, [100, 104, 0, 0], ⟨exampleQ2Wal, 56⟩) ∧
      (⟨exampleQ2Wal, 56⟩ : Reader).position = (⟨exampleQ2Wal, 40⟩ : Reader).position + 4 * 4 :=
  ⟨rfl,
    ((readMipOffsets_position 4 (List.replicate 4 0) 2 2 ⟨exampleQ2Wal, 40⟩).1 2
      [100, 104, 0, 0] ⟨exampleQ2Wal, 56⟩ rfl).2.1 (by decide)⟩

end ReadWalTexture

namespace ReadWalTexture

/-! ### The dispatch on the version -/

theorem readWalTexture_dk (assets : WalAssets) (name : List Char) (data : List Byte)
    (palette : Option Palette) (hfirst : data[0]? = some 3) :
    readWalTexture assets name ⟨data, 0⟩ palette =
      match readDkWal assets name ⟨data, 0⟩ with
      | .error halt => catchException movedFrom halt
      | .ok result => .ok result := by
  have h : 1 ≤ data.length := by
    cases data with
    | nil => simp at hfirst
    | cons first rest => simp
  obtain ⟨version, hchar, hversion⟩ := readChar_first data h
  have hv : version = 3 := hversion.mpr hfirst
  unfold readWalTexture
  rw [hchar]
  simp only [bind, Except.bind]
  rw [Reader.seekFromBegin_eq _ _ (Nat.zero_le _)]
  simp only [hv, if_true]

theorem readDkWalBody_checked (assets : WalAssets) (name : List Char) (data : List Byte)
    (hfirst : data[0]? = some 3) :
    Reader.readChar ⟨data, 0⟩ = .ok (3, ⟨data, 1⟩) ∧
      readDkWalBody assets name ⟨data, 0⟩ = readDkWalChecked assets name ⟨data, 1⟩ := by
  have h : 1 ≤ data.length := by
    cases data with
    | nil => simp at hfirst
    | cons first rest => simp
  obtain ⟨version, hchar, hversion⟩ := readChar_first data h
  have hv : version = 3 := hversion.mpr hfirst
  subst hv
  refine ⟨hchar, ?_⟩
  unfold readDkWalBody
  rw [hchar]
  simp only [bind, Except.bind, ne_eq, not_true_eq_false, if_false]

end ReadWalTexture

namespace ReadWalTexture

/-- C23. WAL format dispatch and assertion validity: for every data, read by a reader
that stands at its start, `readWalTexture` decodes the data with the Daikatana reader
when the first byte of the data is 3 and with the Quake 2 reader when the first byte is
not 3, both from offset 0, and returns what that reader returns, with the exceptions that
leave it turned into a `ReadTextureError`; in the first case the version that `readDkWal`
reads is 3, so its `ensure(version == 3)` holds and it goes on to decode from offset 1.
Data without a first byte gives a `ReadTextureError` with the caller's name. -/
theorem readWalTexture_dispatch (assets : WalAssets) (name : List Char) (data : List Byte)
    (palette : Option Palette) :
    (data[0]? = some 3 →
      (readWalTexture assets name ⟨data, 0⟩ palette =
        match readDkWal assets name ⟨data, 0⟩ with
        | .error halt => catchException movedFrom halt
        | .ok result => .ok result) ∧
      Reader.readChar ⟨data, 0⟩ = .ok (3, ⟨data, 1⟩) ∧
      readDkWalBody assets name ⟨data, 0⟩ = readDkWalChecked assets name ⟨data, 1⟩) ∧
    (1 ≤ data.length → data[0]? ≠ some 3 →
      readWalTexture assets name ⟨data, 0⟩ palette =
        match readQ2Wal assets name ⟨data, 0⟩ palette with
        | .error halt => catchException movedFrom halt
        | .ok result => .ok result) ∧
    (data = [] →
      readWalTexture assets name ⟨data, 0⟩ palette =
        .ok (.error { textureName := name, msg := Reader.outOfBounds.what })) := by
  refine ⟨?_, ?_, ?_⟩
  · intro hfirst
    exact ⟨readWalTexture_dk assets name data palette hfirst,
      readDkWalBody_checked assets name data hfirst⟩
  · intro h hfirst
    exact readWalTexture_q2 assets name data palette h hfirst
  · intro hempty
    subst hempty
    rfl

set_option maxRecDepth 100000 in
/-- Witness of C23: the example Daikatana file is decoded by the Daikatana reader, which
gives a masked texture, and the example Quake 2 file by the Quake 2 reader. -/
theorem readWalTexture_dispatch_witness :
    (readWalTexture exampleAssets exampleName ⟨exampleDkWal, 0⟩ none =
        match readDkWal exampleAssets exampleName ⟨exampleDkWal, 0⟩ with
        | .error halt => catchException movedFrom halt
        | .ok result => .ok result) ∧
      ((readWalTexture exampleAssets exampleName ⟨exampleDkWal, 0⟩ none).toOption.bind
        (fun result => result.toOption.map (fun texture => texture.type))) = some .Masked ∧
      (readWalTexture exampleAssets exampleName ⟨exampleQ2Wal, 0⟩ (some examplePalette) =
        match readQ2Wal exampleAssets exampleName ⟨exampleQ2Wal, 0⟩ (some examplePalette) with
        | .error halt => catchException movedFrom halt
        | .ok result => .ok result) :=
  ⟨((readWalTexture_dispatch exampleAssets exampleName exampleDkWal none).1 (by decide)).1,
    by decide,
    (readWalTexture_dispatch exampleAssets exampleName exampleQ2Wal (some examplePalette)).2.1
      (by decide) (by decide)⟩

end ReadWalTexture

namespace ReadWalTexture

/-! ### The returned mip level count -/

theorem readMipOffsetsLoop_ok_offsets (width height : Nat) :
    ∀ (remaining i : Nat) (offsets : List Nat) (mipLevels : Nat) (reader : Reader)
      (result : List Nat) (count : Nat) (after : Reader),
      readMipOffsetsLoop width height remaining i offsets mipLevels reader =
        .ok (result, count, after) →
      ∃ n, count = mipLevels + n ∧ (0 < remaining → 0 < n) ∧
        (n = remaining ∨
          (0 < n ∧ (width / 2 ^ (i + n - 1) = 1 ∨ height / 2 ^ (i + n - 1) = 1))) ∧
        (∀ j, j < n →
          result[i + j]? = some (Reader.uint32At reader.data (reader.position + 4 * j))) ∧
        (∀ j, j < i → result[j]? = offsets[j]?) := by
  intro remaining
  induction remaining with
  | zero =>
    intro i offsets mipLevels reader result count after h
    simp only [readMipOffsetsLoop, Except.ok.injEq, Prod.mk.injEq] at h
    obtain ⟨hresult, hcount, _⟩ := h
    subst hresult
    refine ⟨0, hcount.symm, fun h0 => h0, Or.inl rfl, ?_, fun _ _ => rfl⟩
    intro j hj
    omega
  | succ remaining ih =>
    intro i offsets mipLevels reader result count after h
    rw [readMipOffsetsLoop] at h
    by_cases hbytes : reader.position + 4 ≤ reader.data.length
    · rw [Reader.readSize32_eq reader hbytes] at h
      simp only [bind, Except.bind] at h
      by_cases hi : i < offsets.length
      · rw [if_pos hi] at h
        by_cases h64 : i < 64
        · rw [shiftOne_eq i h64] at h
          simp only [] at h
          by_cases hstop : width / 2 ^ i = 1 ∨ height / 2 ^ i = 1
          · rw [if_pos hstop] at h
            simp only [Except.ok.injEq, Prod.mk.injEq] at h
            obtain ⟨hresult, hcount, _⟩ := h
            subst hresult
            refine ⟨1, hcount.symm, fun _ => Nat.one_pos, Or.inr ⟨Nat.one_pos, ?_⟩, ?_, ?_⟩
            · simpa using hstop
            · intro j hj
              have hj0 : j = 0 := by omega
              subst hj0
              simp only [Nat.add_zero, Nat.mul_zero]
              rw [List.getElem?_set_self hi]
            · intro j hj
              rw [List.getElem?_set_ne (by omega)]
          · rw [if_neg hstop] at h
            obtain ⟨n, hcount, _, hlast, hread, hkeep⟩ := ih _ _ _ _ _ _ _ h
            refine ⟨n + 1, by omega, fun _ => Nat.succ_pos n, ?_, ?_, ?_⟩
            · rcases hlast with hlast | ⟨hn, hlast⟩
              · exact Or.inl (by omega)
              · refine Or.inr ⟨Nat.succ_pos n, ?_⟩
                rw [show i + (n + 1) - 1 = i + 1 + n - 1 by omega]
                exact hlast
            · intro j hj
              cases j with
              | zero =>
                simp only [Nat.add_zero, Nat.mul_zero]
                rw [hkeep i (by omega), List.getElem?_set_self hi]
              | succ j =>
                rw [show i + (j + 1) = i + 1 + j by omega, hread j (by omega)]
                simp only [Option.some.injEq]
                congr 1
                omega
            · intro j hj
              rw [hkeep j (by omega), List.getElem?_set_ne (by omega)]
        · rw [shiftOne_error i h64] at h
          cases h
      · rw [if_neg hi] at h
        cases h
    · rw [readSize32_error reader hbytes] at h
      simp only [bind, Except.bind] at h
      cases h

theorem readMipOffsets_ok_offsets (maxMipLevels : Nat) (offsets : List Nat)
    (width height : Nat) (reader : Reader) (m : Nat) (result : List Nat) (after : Reader)
    (h : readMipOffsets maxMipLevels offsets width height reader = .ok (m, result, after)) :
    (0 < maxMipLevels → 0 < m) ∧
      (m = maxMipLevels ∨
        (0 < m ∧ (width / 2 ^ (m - 1) = 1 ∨ height / 2 ^ (m - 1) = 1))) ∧
      (∀ j, j < m →
        result[j]? = some (Reader.uint32At reader.data (reader.position + 4 * j))) := by
  rw [readMipOffsets] at h
  cases hloop : readMipOffsetsLoop width height maxMipLevels 0 offsets 0 reader with
  | error halt =>
    rw [hloop] at h
    simp only [bind, Except.bind] at h
    cases h
  | ok value =>
    obtain ⟨offsets2, count, reader2⟩ := value
    rw [hloop] at h
    simp only [bind, Except.bind] at h
    obtain ⟨n, hcount, hpos, hlast, hread, _⟩ :=
      readMipOffsetsLoop_ok_offsets width height _ _ _ _ _ _ _ _ hloop
    simp only [Nat.zero_add] at hcount hlast hread
    subst hcount
    cases hseek : reader2.seekForward ((maxMipLevels - count) * 4 % 2 ^ 64) with
    | error halt =>
      rw [hseek] at h
      cases h
    | ok reader3 =>
      rw [hseek] at h
      simp only [Except.ok.injEq, Prod.mk.injEq] at h
      obtain ⟨hm, hresult, _⟩ := h
      subst hm hresult
      exact ⟨hpos, hlast, hread⟩

/-- C20. Mip level count: for every `maxMipLevels >= 1` and every width and height,
whenever `readMipOffsets` returns, the count `m` that it returns is the least `m` in
`1..maxMipLevels` such that `m = maxMipLevels` or `floor(width / 2^(m-1)) = 1` or
`floor(height / 2^(m-1)) = 1`, and `offsets[0..m-1]` hold the first `m` 32 bit values
read, in order; hence `1 <= m <= maxMipLevels`. And `readMipOffsets` does return when the
loop ends before level 64, as it does for the 4 and 9 levels of its callers, the array
has `maxMipLevels` entries and the reader has `maxMipLevels * 4` bytes left. -/
theorem readMipOffsets_count (maxMipLevels : Nat) (offsets : List Nat) (width height : Nat)
    (reader : Reader) (hmax : 1 ≤ maxMipLevels) :
    (∀ m result after,
      readMipOffsets maxMipLevels offsets width height reader = .ok (m, result, after) →
      1 ≤ m ∧ m ≤ maxMipLevels ∧
      (m = maxMipLevels ∨ width / 2 ^ (m - 1) = 1 ∨ height / 2 ^ (m - 1) = 1) ∧
      (∀ k, 1 ≤ k → k < m →
        ¬ (k = maxMipLevels ∨ width / 2 ^ (k - 1) = 1 ∨ height / 2 ^ (k - 1) = 1)) ∧
      (∀ j, j < m →
        result[j]? = some (Reader.uint32At reader.data (reader.position + 4 * j)))) ∧
    ((maxMipLevels ≤ 64 ∨ ∃ i, i < 64 ∧ (width / 2 ^ i = 1 ∨ height / 2 ^ i = 1)) →
      maxMipLevels ≤ offsets.length →
      reader.position + 4 * maxMipLevels ≤ reader.data.length →
      ∃ m result after,
        readMipOffsets maxMipLevels offsets width height reader = .ok (m, result, after)) := by
  refine ⟨?_, ?_⟩
  · intro m result after hrun
    obtain ⟨hle, _, _, _, hbefore, _⟩ :=
      readMipOffsets_ok maxMipLevels offsets width height reader m result after hrun
    obtain ⟨hpos, hlast, hread⟩ :=
      readMipOffsets_ok_offsets maxMipLevels offsets width height reader m result after hrun
    refine ⟨hpos (by omega), hle, ?_, ?_, hread⟩
    · rcases hlast with hlast | ⟨_, hlast⟩
      · exact Or.inl hlast
      · exact Or.inr hlast
    · intro k hk1 hkm hk
      rcases hk with hk | hk
      · omega
      · have := hbefore (k - 1) (by omega)
        exact this hk
  · intro hshift harray hbytes
    obtain ⟨m, result, hrun, _⟩ :=
      readMipOffsets_run maxMipLevels offsets width height reader hshift harray hbytes
    exact ⟨m, result, _, hrun⟩

/-- Witness of C20: the four offsets of the example file, of which two are mip levels. -/
theorem readMipOffsets_count_witness :
    1 ≤ 4 ∧
      readMipOffsets 4 (List.replicate 4 0) 2 2 ⟨exampleQ2Wal, 40⟩ =
        .ok (2, [100, 104, 0, 0], ⟨exampleQ2Wal, 56⟩) ∧
      (1 ≤ 2 ∧ 2 ≤ 4 ∧ (2 = 4 ∨ 2 / 2 ^ (2 - 1) = 1 ∨ 2 / 2 ^ (2 - 1) = 1)) ∧
      ∃ m result after,
        readMipOffsets 4 (List.replicate 4 0) 2 2 ⟨exampleQ2Wal, 40⟩ = .ok (m, result, after) :=
  ⟨by decide, rfl,
    (fun h => ⟨h.1, h.2.1, h.2.2.1⟩)
      ((readMipOffsets_count 4 (List.replicate 4 0) 2 2 ⟨exampleQ2Wal, 40⟩ (by decide)).1 2
        [100, 104, 0, 0] ⟨exampleQ2Wal, 56⟩ rfl),
    (readMipOffsets_count 4 (List.replicate 4 0) 2 2 ⟨exampleQ2Wal, 40⟩ (by decide)).2
      (Or.inl (by decide)) (by decide) (by decide)⟩

end ReadWalTexture

end TrenchBroom
